import Mathlib

/-!
# mrdox: the symbol comparator, the Corpus canonicalizer, the index, the build,
the block decoder and the line diff

A shallow embedding of `source/lib/Corpus.cpp`, of the block decoder of
`source/api/AST/AnyBlock.hpp` and of `diffStrings` of `src/test_suite/diff.cpp`.

Byte strings (`llvm::StringRef`) are lists of natural numbers, one per byte (the
value of the byte read as `unsigned char`).  Nothing below needs the bound
`< 256`, so every statement about all lists holds in particular for all byte
strings.
-/

namespace Mrdox

/-- A byte string: the bytes of an `llvm::StringRef`, as `unsigned char` values. -/
abbrev Str := List Nat

/-- The bytes of an ASCII string literal. -/
def bytes (s : String) : Str := s.toList.map Char.toNat

/-- `tolower` of Corpus.cpp: only `'A'..'Z'` (65..90) are mapped, to `'a'..'z'`. -/
def tolower (c : Nat) : Nat :=
  if 65 ≤ c ∧ c ≤ 90 then c + 32 else c

/-- `toupper` of Corpus.cpp: only `'a'..'z'` (97..122) are mapped, to `'A'..'Z'`. -/
def toupper (c : Nat) : Nat :=
  if 97 ≤ c ∧ c ≤ 122 then c - 32 else c

/-- The second loop of `Corpus::symbolCompare`, entered at the label
`do_tiebreak` after both iterators were advanced.  `n0`, `n1` are `s0.size()`
and `s1.size()`, `s_cmp` is the recorded tie-break, the two lists are what is
left of `s0` and `s1` from `i0` and `i1` on. -/
def symbolCompareTiebreak (n0 n1 : Nat) (s_cmp : Int) : Str → Str → Bool
  | c0 :: i0, c1 :: i1 =>
    if tolower c0 ≠ tolower c1 then decide (tolower c0 < tolower c1)
    else symbolCompareTiebreak n0 n1 s_cmp i0 i1
  | _, _ => if n0 ≠ n1 then decide (n0 < n1) else decide (s_cmp < 0)

/-- The first loop of `Corpus::symbolCompare`.  The comparison `c0 > c1` is only
reached when `tolower c0 = tolower c1` and `c0 ≠ c1`, that is for two ASCII
letters, where `char` and `unsigned char` compare alike. -/
def symbolCompareScan (n0 n1 : Nat) : Str → Str → Bool
  | c0 :: i0, c1 :: i1 =>
    if tolower c0 ≠ tolower c1 then decide (tolower c0 < tolower c1)
    else if c0 ≠ c1 then
      symbolCompareTiebreak n0 n1 (if c0 > c1 then -1 else 1) i0 i1
    else symbolCompareScan n0 n1 i0 i1
  | _, _ => if n0 ≠ n1 then decide (n0 < n1) else false

/-- `Corpus::symbolCompare(s0, s1)`. -/
def symbolCompare (s0 s1 : Str) : Bool :=
  symbolCompareScan s0.length s1.length s0 s1

/-- Bytewise lexicographic order on byte strings, a proper prefix being less. -/
def lexLess : Str → Str → Bool
  | [], [] => false
  | [], _ :: _ => true
  | _ :: _, [] => false
  | a :: as, b :: bs => if a < b then true else if b < a then false else lexLess as bs

/-- The string with `tolower` applied to every byte. -/
def lower (s : Str) : Str := s.map tolower

/-- `'A'..'Z'`. -/
def isUpper (c : Nat) : Prop := 65 ≤ c ∧ c ≤ 90

/-- `'a'..'z'`. -/
def isLower (c : Nat) : Prop := 97 ≤ c ∧ c ≤ 122

/-- One insertion step of the sort: `x` goes in front of the first element
it compares less than. -/
def stdSortInsert {α : Type} (lt : α → α → Bool) (x : α) : List α → List α
  | [] => [x]
  | y :: ys => if lt x y then x :: y :: ys else y :: stdSortInsert lt x ys

/-- The library routine `std::sort(first, last, comp)` (and `llvm::sort`), which
is not part of the repository: it rearranges the range into a permutation in
which no element compares less than an earlier one.  The model is an insertion
sort; a range of fewer than two elements is returned without calling `comp`. -/
def stdSort {α : Type} (lt : α → α → Bool) : List α → List α
  | [] => []
  | x :: xs => stdSortInsert lt x (stdSort lt xs)

/-! ### The Corpus -/

/-- `SymbolID`: the fixed-width opaque identifier of a symbol, here a number. -/
abbrev SymbolID := Nat

/-- `EmptySID`: the reserved identifier of the global namespace. -/
def EmptySID : SymbolID := 0

/-- `InfoType`: the kind tag of an `Info` and of a `Reference`. -/
inductive InfoType where
  | IT_default
  | IT_namespace
  | IT_record
  | IT_function
  | IT_enum
  | IT_typedef
  deriving DecidableEq, Repr

/-- `Reference`: id, display name, kind and path of a symbol that is referred to. -/
structure Reference where
  USR : SymbolID
  Name : Str
  RefType : InfoType
  Path : Str
  deriving DecidableEq, Repr

/-- The fields of the base class `Info` that Corpus.cpp reads.  The kind tag
`IT` is given by the dynamic type, see `AnyInfo.IT`.  `Namespace` lists the
enclosing scopes, the direct parent first and the upper-most namespace last. -/
structure Info where
  USR : SymbolID
  Name : Str
  Namespace : List Reference
  Path : Str
  deriving DecidableEq, Repr

/-- `EnumInfo`; Corpus.cpp reads none of its own fields. -/
structure EnumInfo extends Info
  deriving DecidableEq, Repr

/-- `TypedefInfo`; Corpus.cpp reads none of its own fields. -/
structure TypedefInfo extends Info
  deriving DecidableEq, Repr

/-- `Scope`, as Corpus.cpp uses it: children that are namespaces, records and
functions are held as references, enums and typedefs by value. -/
structure Scope where
  Namespaces : List Reference
  Records : List Reference
  Functions : List Reference
  Enums : List EnumInfo
  Typedefs : List TypedefInfo
  deriving DecidableEq, Repr

/-- `NamespaceInfo`. -/
structure NamespaceInfo extends Info where
  Children : Scope
  deriving DecidableEq, Repr

/-- `RecordInfo`; of its own fields only the `Scope` of children is kept. -/
structure RecordInfo extends Info where
  Children : Scope
  deriving DecidableEq, Repr

/-- `FunctionInfo`; Corpus.cpp reads none of its own fields. -/
structure FunctionInfo extends Info
  deriving DecidableEq, Repr

/-- What a `std::unique_ptr<Info>` of the map points to: an object of one of the
concrete kinds. -/
inductive AnyInfo where
  | ofNamespace (I : NamespaceInfo)
  | ofRecord (I : RecordInfo)
  | ofFunction (I : FunctionInfo)
  | ofEnum (I : EnumInfo)
  | ofTypedef (I : TypedefInfo)
  deriving DecidableEq, Repr

/-- The `Info` base of an object. -/
def AnyInfo.base : AnyInfo → Info
  | .ofNamespace I => I.toInfo
  | .ofRecord I => I.toInfo
  | .ofFunction I => I.toInfo
  | .ofEnum I => I.toInfo
  | .ofTypedef I => I.toInfo

/-- The field `Info::IT`, set by the constructor of each kind. -/
def AnyInfo.IT : AnyInfo → InfoType
  | .ofNamespace _ => .IT_namespace
  | .ofRecord _ => .IT_record
  | .ofFunction _ => .IT_function
  | .ofTypedef _ => .IT_typedef
  | .ofEnum _ => .IT_enum

/-- `Index`: a `Reference` with a vector of child `Index` nodes. -/
inductive Index where
  | mk (ref : Reference) (Children : List Index)

/-- `Corpus::InfoMap`, a string map from the id to the owned `Info`, as a list of
entries; the first entry with a key is the one the key denotes. -/
abbrev InfoMap := List (SymbolID × AnyInfo)

/-- The state of a `Corpus`: the map, the index, the discovery list `allSymbols`
and the flag `isCanonical_`.  The configuration and the `Reporter` only steer
what is printed. -/
structure Corpus where
  InfoMap : InfoMap
  Idx : Index
  allSymbols : List SymbolID
  isCanonical_ : Bool

/-- Lookup of an id in the map. -/
def infoMapFind : InfoMap → SymbolID → Option AnyInfo
  | [], _ => none
  | (k, v) :: rest, id => if k = id then some v else infoMapFind rest id

/-- A write through a reference to the object stored under `id`: the object is
replaced in place, a map without the key is left as it is. -/
def infoMapSet : InfoMap → SymbolID → AnyInfo → InfoMap
  | [], _, _ => []
  | (k, w) :: rest, id, v =>
    if k = id then (k, v) :: rest else (k, w) :: infoMapSet rest id v

/-- Modelled from the spec: `Corpus::find<NamespaceInfo>(id)`, declared in
Corpus.hpp outside src: the object stored under `id` if it is a namespace, no
object if the id is absent or of another kind.  `Corpus::get<NamespaceInfo>(id)`
is the same lookup, where no object is a failed call. -/
def findNamespace (m : InfoMap) (id : SymbolID) : Option NamespaceInfo :=
  match infoMapFind m id with
  | some (.ofNamespace I) => some I
  | _ => none

/-- Modelled from the spec: `Corpus::get<RecordInfo>(id)`, failing if the id is
absent or of another kind. -/
def getRecord (m : InfoMap) (id : SymbolID) : Option RecordInfo :=
  match infoMapFind m id with
  | some (.ofRecord I) => some I
  | _ => none

/-- Modelled from the spec: `Corpus::get<FunctionInfo>(id)`, failing if the id
is absent or of another kind. -/
def getFunction (m : InfoMap) (id : SymbolID) : Option FunctionInfo :=
  match infoMapFind m id with
  | some (.ofFunction I) => some I
  | _ => none

/-- Modelled from the spec: `Info::getFullyQualifiedName`, defined outside src,
gives the fully-qualified dotted name: the names of the enclosing scopes from
the upper-most one down, then the own name, joined by `'.'`.  The general
results take the name function as a parameter `fqn`; this one serves for
concrete inputs. -/
def dottedName (I : Info) : Str :=
  List.intercalate [46] (I.Namespace.reverse.map (fun r => r.Name) ++ [I.Name])

/-- The fully qualified name of the symbol stored under `id`:
`get<Info>(id).getFullyQualifiedName(temp)`. -/
def fqnOf (fqn : Info → Str) (m : InfoMap) (id : SymbolID) : Option Str :=
  (infoMapFind m id).map (fun I => fqn I.base)

/-- The comparator lambda of `canonicalize(Scope&)`: `symbolCompare` on the fully
qualified names of the two referenced symbols.  It is only called on references
that resolve (see `sortReferences`). -/
def refCompare (fqn : Info → Str) (m : InfoMap) (ref0 ref1 : Reference) : Bool :=
  match fqnOf fqn m ref0.USR, fqnOf fqn m ref1.USR with
  | some s0, some s1 => symbolCompare s0 s1
  | _, _ => false

/-- The call `std::sort(list.begin(), list.end(), lambda)` in `canonicalize`.
With two or more elements the lambda is called on every element, and its
`get<Info>` fails on a reference that is not in the map. -/
def sortReferences (fqn : Info → Str) (m : InfoMap) (l : List Reference) :
    Option (List Reference) :=
  if l.length < 2 ∨ l.all (fun r => (infoMapFind m r.USR).isSome) = true then
    some (stdSort (refCompare fqn m) l)
  else none

/-- `Corpus::canonicalize(RecordInfo&, Temps&, Reporter&)`: returns true and
leaves the record as it is. -/
def canonicalizeRecord (_I : RecordInfo) : Bool := true

/-- `Corpus::canonicalize(FunctionInfo&, Temps&, Reporter&)`. -/
def canonicalizeFunction (_I : FunctionInfo) : Bool := true

/-- `Corpus::canonicalize(EnumInfo&, Temps&, Reporter&)`. -/
def canonicalizeEnum (_I : EnumInfo) : Bool := true

/-- `Corpus::canonicalize(TypedefInfo&, Temps&, Reporter&)`. -/
def canonicalizeTypedef (_I : TypedefInfo) : Bool := true

/-- The loop `for(auto& ref : I.Namespaces) if(! canonicalize(get<NamespaceInfo>
(ref.USR), t, R)) return false;` with the recursive call as `f`. -/
def forNamespaces (f : InfoMap → SymbolID → Option (Bool × InfoMap)) :
    InfoMap → List Reference → Option (Bool × InfoMap)
  | m, [] => some (true, m)
  | m, ref :: rest =>
    match f m ref.USR with
    | none => none
    | some (false, m1) => some (false, m1)
    | some (true, m1) => forNamespaces f m1 rest

/-- The loop over `I.Records`: `get<RecordInfo>` on each reference, then the
record overload. -/
def forRecords (m : InfoMap) : List Reference → Option Bool
  | [] => some true
  | ref :: rest =>
    match getRecord m ref.USR with
    | none => none
    | some I => if canonicalizeRecord I then forRecords m rest else some false

/-- The loop over `I.Functions`. -/
def forFunctions (m : InfoMap) : List Reference → Option Bool
  | [] => some true
  | ref :: rest =>
    match getFunction m ref.USR with
    | none => none
    | some I => if canonicalizeFunction I then forFunctions m rest else some false

/-- The namespace `I` after the three sorts of `canonicalize(Scope&)` have
rearranged its lists `Namespaces`, `Records` and `Functions` in place. -/
def setChildLists (I : NamespaceInfo) (ns rs fs : List Reference) : NamespaceInfo :=
  { I with Children := { I.Children with Namespaces := ns, Records := rs, Functions := fs } }

/-- `Corpus::canonicalize(NamespaceInfo&, Temps&, Reporter&)` together with
`Corpus::canonicalize(Scope&, Temps&, Reporter&)` on its `Children`, for the
namespace stored under `id`.  `fuel` bounds the depth of the recursion; no
result stands for a failed `get` or for a recursion deeper than `fuel`.  The
three sorts read the map only for names, which they do not change. -/
def canonicalizeNamespace (fqn : Info → Str) :
    Nat → InfoMap → SymbolID → Option (Bool × InfoMap)
  | 0, _, _ => none
  | fuel + 1, m, id =>
    match findNamespace m id with
    | none => none
    | some I =>
      match sortReferences fqn m I.Children.Namespaces,
            sortReferences fqn m I.Children.Records,
            sortReferences fqn m I.Children.Functions with
      | some ns, some rs, some fs =>
        let m1 := infoMapSet m id (.ofNamespace (setChildLists I ns rs fs))
        match forNamespaces (canonicalizeNamespace fqn fuel) m1 ns with
        | none => none
        | some (false, m2) => some (false, m2)
        | some (true, m2) =>
          match forRecords m2 rs with
          | none => none
          | some false => some (false, m2)
          | some true =>
            match forFunctions m2 fs with
            | none => none
            | some false => some (false, m2)
            | some true =>
              if I.Children.Enums.all canonicalizeEnum then
                if I.Children.Typedefs.all canonicalizeTypedef then some (true, m2)
                else some (false, m2)
              else some (false, m2)
      | _, _, _ => none

/-- `Corpus::canonicalize(Reporter&)`: the returned flag and the Corpus after
the call. -/
def canonicalize (fqn : Info → Str) (fuel : Nat) (C : Corpus) : Option (Bool × Corpus) :=
  if C.isCanonical_ then some (true, C)
  else
    match findNamespace C.InfoMap EmptySID with
    | none => some (false, C)
    | some _ =>
      match canonicalizeNamespace fqn fuel C.InfoMap EmptySID with
      | none => none
      | some (false, m) => some (false, { C with InfoMap := m })
      | some (true, m) => some (true, { C with InfoMap := m, isCanonical_ := true })

/-! ### Predicates used to state the results -/

/-- A list of references is sorted by name: each pair of an earlier and a later
element resolves to names `sa`, `sb`, and the later one does not compare less
than the earlier one. -/
def SortedByName (K : SymbolID → Option Str) (l : List Reference) : Prop :=
  l.Pairwise (fun a b => ∃ sa sb, K a.USR = some sa ∧ K b.USR = some sb ∧
    symbolCompare sb sa = false)

/-- The namespace `J` is the namespace `I` with its three reference lists
rearranged and everything else as it was. -/
def NsRel (I J : NamespaceInfo) : Prop :=
  J.toInfo = I.toInfo ∧
  J.Children.Namespaces.Perm I.Children.Namespaces ∧
  J.Children.Records.Perm I.Children.Records ∧
  J.Children.Functions.Perm I.Children.Functions ∧
  J.Children.Enums = I.Children.Enums ∧
  J.Children.Typedefs = I.Children.Typedefs

/-- Two stored objects are the same, or namespaces related by `NsRel`. -/
def AnyRel (a b : AnyInfo) : Prop :=
  a = b ∨ ∃ I J, a = .ofNamespace I ∧ b = .ofNamespace J ∧ NsRel I J

/-- The map `m2` holds the same ids as `m1`, with objects related by `AnyRel`. -/
def MapRel (m1 m2 : InfoMap) : Prop :=
  ∀ j, (infoMapFind m1 j = none ∧ infoMapFind m2 j = none) ∨
    ∃ a b, infoMapFind m1 j = some a ∧ infoMapFind m2 j = some b ∧ AnyRel a b

/-- The namespace stored under `j` has its three reference lists sorted by name. -/
def SortedNs (K : SymbolID → Option Str) (m : InfoMap) (j : SymbolID) : Prop :=
  ∃ J, findNamespace m j = some J ∧
    SortedByName K J.Children.Namespaces ∧
    SortedByName K J.Children.Records ∧
    SortedByName K J.Children.Functions

/-- From `m1` to `m2` objects were only rearranged, and each object that
changed is a namespace with sorted lists. -/
def SortStep (K : SymbolID → Option Str) (m1 m2 : InfoMap) : Prop :=
  MapRel m1 m2 ∧ ∀ j, infoMapFind m2 j = infoMapFind m1 j ∨ SortedNs K m2 j

/-- The id `j` is reached from the namespace `i` through child-namespace
references. -/
inductive Reach (m : InfoMap) : SymbolID → SymbolID → Prop where
  | refl (i : SymbolID) : Reach m i i
  | step (i j : SymbolID) (I : NamespaceInfo) (r : Reference) :
      findNamespace m i = some I → r ∈ I.Children.Namespaces → Reach m r.USR j → Reach m i j

/-! ### The index and the insert path -/

/-- The `Reference` base of an index node. -/
def Index.ref : Index → Reference
  | .mk r _ => r

/-- The vector `Children` of an index node. -/
def Index.Children : Index → List Index
  | .mk _ cs => cs

/-- The call `llvm::find(pi->Children, id)`: the first child whose `USR` is
`id`, an index node being compared with an id through its `USR`. -/
def findChild (id : SymbolID) : List Index → Option Index
  | [] => none
  | c :: cs => if c.ref.USR = id then some c else findChild id cs

/-- The children of a node after the first child with the id `id` was worked on
in place by `found`, or, when no child has this id, after `missing` was added by
`emplace_back`. -/
def updateOrAppend (id : SymbolID) (found : Index → Index) (missing : Index) :
    List Index → List Index
  | [] => [missing]
  | c :: cs =>
    if c.ref.USR = id then found c :: cs else c :: updateOrAppend id found missing cs

/-- The else branch at the end of `insertIntoIndex`: `Path` and `Name` of the
node found are set when they are empty. -/
def backfill (extractName : AnyInfo → Str) (I : AnyInfo) : Index → Index
  | .mk r cs =>
    .mk { r with Path := if r.Path = [] then I.base.Path else r.Path,
                 Name := if r.Name = [] then extractName I else r.Name } cs

/-- The end of `insertIntoIndex`, on the node `pi` the loop has reached: the
node of `I` is looked for among the children, added when it is not there and
back-filled when it is. -/
def indexLeaf (extractName : AnyInfo → Str) (I : AnyInfo) : Index → Index
  | .mk r cs =>
    .mk r (updateOrAppend I.base.USR (backfill extractName I)
      (.mk { USR := I.base.USR, Name := extractName I, RefType := I.IT, Path := I.base.Path } [])
      cs)

/-- The loop of `insertIntoIndex` over the references still to visit, followed
by `leafStep`, on the node `pi` points to: for the next reference `R` the child
with its `USR` is entered, after it was created from `R` when it was not
there. -/
def indexWalk (leafStep : Index → Index) : List Reference → Index → Index
  | [], pi => leafStep pi
  | R :: rest, .mk r cs =>
    .mk r (updateOrAppend R.USR (indexWalk leafStep rest)
      (indexWalk leafStep rest (.mk R [])) cs)

/-- `Corpus::insertIntoIndex(I)`.  The name function `Info::extractName`, defined
outside src, is the parameter `extractName`.  A failed `assert(! isCanonical_)`
gives no result.  The loop runs over `llvm::reverse(I.Namespace)`. -/
def insertIntoIndex (extractName : AnyInfo → Str) (C : Corpus) (I : AnyInfo) :
    Option Corpus :=
  if C.isCanonical_ then none
  else
    some { C with
      Idx := indexWalk (indexLeaf extractName I) I.base.Namespace.reverse C.Idx,
      allSymbols := C.allSymbols ++ [I.base.USR] }

/-- The assignment `InfoMap[key] = value`: the object stored under the key is
replaced, a new key gets a new entry. -/
def infoMapInsert : InfoMap → SymbolID → AnyInfo → InfoMap
  | [], id, v => [(id, v)]
  | (k, w) :: rest, id, v =>
    if k = id then (k, v) :: rest else (k, w) :: infoMapInsert rest id v

/-- `Corpus::insert(Ip)`: the object is stored in the map under its `USR`, then
`insertIntoIndex` runs.  A failed `assert(! isCanonical_)` gives no result. -/
def insert (extractName : AnyInfo → Str) (C : Corpus) (I : AnyInfo) : Option Corpus :=
  if C.isCanonical_ then none
  else insertIntoIndex extractName { C with InfoMap := infoMapInsert C.InfoMap I.base.USR I } I

/-- The root of an index without entries: a default `Reference` and no
children. -/
def emptyIndex : Index :=
  .mk { USR := EmptySID, Name := [], RefType := .IT_default, Path := [] } []

/-- The Corpus made by `new Corpus(config)`: nothing stored, not canonical. -/
def emptyCorpus : Corpus :=
  { InfoMap := [], Idx := emptyIndex, allSymbols := [], isCanonical_ := false }

/-- The node reached from a node by following a path of ids, each step taking
the first child with the id. -/
def lookupPath : List SymbolID → Index → Option Index
  | [], n => some n
  | id :: rest, .mk _ cs =>
    match findChild id cs with
    | none => none
    | some c => lookupPath rest c

/-- The ids of the loop of `insertIntoIndex` in the order it visits them: the
ids of `I.Namespace` from the last one to the first. -/
def walkIds (I : AnyInfo) : List SymbolID :=
  I.base.Namespace.reverse.map (fun R => R.USR)

mutual
/-- The number of nodes of an index tree. -/
def Index.size : Index → Nat
  | .mk _ cs => 1 + sizeOfChildren cs
/-- The number of nodes of a list of index trees. -/
def sizeOfChildren : List Index → Nat
  | [] => 0
  | c :: cs => c.size + sizeOfChildren cs
end

/-- How many ids at the front of a path are found, one after the other, from a
node on. -/
def foundDepth : List SymbolID → Index → Nat
  | [], _ => 0
  | id :: rest, .mk _ cs =>
    match findChild id cs with
    | none => 0
    | some c => 1 + foundDepth rest c

/-! ### A small Corpus for concrete evaluation -/

/-- A reference with an empty path. -/
def refTo (id : SymbolID) (name : String) (k : InfoType) : Reference :=
  { USR := id, Name := bytes name, RefType := k, Path := [] }

/-- A scope without children. -/
def emptyScope : Scope :=
  { Namespaces := [], Records := [], Functions := [], Enums := [], Typedefs := [] }

/-- The typedef `X` of the global namespace. -/
def typedefX : TypedefInfo := { USR := 6, Name := bytes "X", Namespace := [], Path := [] }

/-- The typedef `Y` of the global namespace. -/
def typedefY : TypedefInfo := { USR := 7, Name := bytes "Y", Namespace := [], Path := [] }

/-- The typedef `U` of the record `R`. -/
def typedefRU : TypedefInfo :=
  { USR := 8, Name := bytes "U", Namespace := [refTo 3 "R" .IT_record], Path := [] }

/-- The typedef `V` of the record `R`. -/
def typedefRV : TypedefInfo :=
  { USR := 9, Name := bytes "V", Namespace := [refTo 3 "R" .IT_record], Path := [] }

/-- The objects of the sample, given the two namespace references of the global
namespace in some order and its typedefs in some order: the global namespace
with child namespaces `a` and `b`, the record `R` and the typedefs; the record
`R` lists its member functions as `n`, `m` and its typedefs as `V`, `U`. -/
def sampleMap (nss : List Reference) (tds : List TypedefInfo) : InfoMap :=
  [ (0, .ofNamespace
      { USR := EmptySID, Name := [], Namespace := [], Path := [],
        Children := { Namespaces := nss, Records := [refTo 3 "R" .IT_record],
                      Functions := [], Enums := [], Typedefs := tds } }),
    (1, .ofNamespace
      { USR := 1, Name := bytes "a", Namespace := [], Path := [], Children := emptyScope }),
    (2, .ofNamespace
      { USR := 2, Name := bytes "b", Namespace := [], Path := [], Children := emptyScope }),
    (3, .ofRecord
      { USR := 3, Name := bytes "R", Namespace := [], Path := [],
        Children := { emptyScope with
          Functions := [refTo 5 "n" .IT_function, refTo 4 "m" .IT_function],
          Typedefs := [typedefRV, typedefRU] } }),
    (4, .ofFunction
      { USR := 4, Name := bytes "m", Namespace := [refTo 3 "R" .IT_record], Path := [] }),
    (5, .ofFunction
      { USR := 5, Name := bytes "n", Namespace := [refTo 3 "R" .IT_record], Path := [] }) ]

/-- The index of the sample after the six inserts. -/
def sampleIndex : Index :=
  .mk { USR := EmptySID, Name := [], RefType := .IT_default, Path := [] }
    [ .mk (refTo 0 "" .IT_namespace) [],
      .mk (refTo 1 "a" .IT_namespace) [],
      .mk (refTo 2 "b" .IT_namespace) [],
      .mk (refTo 3 "R" .IT_record)
        [ .mk (refTo 4 "m" .IT_function) [], .mk (refTo 5 "n" .IT_function) [] ] ]

/-- The sample Corpus before canonicalization; the global namespace lists its
child namespaces as `b`, `a`. -/
def sampleCorpus (tds : List TypedefInfo) : Corpus :=
  { InfoMap := sampleMap [refTo 2 "b" .IT_namespace, refTo 1 "a" .IT_namespace] tds,
    Idx := sampleIndex, allSymbols := [0, 1, 2, 3, 4, 5], isCanonical_ := false }

/-- The sample Corpus as `canonicalize` leaves it: the child namespaces of the
global namespace are now listed as `a`, `b`. -/
def sampleCanonical (tds : List TypedefInfo) : Corpus :=
  { InfoMap := sampleMap [refTo 1 "a" .IT_namespace, refTo 2 "b" .IT_namespace] tds,
    Idx := sampleIndex, allSymbols := [0, 1, 2, 3, 4, 5], isCanonical_ := true }

/-- A Corpus whose map holds a record, not a namespace, under the id of the
global namespace. -/
def noGlobalCorpus : Corpus :=
  { InfoMap := [ (0, .ofRecord
      { USR := EmptySID, Name := [], Namespace := [], Path := [], Children := emptyScope }) ],
    Idx := .mk { USR := EmptySID, Name := [], RefType := .IT_default, Path := [] }
      [ .mk (refTo 0 "" .IT_record) [] ],
    allSymbols := [0], isCanonical_ := false }

/-- The calls of the public interface that change a Corpus. -/
inductive CorpusOp where
  | canonicalize (fuel : Nat)
  | insert (I : AnyInfo)
  | insertIntoIndex (I : AnyInfo)

/-- The Corpus after one call, when the call returns: `canonicalize` may return
either flag, the inserts return only when their assertion holds. -/
def applyOp (fqn : Info → Str) (extractName : AnyInfo → Str) (C : Corpus) :
    CorpusOp → Option Corpus
  | .canonicalize fuel => (canonicalize fqn fuel C).map (fun r => r.2)
  | .insert I => insert extractName C I
  | .insertIntoIndex I => insertIntoIndex extractName C I

/-- The Corpus after a sequence of calls each of which returns. -/
def runOps (fqn : Info → Str) (extractName : AnyInfo → Str) :
    Corpus → List CorpusOp → Option Corpus
  | C, [] => some C
  | C, op :: ops =>
    match applyOp fqn extractName C op with
    | none => none
    | some C2 => runOps fqn extractName C2 ops

/-- A sequence of `Corpus::insert` calls. -/
def insertAll (extractName : AnyInfo → Str) : Corpus → List AnyInfo → Option Corpus
  | C, [] => some C
  | C, I :: rest =>
    match insert extractName C I with
    | none => none
    | some C2 => insertAll extractName C2 rest

/-- Modelled from the spec: `Info::extractName`, defined outside src; the index
entry gets "the symbol's own name".  The general results take the name function
as a parameter `extractName`; this one serves for concrete inputs. -/
def ownName (I : AnyInfo) : Str := I.base.Name

/-- A function `X` whose `Namespace` list is `[B, A]`. -/
def sampleX : AnyInfo :=
  .ofFunction { USR := 12, Name := bytes "X",
                Namespace := [refTo 11 "B" .IT_namespace, refTo 10 "A" .IT_namespace],
                Path := bytes "A/B" }

/-- A function `f` whose parent is referred to without name, kind and path. -/
def sampleChild : AnyInfo :=
  .ofFunction { USR := 21, Name := bytes "f",
                Namespace := [{ USR := 20, Name := [], RefType := .IT_default, Path := [] }],
                Path := bytes "N" }

/-- The namespace `N`, parent of `sampleChild`. -/
def sampleParent : AnyInfo :=
  .ofNamespace { USR := 20, Name := bytes "N", Namespace := [], Path := bytes "p",
                 Children := { emptyScope with Functions := [refTo 21 "f" .IT_function] } }

/-- The global namespace with the child functions `f` and `g`. -/
def sampleGlobal : AnyInfo :=
  .ofNamespace { USR := EmptySID, Name := [], Namespace := [], Path := [],
                 Children := { emptyScope with
                   Functions := [refTo 1 "f" .IT_function, refTo 2 "g" .IT_function] } }

/-- The function `f` of the global namespace. -/
def sampleF : AnyInfo :=
  .ofFunction { USR := 1, Name := bytes "f", Namespace := [], Path := [] }

/-- The function `g` of the global namespace. -/
def sampleG : AnyInfo :=
  .ofFunction { USR := 2, Name := bytes "g", Namespace := [], Path := [] }

/-- An index node for the id of `sampleParent` as a walk leaves it when the
reference it was made from carries a path, but no name and no kind. -/
def stubNode : Index :=
  .mk { USR := 20, Name := [], RefType := .IT_default, Path := bytes "q" } []

/-- A Corpus whose index holds `stubNode` below the root. -/
def stubCorpus : Corpus :=
  { InfoMap := [], Idx := .mk { USR := EmptySID, Name := [], RefType := .IT_default, Path := [] }
      (stubNode :: []),
    allSymbols := [], isCanonical_ := false }

/-! ### The build -/

/-- One serialized bitcode, a tool result value. -/
abbrev Bitcode := Str

/-- One entry of `USRToBitcode`: the key of a symbol and its bitcodes. -/
abbrev Group := SymbolID × List Bitcode

/-- The body of the `forEachResult` callback: `try_emplace(Key, {})` followed by
`emplace_back(Value)` on the vector of the key. -/
def addResult : List Group → SymbolID × Bitcode → List Group
  | [], (k, v) => [(k, [v])]
  | (k2, vs) :: rest, (k, v) =>
    if k2 = k then (k2, vs ++ [v]) :: rest else (k2, vs) :: addResult rest (k, v)

/-- The map `USRToBitcode` collected from the tool results. -/
def collectSymbols (results : List (SymbolID × Bitcode)) : List Group :=
  results.foldl addResult []

/-- The loop of a reduce task over the bitcodes of its group: the Infos read
from all of them, or nothing when one `readBitcode` fails.  The reader, defined
outside src, is the parameter `readBitcode`. -/
def readGroup (readBitcode : Bitcode → Option (List AnyInfo)) :
    List Bitcode → Option (List AnyInfo)
  | [] => some []
  | b :: rest =>
    match readBitcode b with
    | none => none
    | some ReadInfos =>
      match readGroup readBitcode rest with
      | none => none
      | some Infos => some (ReadInfos ++ Infos)

/-- The object a reduce task inserts for its group, when it reads and merges
without error.  `mergeInfos`, defined outside src, is a parameter. -/
def taskInfo (readBitcode : Bitcode → Option (List AnyInfo))
    (mergeInfos : List AnyInfo → Option AnyInfo) (g : Group) : Option AnyInfo :=
  (readGroup readBitcode g.2).bind mergeInfos

/-- What the reduce tasks share: the Corpus and the flag `GotFailure`. -/
structure BuildState where
  corpus : Corpus
  GotFailure : Bool

/-- One reduce task of `Corpus::build`.  A read error sets `GotFailure` and ends
the task, a merge error only ends it; no result stands for a failed assertion
(`Group.getKey() == toStringRef(Ip->USR)`, or the one of `insert`). -/
def reduceTask (readBitcode : Bitcode → Option (List AnyInfo))
    (mergeInfos : List AnyInfo → Option AnyInfo) (extractName : AnyInfo → Str)
    (st : BuildState) (g : Group) : Option BuildState :=
  match readGroup readBitcode g.2 with
  | none => some { st with GotFailure := true }
  | some Infos =>
    match mergeInfos Infos with
    | none => some st
    | some Ip =>
      if g.1 = Ip.base.USR then
        match insert extractName st.corpus Ip with
        | none => none
        | some C => some { st with corpus := C }
      else none

/-- The reduce tasks in the order in which they take the locks of the Corpus.
A task holds `infoMutex` for its write to the map and `allSymbolsMutex` for its
write to index and discovery list; these two writes touch different parts of
the Corpus, so every interleaving of the tasks ends in the state of running
them one after the other in some order. -/
def reduceAll (readBitcode : Bitcode → Option (List AnyInfo))
    (mergeInfos : List AnyInfo → Option AnyInfo) (extractName : AnyInfo → Str) :
    BuildState → List Group → Option BuildState
  | st, [] => some st
  | st, g :: rest =>
    match reduceTask readBitcode mergeInfos extractName st g with
    | none => none
    | some st2 => reduceAll readBitcode mergeInfos extractName st2 rest

/-- The comparator lambda of the sort of `allSymbols` in `Corpus::build`. -/
def idCompare (fqn : Info → Str) (m : InfoMap) (id0 id1 : SymbolID) : Bool :=
  match fqnOf fqn m id0, fqnOf fqn m id1 with
  | some s0, some s1 => symbolCompare s0 s1
  | _, _ => false

/-- The call `llvm::sort(corpus.allSymbols, lambda)`; with two or more elements
the lambda is called on every element, and its `get<Info>` fails on an id that
is not in the map. -/
def sortSymbols (fqn : Info → Str) (m : InfoMap) (l : List SymbolID) :
    Option (List SymbolID) :=
  if l.length < 2 ∨ l.all (fun id => (infoMapFind m id).isSome) = true then
    some (stdSort (idCompare fqn m) l)
  else none

/-- What a call of `Corpus::build` ends in: a Corpus, the null pointer, or a
failed assertion. -/
inductive BuildResult where
  | corpus (C : Corpus)
  | null
  | aborted

/-- `Corpus::build`, from the collected groups on.  `mappingFailed` tells whether
`ex.execute` returned an error, `IgnoreMappingFailures` is the configuration
flag, `tasks` are the groups of `USRToBitcode` in the order in which their
reduce tasks run. -/
def build (readBitcode : Bitcode → Option (List AnyInfo))
    (mergeInfos : List AnyInfo → Option AnyInfo) (extractName : AnyInfo → Str)
    (fqn : Info → Str) (mappingFailed IgnoreMappingFailures : Bool)
    (tasks : List Group) : BuildResult :=
  if mappingFailed && !IgnoreMappingFailures then .null
  else
    match reduceAll readBitcode mergeInfos extractName
        { corpus := emptyCorpus, GotFailure := false } tasks with
    | none => .aborted
    | some st =>
      if st.GotFailure then .null
      else
        match sortSymbols fqn st.corpus.InfoMap st.corpus.allSymbols with
        | none => .aborted
        | some l => .corpus { st.corpus with allSymbols := l }

/-- A list of ids is sorted by name: each pair of an earlier and a later id
resolves to names `sa`, `sb`, and the later one does not compare less than the
earlier one. -/
def SortedIdsByName (K : SymbolID → Option Str) (l : List SymbolID) : Prop :=
  l.Pairwise (fun a b => ∃ sa sb, K a = some sa ∧ K b = some sb ∧
    symbolCompare sb sa = false)

/-- A reader for concrete inputs: the bitcodes `[0]`, `[1]`, `[2]`, `[3]` hold
the objects `sampleGlobal`, `sampleF`, `sampleG`, `sampleChild`, every other
bitcode is malformed. -/
def sampleRead (b : Bitcode) : Option (List AnyInfo) :=
  if b = [0] then some [sampleGlobal]
  else if b = [1] then some [sampleF]
  else if b = [2] then some [sampleG]
  else if b = [3] then some [sampleChild]
  else none

/-- A merge for concrete inputs, whose fragments of one symbol are equal: the
merged object is the first one, and no object is an error. -/
def sampleMerge (Infos : List AnyInfo) : Option AnyInfo := Infos.head?

/-- The reference order of the claim on `symbolCompare`, in its words: `lower s0`
is lexicographically less than `lower s1`, or the two are equal and `s0` is
bytewise lexicographically greater than `s1`. -/
def referenceOrder (s0 s1 : Str) : Bool :=
  lexLess (lower s0) (lower s1) || (decide (lower s0 = lower s1) && lexLess s1 s0)

/-- A second view of the namespace `N`, with another path. -/
def sampleParentOther : AnyInfo :=
  .ofNamespace { USR := 20, Name := bytes "N", Namespace := [], Path := bytes "other",
                 Children := emptyScope }

/-- A reader for concrete inputs: the bitcodes `[3]`, `[4]`, `[5]` hold
`sampleChild`, `sampleParent` and `sampleParentOther`, every other bitcode is
malformed. -/
def conflictRead (b : Bitcode) : Option (List AnyInfo) :=
  if b = [3] then some [sampleChild]
  else if b = [4] then some [sampleParent]
  else if b = [5] then some [sampleParentOther]
  else none

/-- A merge for concrete inputs that reports a conflict: the merged object is
the first one when all fragments are equal, and an error otherwise. -/
def strictMerge : List AnyInfo → Option AnyInfo
  | [] => none
  | I :: rest => if rest.all (fun J => decide (J = I)) then some I else none

/-! ### The block decoder of `source/api/AST/AnyBlock.hpp`

The bitstream is taken as already cut into blocks and records: a block is a list
of items, each a record or a nested block.  `BitcodeReader::readBlock(B, ID)`,
defined outside src, calls `B.parseRecord` on each record and `B.readSubBlock`
on each nested block of the block it enters, in stream order, and returns the
first error.  `decodeRecord`, the ids and the node list of the documentation are
declared outside src as well; they enter through `Codec`. -/

namespace AST

/-- The record ids named in AnyBlock.hpp, and every other value of the
`unsigned ID` a record can carry. -/
inductive RecordId where
  | VERSION
  | REFERENCE_USR
  | REFERENCE_NAME
  | REFERENCE_TYPE
  | REFERENCE_FIELD
  | JAVADOC_LIST_KIND
  | JAVADOC_NODE_KIND
  | JAVADOC_NODE_STRING
  | JAVADOC_NODE_STYLE
  | JAVADOC_NODE_ADMONISH
  | INFO_PART_ID
  | INFO_PART_NAME
  | SYMBOL_PART_LOCDEF
  | SYMBOL_PART_LOC
  | FIELD_TYPE_NAME
  | FIELD_DEFAULT_VALUE
  | MEMBER_TYPE_NAME
  | MEMBER_TYPE_ACCESS
  | BASE_RECORD_TAG_TYPE
  | BASE_RECORD_IS_VIRTUAL
  | BASE_RECORD_ACCESS
  | BASE_RECORD_IS_PARENT
  | TEMPLATE_SPECIALIZATION_OF
  | TEMPLATE_PARAM_CONTENTS
  | RECORD_TAG_TYPE
  | RECORD_IS_TYPE_DEF
  | RECORD_SPECS
  | RECORD_FRIENDS
  | FUNCTION_ACCESS
  | FUNCTION_IS_METHOD
  | FUNCTION_SPECS
  | TYPEDEF_IS_USING
  | other (n : Nat)
  deriving DecidableEq, Repr

/-- The block ids named in AnyBlock.hpp, and every other value of the
`unsigned ID` a sub-block can carry. -/
inductive BlockId where
  | BI_JAVADOC_NODE_BLOCK_ID
  | BI_JAVADOC_LIST_BLOCK_ID
  | BI_JAVADOC_BLOCK_ID
  | BI_REFERENCE_BLOCK_ID
  | BI_INFO_PART_ID
  | BI_SYMBOL_PART_ID
  | BI_TYPE_BLOCK_ID
  | BI_FIELD_TYPE_BLOCK_ID
  | BI_MEMBER_TYPE_BLOCK_ID
  | BI_BASE_RECORD_BLOCK_ID
  | BI_TEMPLATE_PARAM_BLOCK_ID
  | BI_TEMPLATE_SPECIALIZATION_BLOCK_ID
  | BI_TEMPLATE_BLOCK_ID
  | other (n : Nat)
  deriving DecidableEq, Repr

/-- The enumerators of `FieldId` named in AnyBlock.hpp, and every further
enumerator by its value. -/
inductive FieldId where
  | F_namespace
  | F_parent
  | F_vparent
  | F_type
  | F_child_namespace
  | F_child_record
  | F_child_function
  | F_child_typedef
  | other (n : Nat)
  deriving DecidableEq, Repr

/-- The errors made in AnyBlock.hpp, each with the value its message carries, and
the errors that come from outside (`decodeRecord`, the node list). -/
inductive DecodeError where
  | unexpectedRecord (ID : RecordId)
  | unexpectedSubBlock (ID : BlockId)
  | wrongField (F : FieldId)
  | wrongVersion
  | unknownType
  | external (code : Nat)
  deriving DecidableEq, Repr

/-- How a call ended: `llvm::Error::success()`, an error, or undefined
behaviour (`back()` of an empty vector). -/
inductive Status where
  | ok
  | failed (e : DecodeError)
  | undefined
  deriving DecidableEq, Repr

/-- The outcome of a call on a block: how it ended and the decoded state after
it. -/
abbrev Res (σ : Type) := Status × σ

/-- One entry of a block of the stream: a record with its id, its integer fields
and its blob, or a nested block with its id and its entries. -/
inductive Item where
  | record (ID : RecordId) (R : List Nat) (Blob : Str)
  | block (ID : BlockId) (items : List Item)

/-- A source location. -/
structure Location where
  LineNumber : Nat
  Filename : Str
  deriving DecidableEq, Repr

/-- The calls made on the node list of a documentation block (`AnyNodeList`,
defined outside src), in the order made.  The state of the node list is the
history of these calls. -/
inductive JavadocOp where
  | newList
  | setKind (kind : Nat)
  | appendChild (kind : Nat)
  | setString (s : Str)
  | setStyle (style : Nat)
  | setAdmonish (admonish : Nat)
  | spliceIntoParent
  | spliceInto
  deriving DecidableEq, Repr

/-- The history of calls on the node lists of one documentation block. -/
abbrev NodeLog := List JavadocOp

/-- What AnyBlock.hpp uses and does not define: the supported version, the
overloads of `decodeRecord` (each maps the integer fields, the blob and the old
value of the field to the new value or to an error, the field keeping its value
on an error), the value read from a `FieldId` member that was never assigned,
and the error, if any, that the last call of a history of node list calls
returns. -/
structure Codec where
  BitcodeVersion : Nat
  decodeUnsigned : List Nat → Str → Nat → Except DecodeError Nat
  decodeSymbolID : List Nat → Str → SymbolID → Except DecodeError SymbolID
  decodeString : List Nat → Str → Str → Except DecodeError Str
  decodeBool : List Nat → Str → Bool → Except DecodeError Bool
  decodeInfoType : List Nat → Str → InfoType → Except DecodeError InfoType
  decodeFieldId : List Nat → Str → FieldId → Except DecodeError FieldId
  decodeAccess : List Nat → Str → Nat → Except DecodeError Nat
  decodeTagType : List Nat → Str → Nat → Except DecodeError Nat
  decodeKind : List Nat → Str → Except DecodeError Nat
  decodeStyle : List Nat → Str → Except DecodeError Nat
  decodeAdmonish : List Nat → Str → Except DecodeError Nat
  decodeOptLocation : List Nat → Str → Option Location → Except DecodeError (Option Location)
  decodeLocations : List Nat → Str → List Location → Except DecodeError (List Location)
  decodeFriends : List Nat → Str → List SymbolID → Except DecodeError (List SymbolID)
  decodeSpecs : List Nat → Str → Nat → Except DecodeError Nat
  decodeSpecs2 : List Nat → Str → Nat × Nat → Except DecodeError (Nat × Nat)
  unassignedFieldId : FieldId
  nodeListError : NodeLog → Option DecodeError

/-- The statement `return decodeRecord(R, field, Blob);`: the field gets the
decoded value, or the error is returned. -/
def assign {σ τ : Type} (r : Except DecodeError τ) (st : σ) (set : τ → σ) : Res σ :=
  match r with
  | .ok v => (.ok, set v)
  | .error e => (.failed e, st)

/-- The loop of `BitcodeReader::readBlock` over the entries of the block entered,
with the two virtual functions of the block as `handle`. -/
def readItems {σ : Type} (handle : σ → Item → Res σ) : σ → List Item → Res σ
  | st, [] => (.ok, st)
  | st, it :: rest =>
    match handle st it with
    | (.ok, st1) => readItems handle st1 rest
    | (status, st1) => (status, st1)

/-- `AnyBlock::parseRecord`: the error "unexpected record with ID=". -/
def AnyBlock.parseRecord {σ : Type} (st : σ) (ID : RecordId) : Res σ :=
  (.failed (.unexpectedRecord ID), st)

/-- `AnyBlock::readSubBlock`: the error "unexpected sub-block with ID=". -/
def AnyBlock.readSubBlock {σ : Type} (st : σ) (ID : BlockId) : Res σ :=
  (.failed (.unexpectedSubBlock ID), st)

/-- `AnyBlock::makeWrongFieldError`: the error "unexpected FieldId=". -/
def makeWrongFieldError {σ : Type} (st : σ) (F : FieldId) : Res σ :=
  (.failed (.wrongField F), st)

/-- The decoded state of a `VersionBlock`. -/
structure VersionBlock where
  V : Nat
  deriving DecidableEq, Repr

/-- `VersionBlock::parseRecord`. -/
def VersionBlock.parseRecord (c : Codec) (B : VersionBlock) (ID : RecordId)
    (R : List Nat) (Blob : Str) : Res VersionBlock :=
  match ID with
  | .VERSION =>
    match c.decodeUnsigned R Blob B.V with
    | .error e => (.failed e, B)
    | .ok v =>
      if v ≠ c.BitcodeVersion then (.failed .wrongVersion, { V := v })
      else (.ok, { V := v })
  | ID => AnyBlock.parseRecord B ID

/-- `VersionBlock::readSubBlock`, inherited from `AnyBlock`. -/
def VersionBlock.readSubBlock (B : VersionBlock) (ID : BlockId) : Res VersionBlock :=
  AnyBlock.readSubBlock B ID

/-- The decoded state of a `ReferenceBlock`: the reference `I` and the field id
`F`.  The member `id` of the reference is the field `USR`. -/
structure ReferenceBlock where
  I : Reference
  F : FieldId
  deriving DecidableEq, Repr

/-- `ReferenceBlock::parseRecord`. -/
def ReferenceBlock.parseRecord (c : Codec) (B : ReferenceBlock) (ID : RecordId)
    (R : List Nat) (Blob : Str) : Res ReferenceBlock :=
  match ID with
  | .REFERENCE_USR =>
    assign (c.decodeSymbolID R Blob B.I.USR) B (fun v => { B with I := { B.I with USR := v } })
  | .REFERENCE_NAME =>
    assign (c.decodeString R Blob B.I.Name) B (fun v => { B with I := { B.I with Name := v } })
  | .REFERENCE_TYPE =>
    assign (c.decodeInfoType R Blob B.I.RefType) B
      (fun v => { B with I := { B.I with RefType := v } })
  | .REFERENCE_FIELD =>
    assign (c.decodeFieldId R Blob B.F) B (fun v => { B with F := v })
  | ID => AnyBlock.parseRecord B ID

/-- `ReferenceBlock::readSubBlock`, inherited from `AnyBlock`. -/
def ReferenceBlock.readSubBlock (B : ReferenceBlock) (ID : BlockId) : Res ReferenceBlock :=
  AnyBlock.readSubBlock B ID

/-- A default-constructed `Reference`. -/
def emptyReference : Reference :=
  { USR := EmptySID, Name := [], RefType := .IT_default, Path := [] }

/-- The statements `ReferenceBlock B(br_); br_.readBlock(B, ID)` on a nested
block with the entries `items`. -/
def readReference (c : Codec) (items : List Item) : Res ReferenceBlock :=
  readItems (fun B it =>
    match it with
    | .record ID R Blob => ReferenceBlock.parseRecord c B ID R Blob
    | .block ID _ => ReferenceBlock.readSubBlock B ID)
    { I := emptyReference, F := c.unassignedFieldId } items

/-- `ReferencesBlock<Container>::parseRecord`, on the container `C_`.  The body
has no `switch`: whatever the record id, `br_.readBlock(B, ID)` is called on a
new `ReferenceBlock` with the record id in the place of a block id; its error is
returned, and on success the reference read is appended.
`BitcodeReader::readBlock` is defined outside src and reads on from the place of
the stream behind the record; its outcome there, for the id it is given, is the
parameter `readBlock`. -/
def ReferencesBlock.parseRecord (readBlock : RecordId → Res ReferenceBlock)
    (C_ : List Reference) (ID : RecordId) : Res (List Reference) :=
  match readBlock ID with
  | (.ok, B) => (.ok, C_ ++ [B.I])
  | (status, _) => (status, C_)

/-- `ReferencesBlock<Container>::readSubBlock`, inherited from `AnyBlock`. -/
def ReferencesBlock.readSubBlock (C_ : List Reference) (ID : BlockId) :
    Res (List Reference) :=
  AnyBlock.readSubBlock C_ ID

/-- One call on the node list: it is recorded, and it returns the error the
node list gives for the history it ends. -/
def nodeCall (c : Codec) (op : JavadocOp) (J : NodeLog) : Res NodeLog :=
  match c.nodeListError (J ++ [op]) with
  | none => (.ok, J ++ [op])
  | some e => (.failed e, J ++ [op])

/-- `JavadocNodesBlock::parseRecord`, on the node list `J`. -/
def JavadocNodesBlock.parseRecord (c : Codec) (J : NodeLog) (ID : RecordId)
    (R : List Nat) (Blob : Str) : Res NodeLog :=
  match ID with
  | .JAVADOC_LIST_KIND =>
    match c.decodeKind R Blob with
    | .error e => (.failed e, J)
    | .ok kind => nodeCall c (.setKind kind) J
  | .JAVADOC_NODE_KIND =>
    match c.decodeKind R Blob with
    | .error e => (.failed e, J)
    | .ok kind => nodeCall c (.appendChild kind) J
  | .JAVADOC_NODE_STRING => nodeCall c (.setString Blob) J
  | .JAVADOC_NODE_STYLE =>
    match c.decodeStyle R Blob with
    | .error e => (.failed e, J)
    | .ok style => nodeCall c (.setStyle style) J
  | .JAVADOC_NODE_ADMONISH =>
    match c.decodeAdmonish R Blob with
    | .error e => (.failed e, J)
    | .ok admonish => nodeCall c (.setAdmonish admonish) J
  | ID => AnyBlock.parseRecord J ID

mutual
/-- The two virtual functions of a `JavadocNodesBlock` on one entry: a record goes
to `parseRecord`; for a nested block the body of `readSubBlock` follows, which
reads a node block into the same block and a list block into a new one that is
then spliced into its parent. -/
def JavadocNodesBlock.handle (c : Codec) : NodeLog → Item → Res NodeLog
  | J, .record ID R Blob => JavadocNodesBlock.parseRecord c J ID R Blob
  | J, .block ID items =>
    match ID with
    | .BI_JAVADOC_NODE_BLOCK_ID => JavadocNodesBlock.readBlock c J items
    | .BI_JAVADOC_LIST_BLOCK_ID =>
      match JavadocNodesBlock.readBlock c (J ++ [.newList]) items with
      | (.ok, J1) => nodeCall c .spliceIntoParent J1
      | (status, J1) => (status, J1)
    | ID => AnyBlock.readSubBlock J ID
/-- The call `br_.readBlock(B, ID)` for a `JavadocNodesBlock` on the entries of
the block entered. -/
def JavadocNodesBlock.readBlock (c : Codec) : NodeLog → List Item → Res NodeLog
  | J, [] => (.ok, J)
  | J, it :: rest =>
    match JavadocNodesBlock.handle c J it with
    | (.ok, J1) => JavadocNodesBlock.readBlock c J1 rest
    | (status, J1) => (status, J1)
end

/-- `JavadocNodesBlock::readSubBlock`. -/
def JavadocNodesBlock.readSubBlock (c : Codec) (J : NodeLog) (ID : BlockId)
    (items : List Item) : Res NodeLog :=
  JavadocNodesBlock.handle c J (.block ID items)

/-- `JavadocBlock::parseRecord`, inherited from `AnyBlock`. -/
def JavadocBlock.parseRecord (J : NodeLog) (ID : RecordId) : Res NodeLog :=
  AnyBlock.parseRecord J ID

/-- `JavadocBlock::readSubBlock`. -/
def JavadocBlock.readSubBlock (c : Codec) (J : NodeLog) (ID : BlockId)
    (items : List Item) : Res NodeLog :=
  match ID with
  | .BI_JAVADOC_LIST_BLOCK_ID =>
    match JavadocNodesBlock.readBlock c (J ++ [.newList]) items with
    | (.ok, J1) => nodeCall c .spliceInto J1
    | (status, J1) => (status, J1)
  | ID => AnyBlock.readSubBlock J ID

/-- The statements `JavadocBlock B(*I.javadoc, br_); br_.readBlock(B, ID)` after
`I.javadoc.emplace()`; the constructor makes the node list of the block. -/
def readJavadoc (c : Codec) (items : List Item) : Res NodeLog :=
  readItems (fun J it =>
    match it with
    | .record ID _ _ => JavadocBlock.parseRecord J ID
    | .block ID sub => JavadocBlock.readSubBlock c J ID sub)
    [.newList] items

/-- The fields of `Info` that the decoder sets. -/
structure Info where
  id : SymbolID
  Name : Str
  Namespace : List Reference
  javadoc : Option NodeLog
  deriving DecidableEq, Repr

/-- `SymbolInfo`: an `Info` with a definition location and declaration
locations. -/
structure SymbolInfo extends Info where
  DefLoc : Option Location
  Loc : List Location
  deriving DecidableEq, Repr

/-- `InfoPartBlock::parseRecord`. -/
def InfoPartBlock.parseRecord (c : Codec) (I : Info) (ID : RecordId)
    (R : List Nat) (Blob : Str) : Res Info :=
  match ID with
  | .INFO_PART_ID => assign (c.decodeSymbolID R Blob I.id) I (fun v => { I with id := v })
  | .INFO_PART_NAME => assign (c.decodeString R Blob I.Name) I (fun v => { I with Name := v })
  | ID => AnyBlock.parseRecord I ID

/-- `InfoPartBlock::readSubBlock`. -/
def InfoPartBlock.readSubBlock (c : Codec) (I : Info) (ID : BlockId)
    (items : List Item) : Res Info :=
  match ID with
  | .BI_REFERENCE_BLOCK_ID =>
    match readReference c items with
    | (.ok, B) =>
      match B.F with
      | .F_namespace => (.ok, { I with Namespace := I.Namespace ++ [B.I] })
      | _ => AnyBlock.readSubBlock I ID
    | (status, _) => (status, I)
  | .BI_JAVADOC_BLOCK_ID =>
    match readJavadoc c items with
    | (status, J) => (status, { I with javadoc := some J })
  | ID => AnyBlock.readSubBlock I ID

/-- The statements `InfoPartBlock B(I, br_); br_.readBlock(B, ID)`. -/
def readInfoPart (c : Codec) (I : Info) (items : List Item) : Res Info :=
  readItems (fun I it =>
    match it with
    | .record ID R Blob => InfoPartBlock.parseRecord c I ID R Blob
    | .block ID sub => InfoPartBlock.readSubBlock c I ID sub)
    I items

/-- `SymbolPartBlock::parseRecord`. -/
def SymbolPartBlock.parseRecord (c : Codec) (I : SymbolInfo) (ID : RecordId)
    (R : List Nat) (Blob : Str) : Res SymbolInfo :=
  match ID with
  | .SYMBOL_PART_LOCDEF =>
    assign (c.decodeOptLocation R Blob I.DefLoc) I (fun v => { I with DefLoc := v })
  | .SYMBOL_PART_LOC =>
    assign (c.decodeLocations R Blob I.Loc) I (fun v => { I with Loc := v })
  | ID => AnyBlock.parseRecord I ID

/-- `SymbolPartBlock::readSubBlock`, inherited from `AnyBlock`. -/
def SymbolPartBlock.readSubBlock (I : SymbolInfo) (ID : BlockId) : Res SymbolInfo :=
  AnyBlock.readSubBlock I ID

/-- The statements `SymbolPartBlock B(I, br_); br_.readBlock(B, ID)`. -/
def readSymbolPart (c : Codec) (I : SymbolInfo) (items : List Item) : Res SymbolInfo :=
  readItems (fun I it =>
    match it with
    | .record ID R Blob => SymbolPartBlock.parseRecord c I ID R Blob
    | .block ID _ => SymbolPartBlock.readSubBlock I ID)
    I items

/-- `TypeInfo`: the reference to a type. -/
structure TypeInfo where
  Type_ : Reference
  deriving DecidableEq, Repr

/-- The decoded state of a `TypeBlock`. -/
structure TypeBlock where
  F : FieldId
  I : TypeInfo
  deriving DecidableEq, Repr

/-- `TypeBlock::parseRecord`, inherited from `AnyBlock`. -/
def TypeBlock.parseRecord (B : TypeBlock) (ID : RecordId) : Res TypeBlock :=
  AnyBlock.parseRecord B ID

/-- `TypeBlock::readSubBlock`. -/
def TypeBlock.readSubBlock (c : Codec) (B : TypeBlock) (ID : BlockId)
    (items : List Item) : Res TypeBlock :=
  match ID with
  | .BI_REFERENCE_BLOCK_ID =>
    match readReference c items with
    | (.ok, Ref) => (.ok, { F := Ref.F, I := { Type_ := Ref.I } })
    | (status, _) => (status, B)
  | ID => AnyBlock.readSubBlock B ID

/-- The statements `TypeBlock B(br_); br_.readBlock(B, ID)`. -/
def readType (c : Codec) (items : List Item) : Res TypeBlock :=
  readItems (fun B it =>
    match it with
    | .record ID _ _ => TypeBlock.parseRecord B ID
    | .block ID sub => TypeBlock.readSubBlock c B ID sub)
    { F := c.unassignedFieldId, I := { Type_ := emptyReference } } items

/-- `FieldTypeInfo`: a type with a name and a default value. -/
structure FieldTypeInfo where
  Type_ : Reference
  Name : Str
  DefaultValue : Str
  deriving DecidableEq, Repr

/-- The decoded state of a `FieldTypeBlock`. -/
structure FieldTypeBlock where
  F : FieldId
  I : FieldTypeInfo
  deriving DecidableEq, Repr

/-- `FieldTypeBlock::parseRecord`. -/
def FieldTypeBlock.parseRecord (c : Codec) (B : FieldTypeBlock) (ID : RecordId)
    (R : List Nat) (Blob : Str) : Res FieldTypeBlock :=
  match ID with
  | .FIELD_TYPE_NAME =>
    assign (c.decodeString R Blob B.I.Name) B (fun v => { B with I := { B.I with Name := v } })
  | .FIELD_DEFAULT_VALUE =>
    assign (c.decodeString R Blob B.I.DefaultValue) B
      (fun v => { B with I := { B.I with DefaultValue := v } })
  | ID => AnyBlock.parseRecord B ID

/-- `FieldTypeBlock::readSubBlock`. -/
def FieldTypeBlock.readSubBlock (c : Codec) (B : FieldTypeBlock) (ID : BlockId)
    (items : List Item) : Res FieldTypeBlock :=
  match ID with
  | .BI_REFERENCE_BLOCK_ID =>
    match readReference c items with
    | (.ok, Ref) => (.ok, { F := Ref.F, I := { B.I with Type_ := Ref.I } })
    | (status, _) => (status, B)
  | ID => AnyBlock.readSubBlock B ID

/-- The statements `FieldTypeBlock B(br_); br_.readBlock(B, ID)`. -/
def readFieldType (c : Codec) (items : List Item) : Res FieldTypeBlock :=
  readItems (fun B it =>
    match it with
    | .record ID R Blob => FieldTypeBlock.parseRecord c B ID R Blob
    | .block ID sub => FieldTypeBlock.readSubBlock c B ID sub)
    { F := c.unassignedFieldId, I := { Type_ := emptyReference, Name := [], DefaultValue := [] } }
    items

/-- `MemberTypeInfo`: a member with its type, name, access and documentation. -/
structure MemberTypeInfo where
  Type_ : Reference
  Name : Str
  Access : Nat
  javadoc : Option NodeLog
  deriving DecidableEq, Repr

/-- `MemberTypeBlock::parseRecord`. -/
def MemberTypeBlock.parseRecord (c : Codec) (I : MemberTypeInfo) (ID : RecordId)
    (R : List Nat) (Blob : Str) : Res MemberTypeInfo :=
  match ID with
  | .MEMBER_TYPE_NAME => assign (c.decodeString R Blob I.Name) I (fun v => { I with Name := v })
  | .MEMBER_TYPE_ACCESS =>
    assign (c.decodeAccess R Blob I.Access) I (fun v => { I with Access := v })
  | ID => AnyBlock.parseRecord I ID

/-- `MemberTypeBlock::readSubBlock`. -/
def MemberTypeBlock.readSubBlock (c : Codec) (I : MemberTypeInfo) (ID : BlockId)
    (items : List Item) : Res MemberTypeInfo :=
  match ID with
  | .BI_REFERENCE_BLOCK_ID =>
    match readReference c items with
    | (.ok, Ref) => (.ok, { I with Type_ := Ref.I })
    | (status, _) => (status, I)
  | .BI_JAVADOC_BLOCK_ID =>
    match readJavadoc c items with
    | (status, J) => (status, { I with javadoc := some J })
  | ID => AnyBlock.readSubBlock I ID

/-- The statements `MemberTypeBlock B(br_); br_.readBlock(B, ID)`. -/
def readMemberType (c : Codec) (items : List Item) : Res MemberTypeInfo :=
  readItems (fun I it =>
    match it with
    | .record ID R Blob => MemberTypeBlock.parseRecord c I ID R Blob
    | .block ID sub => MemberTypeBlock.readSubBlock c I ID sub)
    { Type_ := emptyReference, Name := [], Access := 0, javadoc := none } items

/-- `BaseRecordInfo`, with the fields the decoder sets. -/
structure BaseRecordInfo extends Info where
  TagType : Nat
  IsVirtual : Bool
  Access : Nat
  IsParent : Bool
  Members : List MemberTypeInfo
  deriving DecidableEq, Repr

/-- `BaseRecordBlock::parseRecord`. -/
def BaseRecordBlock.parseRecord (c : Codec) (I : BaseRecordInfo) (ID : RecordId)
    (R : List Nat) (Blob : Str) : Res BaseRecordInfo :=
  match ID with
  | .BASE_RECORD_TAG_TYPE =>
    assign (c.decodeTagType R Blob I.TagType) I (fun v => { I with TagType := v })
  | .BASE_RECORD_IS_VIRTUAL =>
    assign (c.decodeBool R Blob I.IsVirtual) I (fun v => { I with IsVirtual := v })
  | .BASE_RECORD_ACCESS =>
    assign (c.decodeAccess R Blob I.Access) I (fun v => { I with Access := v })
  | .BASE_RECORD_IS_PARENT =>
    assign (c.decodeBool R Blob I.IsParent) I (fun v => { I with IsParent := v })
  | ID => AnyBlock.parseRecord I ID

/-- `BaseRecordBlock::readSubBlock`. -/
def BaseRecordBlock.readSubBlock (c : Codec) (I : BaseRecordInfo) (ID : BlockId)
    (items : List Item) : Res BaseRecordInfo :=
  match ID with
  | .BI_INFO_PART_ID =>
    match readInfoPart c I.toInfo items with
    | (status, P) => (status, { I with toInfo := P })
  | .BI_MEMBER_TYPE_BLOCK_ID =>
    match readMemberType c items with
    | (.ok, M) => (.ok, { I with Members := I.Members ++ [M] })
    | (status, _) => (status, I)
  | ID => AnyBlock.readSubBlock I ID

/-- A default-constructed `Info`. -/
def emptyInfo : Info :=
  { id := EmptySID, Name := [], Namespace := [], javadoc := none }

/-- The statements `BaseRecordBlock B(br_); br_.readBlock(B, ID)`. -/
def readBaseRecord (c : Codec) (items : List Item) : Res BaseRecordInfo :=
  readItems (fun I it =>
    match it with
    | .record ID R Blob => BaseRecordBlock.parseRecord c I ID R Blob
    | .block ID sub => BaseRecordBlock.readSubBlock c I ID sub)
    { toInfo := emptyInfo, TagType := 0, IsVirtual := false, Access := 0, IsParent := false,
      Members := [] } items

/-- One template parameter: its text. -/
structure TemplateParamInfo where
  Contents : Str
  deriving DecidableEq, Repr

/-- `TemplateSpecializationInfo`. -/
structure TemplateSpecializationInfo where
  SpecializationOf : SymbolID
  Params : List TemplateParamInfo
  deriving DecidableEq, Repr

/-- `TemplateInfo`. -/
structure TemplateInfo where
  Params : List TemplateParamInfo
  Specialization : Option TemplateSpecializationInfo
  deriving DecidableEq, Repr

/-- The statement `return decodeRecord(R, Params.back().Contents, Blob);` on the
vector `Params`: on an empty vector `back()` is undefined. -/
def decodeBackContents (c : Codec) (R : List Nat) (Blob : Str)
    (Params : List TemplateParamInfo) : Res (List TemplateParamInfo) :=
  match Params.getLast? with
  | none => (.undefined, Params)
  | some p =>
    assign (c.decodeString R Blob p.Contents) Params
      (fun v => Params.dropLast ++ [{ Contents := v }])

/-- `TemplateSpecializationBlock::parseRecord`. -/
def TemplateSpecializationBlock.parseRecord (c : Codec) (I : TemplateSpecializationInfo)
    (ID : RecordId) (R : List Nat) (Blob : Str) : Res TemplateSpecializationInfo :=
  match ID with
  | .TEMPLATE_SPECIALIZATION_OF =>
    assign (c.decodeSymbolID R Blob I.SpecializationOf) I
      (fun v => { I with SpecializationOf := v })
  | .TEMPLATE_PARAM_CONTENTS =>
    match decodeBackContents c R Blob I.Params with
    | (status, ps) => (status, { I with Params := ps })
  | ID => AnyBlock.parseRecord I ID

mutual
/-- The two virtual functions of a `TemplateSpecializationBlock` on one entry: a
record goes to `parseRecord`; for a nested block the body of `readSubBlock`
follows, which for a parameter block adds a parameter and reads the block into
the same block. -/
def TemplateSpecializationBlock.handle (c : Codec) :
    TemplateSpecializationInfo → Item → Res TemplateSpecializationInfo
  | I, .record ID R Blob => TemplateSpecializationBlock.parseRecord c I ID R Blob
  | I, .block ID items =>
    match ID with
    | .BI_TEMPLATE_PARAM_BLOCK_ID =>
      TemplateSpecializationBlock.readBlock c
        { I with Params := I.Params ++ [{ Contents := [] }] } items
    | ID => AnyBlock.readSubBlock I ID
/-- The call `br_.readBlock(B, ID)` for a `TemplateSpecializationBlock`. -/
def TemplateSpecializationBlock.readBlock (c : Codec) :
    TemplateSpecializationInfo → List Item → Res TemplateSpecializationInfo
  | I, [] => (.ok, I)
  | I, it :: rest =>
    match TemplateSpecializationBlock.handle c I it with
    | (.ok, I1) => TemplateSpecializationBlock.readBlock c I1 rest
    | (status, I1) => (status, I1)
end

/-- `TemplateSpecializationBlock::readSubBlock`. -/
def TemplateSpecializationBlock.readSubBlock (c : Codec) (I : TemplateSpecializationInfo)
    (ID : BlockId) (items : List Item) : Res TemplateSpecializationInfo :=
  TemplateSpecializationBlock.handle c I (.block ID items)

/-- `TemplateBlock::parseRecord`. -/
def TemplateBlock.parseRecord (c : Codec) (I : TemplateInfo)
    (ID : RecordId) (R : List Nat) (Blob : Str) : Res TemplateInfo :=
  match ID with
  | .TEMPLATE_PARAM_CONTENTS =>
    match decodeBackContents c R Blob I.Params with
    | (status, ps) => (status, { I with Params := ps })
  | ID => AnyBlock.parseRecord I ID

mutual
/-- The two virtual functions of a `TemplateBlock` on one entry: a record goes to
`parseRecord`; for a nested block the body of `readSubBlock` follows. -/
def TemplateBlock.handle (c : Codec) : TemplateInfo → Item → Res TemplateInfo
  | I, .record ID R Blob => TemplateBlock.parseRecord c I ID R Blob
  | I, .block ID items =>
    match ID with
    | .BI_TEMPLATE_PARAM_BLOCK_ID =>
      TemplateBlock.readBlock c { I with Params := I.Params ++ [{ Contents := [] }] } items
    | .BI_TEMPLATE_SPECIALIZATION_BLOCK_ID =>
      match TemplateSpecializationBlock.readBlock c
          { SpecializationOf := EmptySID, Params := [] } items with
      | (.ok, S) => (.ok, { I with Specialization := some S })
      | (status, _) => (status, I)
    | ID => AnyBlock.readSubBlock I ID
/-- The call `br_.readBlock(B, ID)` for a `TemplateBlock`. -/
def TemplateBlock.readBlock (c : Codec) : TemplateInfo → List Item → Res TemplateInfo
  | I, [] => (.ok, I)
  | I, it :: rest =>
    match TemplateBlock.handle c I it with
    | (.ok, I1) => TemplateBlock.readBlock c I1 rest
    | (status, I1) => (status, I1)
end

/-- `TemplateBlock::readSubBlock`. -/
def TemplateBlock.readSubBlock (c : Codec) (I : TemplateInfo) (ID : BlockId)
    (items : List Item) : Res TemplateInfo :=
  TemplateBlock.handle c I (.block ID items)

/-- The statements `TemplateBlock B(br_); br_.readBlock(B, ID)`. -/
def readTemplate (c : Codec) (items : List Item) : Res TemplateInfo :=
  TemplateBlock.readBlock c { Params := [], Specialization := none } items

/-- `Scope` of this file: the children of a namespace or record, all held as
references. -/
structure Scope where
  Namespaces : List Reference
  Records : List Reference
  Functions : List Reference
  Typedefs : List Reference
  deriving DecidableEq, Repr

/-- `NamespaceInfo`. -/
structure NamespaceInfo extends Info where
  Children : Scope
  deriving DecidableEq, Repr

/-- `RecordInfo`, with the fields the decoder sets. -/
structure RecordInfo extends SymbolInfo where
  TagType : Nat
  IsTypeDef : Bool
  specs : Nat
  Friends : List SymbolID
  Members : List MemberTypeInfo
  Parents : List Reference
  VirtualParents : List Reference
  Bases : List BaseRecordInfo
  Template : Option TemplateInfo
  Children : Scope
  deriving DecidableEq, Repr

/-- `FunctionInfo`, with the fields the decoder sets. -/
structure FunctionInfo extends SymbolInfo where
  Access : Nat
  IsMethod : Bool
  specs0 : Nat
  specs1 : Nat
  Parent : Reference
  ReturnType : TypeInfo
  Params : List FieldTypeInfo
  Template : Option TemplateInfo
  deriving DecidableEq, Repr

/-- `TypedefInfo`, with the fields the decoder sets. -/
structure TypedefInfo extends SymbolInfo where
  IsUsing : Bool
  Underlying : TypeInfo
  deriving DecidableEq, Repr

/-- `EnumInfo`. -/
structure EnumInfo extends SymbolInfo
  deriving DecidableEq, Repr

/-- `VariableInfo`. -/
structure VariableInfo extends SymbolInfo
  deriving DecidableEq, Repr

/-- What the template `TopLevelBlock<T>` asks of `T`: the `Info` base, the
`SymbolInfo` base when `std::derived_from<T, SymbolInfo>`, whether
`std::derived_from<T, NamespaceInfo>` and `std::derived_from<T, RecordInfo>`, and
the member `Children` of a namespace or record. -/
structure TopLevel (T : Type) where
  getInfo : T → Info
  setInfo : T → Info → T
  symbol : Option ((T → SymbolInfo) × (T → SymbolInfo → T))
  isNamespace : Bool
  isRecord : Bool
  children : Option ((T → Scope) × (T → Scope → T))

/-- Modelled from the spec: `NamespaceInfo` is an `Info` with a `Scope` and
without source locations. -/
def namespaceKind : TopLevel NamespaceInfo :=
  { getInfo := fun I => I.toInfo, setInfo := fun I P => { I with toInfo := P },
    symbol := none, isNamespace := true, isRecord := false,
    children := some (fun I => I.Children, fun I S => { I with Children := S }) }

/-- Modelled from the spec: `RecordInfo` is a `SymbolInfo` with a `Scope`. -/
def recordKind : TopLevel RecordInfo :=
  { getInfo := fun I => I.toInfo, setInfo := fun I P => { I with toInfo := P },
    symbol := some (fun I => I.toSymbolInfo, fun I P => { I with toSymbolInfo := P }),
    isNamespace := false, isRecord := true,
    children := some (fun I => I.Children, fun I S => { I with Children := S }) }

/-- Modelled from the spec: `FunctionInfo` is a `SymbolInfo` without a `Scope`. -/
def functionKind : TopLevel FunctionInfo :=
  { getInfo := fun I => I.toInfo, setInfo := fun I P => { I with toInfo := P },
    symbol := some (fun I => I.toSymbolInfo, fun I P => { I with toSymbolInfo := P }),
    isNamespace := false, isRecord := false, children := none }

/-- Modelled from the spec: `TypedefInfo` is a `SymbolInfo` without a `Scope`. -/
def typedefKind : TopLevel TypedefInfo :=
  { getInfo := fun I => I.toInfo, setInfo := fun I P => { I with toInfo := P },
    symbol := some (fun I => I.toSymbolInfo, fun I P => { I with toSymbolInfo := P }),
    isNamespace := false, isRecord := false, children := none }

/-- Modelled from the spec: `EnumInfo` is a `SymbolInfo` without a `Scope`. -/
def enumKind : TopLevel EnumInfo :=
  { getInfo := fun I => I.toInfo, setInfo := fun I P => { I with toInfo := P },
    symbol := some (fun I => I.toSymbolInfo, fun I P => { I with toSymbolInfo := P }),
    isNamespace := false, isRecord := false, children := none }

/-- Modelled from the spec: `VariableInfo` is a `SymbolInfo` without a `Scope`. -/
def variableKind : TopLevel VariableInfo :=
  { getInfo := fun I => I.toInfo, setInfo := fun I P => { I with toInfo := P },
    symbol := some (fun I => I.toSymbolInfo, fun I P => { I with toSymbolInfo := P }),
    isNamespace := false, isRecord := false, children := none }

/-- `TopLevelBlock<T>::insertChild(R, Id)`.  A case whose `if constexpr` test
fails for `T` leaves the switch and ends in the error "unknown type". -/
def TopLevelBlock.insertChild {T : Type} (k : TopLevel T) (I : T) (R : Reference)
    (Id : FieldId) : Res T :=
  match Id with
  | .F_child_namespace =>
    match k.isNamespace, k.children with
    | true, some (get, set) =>
      (.ok, set I { get I with Namespaces := (get I).Namespaces ++ [R] })
    | _, _ => (.failed .unknownType, I)
  | .F_child_record =>
    match k.isNamespace || k.isRecord, k.children with
    | true, some (get, set) => (.ok, set I { get I with Records := (get I).Records ++ [R] })
    | _, _ => (.failed .unknownType, I)
  | .F_child_function =>
    match k.isNamespace || k.isRecord, k.children with
    | true, some (get, set) =>
      (.ok, set I { get I with Functions := (get I).Functions ++ [R] })
    | _, _ => (.failed .unknownType, I)
  | .F_child_typedef =>
    match k.isNamespace || k.isRecord, k.children with
    | true, some (get, set) => (.ok, set I { get I with Typedefs := (get I).Typedefs ++ [R] })
    | _, _ => (.failed .unknownType, I)
  | Id => makeWrongFieldError I Id

/-- `TopLevelBlock<T>::readChild(I, ID)` on the scope `I`. -/
def TopLevelBlock.readChild (c : Codec) (I : Scope) (items : List Item) : Res Scope :=
  match readReference c items with
  | (.ok, B) =>
    match B.F with
    | .F_child_namespace => (.ok, { I with Namespaces := I.Namespaces ++ [B.I] })
    | .F_child_record => (.ok, { I with Records := I.Records ++ [B.I] })
    | .F_child_function => (.ok, { I with Functions := I.Functions ++ [B.I] })
    | F => makeWrongFieldError I F
  | (status, _) => (status, I)

/-- `TopLevelBlock<T>::parseRecord`, inherited from `AnyBlock`. -/
def TopLevelBlock.parseRecord {T : Type} (I : T) (ID : RecordId) : Res T :=
  AnyBlock.parseRecord I ID

/-- `TopLevelBlock<T>::readSubBlock(ID)`.  A case whose `if constexpr` test fails
for `T` leaves the switch and ends in `AnyBlock::readSubBlock(ID)`. -/
def TopLevelBlock.readSubBlock {T : Type} (k : TopLevel T) (c : Codec) (I : T)
    (ID : BlockId) (items : List Item) : Res T :=
  match ID with
  | .BI_INFO_PART_ID =>
    match readInfoPart c (k.getInfo I) items with
    | (status, P) => (status, k.setInfo I P)
  | .BI_SYMBOL_PART_ID =>
    match k.symbol with
    | some (get, set) =>
      match readSymbolPart c (get I) items with
      | (status, P) => (status, set I P)
    | none => AnyBlock.readSubBlock I ID
  | .BI_REFERENCE_BLOCK_ID =>
    match k.isNamespace || k.isRecord, k.children with
    | true, some (get, set) =>
      match TopLevelBlock.readChild c (get I) items with
      | (status, S) => (status, set I S)
    | _, _ => AnyBlock.readSubBlock I ID
  | ID => AnyBlock.readSubBlock I ID

/-- `NamespaceBlock::parseRecord`, inherited. -/
def NamespaceBlock.parseRecord (I : NamespaceInfo) (ID : RecordId) : Res NamespaceInfo :=
  TopLevelBlock.parseRecord I ID

/-- `NamespaceBlock::readSubBlock`, inherited from `TopLevelBlock<NamespaceInfo>`. -/
def NamespaceBlock.readSubBlock (c : Codec) (I : NamespaceInfo) (ID : BlockId)
    (items : List Item) : Res NamespaceInfo :=
  TopLevelBlock.readSubBlock namespaceKind c I ID items

/-- `RecordBlock::parseRecord`. -/
def RecordBlock.parseRecord (c : Codec) (I : RecordInfo) (ID : RecordId)
    (R : List Nat) (Blob : Str) : Res RecordInfo :=
  match ID with
  | .RECORD_TAG_TYPE =>
    assign (c.decodeTagType R Blob I.TagType) I (fun v => { I with TagType := v })
  | .RECORD_IS_TYPE_DEF =>
    assign (c.decodeBool R Blob I.IsTypeDef) I (fun v => { I with IsTypeDef := v })
  | .RECORD_SPECS => assign (c.decodeSpecs R Blob I.specs) I (fun v => { I with specs := v })
  | .RECORD_FRIENDS =>
    assign (c.decodeFriends R Blob I.Friends) I (fun v => { I with Friends := v })
  | ID => TopLevelBlock.parseRecord I ID

/-- `RecordBlock::readSubBlock`. -/
def RecordBlock.readSubBlock (c : Codec) (I : RecordInfo) (ID : BlockId)
    (items : List Item) : Res RecordInfo :=
  match ID with
  | .BI_MEMBER_TYPE_BLOCK_ID =>
    match readMemberType c items with
    | (.ok, M) => (.ok, { I with Members := I.Members ++ [M] })
    | (status, _) => (status, I)
  | .BI_REFERENCE_BLOCK_ID =>
    match readReference c items with
    | (.ok, B) =>
      match B.F with
      | .F_parent => (.ok, { I with Parents := I.Parents ++ [B.I] })
      | .F_vparent => (.ok, { I with VirtualParents := I.VirtualParents ++ [B.I] })
      | F => TopLevelBlock.insertChild recordKind I B.I F
    | (status, _) => (status, I)
  | .BI_BASE_RECORD_BLOCK_ID =>
    match readBaseRecord c items with
    | (.ok, B) => (.ok, { I with Bases := I.Bases ++ [B] })
    | (status, _) => (status, I)
  | .BI_TEMPLATE_BLOCK_ID =>
    match readTemplate c items with
    | (.ok, B) => (.ok, { I with Template := some B })
    | (status, _) => (status, I)
  | ID => TopLevelBlock.readSubBlock recordKind c I ID items

/-- `FunctionBlock::parseRecord`. -/
def FunctionBlock.parseRecord (c : Codec) (I : FunctionInfo) (ID : RecordId)
    (R : List Nat) (Blob : Str) : Res FunctionInfo :=
  match ID with
  | .FUNCTION_ACCESS =>
    assign (c.decodeAccess R Blob I.Access) I (fun v => { I with Access := v })
  | .FUNCTION_IS_METHOD =>
    assign (c.decodeBool R Blob I.IsMethod) I (fun v => { I with IsMethod := v })
  | .FUNCTION_SPECS =>
    assign (c.decodeSpecs2 R Blob (I.specs0, I.specs1)) I
      (fun v => { I with specs0 := v.1, specs1 := v.2 })
  | ID => TopLevelBlock.parseRecord I ID

/-- `FunctionBlock::readSubBlock`. -/
def FunctionBlock.readSubBlock (c : Codec) (I : FunctionInfo) (ID : BlockId)
    (items : List Item) : Res FunctionInfo :=
  match ID with
  | .BI_REFERENCE_BLOCK_ID =>
    match readReference c items with
    | (.ok, B) =>
      match B.F with
      | .F_parent => (.ok, { I with Parent := B.I })
      | F => makeWrongFieldError I F
    | (status, _) => (status, I)
  | .BI_TYPE_BLOCK_ID =>
    match readType c items with
    | (.ok, B) =>
      match B.F with
      | .F_type => (.ok, { I with ReturnType := B.I })
      | F => makeWrongFieldError I F
    | (status, _) => (status, I)
  | .BI_FIELD_TYPE_BLOCK_ID =>
    match readFieldType c items with
    | (.ok, B) =>
      match B.F with
      | .F_type => (.ok, { I with Params := I.Params ++ [B.I] })
      | F => makeWrongFieldError I F
    | (status, _) => (status, I)
  | .BI_TEMPLATE_BLOCK_ID =>
    match readTemplate c items with
    | (.ok, B) => (.ok, { I with Template := some B })
    | (status, _) => (status, I)
  | ID => TopLevelBlock.readSubBlock functionKind c I ID items

/-- `TypedefBlock::parseRecord`. -/
def TypedefBlock.parseRecord (c : Codec) (I : TypedefInfo) (ID : RecordId)
    (R : List Nat) (Blob : Str) : Res TypedefInfo :=
  match ID with
  | .TYPEDEF_IS_USING =>
    assign (c.decodeBool R Blob I.IsUsing) I (fun v => { I with IsUsing := v })
  | ID => TopLevelBlock.parseRecord I ID

/-- `TypedefBlock::readSubBlock`. -/
def TypedefBlock.readSubBlock (c : Codec) (I : TypedefInfo) (ID : BlockId)
    (items : List Item) : Res TypedefInfo :=
  match ID with
  | .BI_TYPE_BLOCK_ID =>
    match readType c items with
    | (.ok, B) =>
      match B.F with
      | .F_type => (.ok, { I with Underlying := B.I })
      | F => makeWrongFieldError I F
    | (status, _) => (status, I)
  | ID => TopLevelBlock.readSubBlock typedefKind c I ID items

/-- `EnumBlock::parseRecord`. -/
def EnumBlock.parseRecord (I : EnumInfo) (ID : RecordId) : Res EnumInfo :=
  TopLevelBlock.parseRecord I ID

/-- `EnumBlock::readSubBlock`. -/
def EnumBlock.readSubBlock (c : Codec) (I : EnumInfo) (ID : BlockId)
    (items : List Item) : Res EnumInfo :=
  TopLevelBlock.readSubBlock enumKind c I ID items

/-- `VariableBlock::parseRecord`. -/
def VariableBlock.parseRecord (I : VariableInfo) (ID : RecordId) : Res VariableInfo :=
  TopLevelBlock.parseRecord I ID

/-- `VariableBlock::readSubBlock`. -/
def VariableBlock.readSubBlock (c : Codec) (I : VariableInfo) (ID : BlockId)
    (items : List Item) : Res VariableInfo :=
  TopLevelBlock.readSubBlock variableKind c I ID items

/-- The loop of `br_.readBlock(B, ID)` for a `NamespaceBlock` with the state `I`. -/
def NamespaceBlock.readBlock (c : Codec) (I : NamespaceInfo) (items : List Item) :
    Res NamespaceInfo :=
  readItems (fun I it =>
    match it with
    | .record ID _ _ => NamespaceBlock.parseRecord I ID
    | .block ID sub => NamespaceBlock.readSubBlock c I ID sub)
    I items

/-- The loop of `br_.readBlock(B, ID)` for a `RecordBlock` with the state `I`. -/
def RecordBlock.readBlock (c : Codec) (I : RecordInfo) (items : List Item) :
    Res RecordInfo :=
  readItems (fun I it =>
    match it with
    | .record ID R Blob => RecordBlock.parseRecord c I ID R Blob
    | .block ID sub => RecordBlock.readSubBlock c I ID sub)
    I items

/-- The record ids `VersionBlock::parseRecord` has a case for. -/
def VersionBlock.records : List RecordId := [.VERSION]

/-- The record ids `ReferenceBlock::parseRecord` has a case for. -/
def ReferenceBlock.records : List RecordId :=
  [.REFERENCE_USR, .REFERENCE_NAME, .REFERENCE_TYPE, .REFERENCE_FIELD]

/-- The record ids `JavadocNodesBlock::parseRecord` has a case for. -/
def JavadocNodesBlock.records : List RecordId :=
  [.JAVADOC_LIST_KIND, .JAVADOC_NODE_KIND, .JAVADOC_NODE_STRING, .JAVADOC_NODE_STYLE,
    .JAVADOC_NODE_ADMONISH]

/-- The sub-block ids `JavadocNodesBlock::readSubBlock` has a case for. -/
def JavadocNodesBlock.blocks : List BlockId :=
  [.BI_JAVADOC_NODE_BLOCK_ID, .BI_JAVADOC_LIST_BLOCK_ID]

/-- The sub-block ids `JavadocBlock::readSubBlock` has a case for. -/
def JavadocBlock.blocks : List BlockId := [.BI_JAVADOC_LIST_BLOCK_ID]

/-- The record ids `InfoPartBlock::parseRecord` has a case for. -/
def InfoPartBlock.records : List RecordId := [.INFO_PART_ID, .INFO_PART_NAME]

/-- The sub-block ids `InfoPartBlock::readSubBlock` has a case for. -/
def InfoPartBlock.blocks : List BlockId := [.BI_REFERENCE_BLOCK_ID, .BI_JAVADOC_BLOCK_ID]

/-- The record ids `SymbolPartBlock::parseRecord` has a case for. -/
def SymbolPartBlock.records : List RecordId := [.SYMBOL_PART_LOCDEF, .SYMBOL_PART_LOC]

/-- The sub-block ids `TypeBlock::readSubBlock` has a case for. -/
def TypeBlock.blocks : List BlockId := [.BI_REFERENCE_BLOCK_ID]

/-- The record ids `FieldTypeBlock::parseRecord` has a case for. -/
def FieldTypeBlock.records : List RecordId := [.FIELD_TYPE_NAME, .FIELD_DEFAULT_VALUE]

/-- The sub-block ids `FieldTypeBlock::readSubBlock` has a case for. -/
def FieldTypeBlock.blocks : List BlockId := [.BI_REFERENCE_BLOCK_ID]

/-- The record ids `MemberTypeBlock::parseRecord` has a case for. -/
def MemberTypeBlock.records : List RecordId := [.MEMBER_TYPE_NAME, .MEMBER_TYPE_ACCESS]

/-- The sub-block ids `MemberTypeBlock::readSubBlock` has a case for. -/
def MemberTypeBlock.blocks : List BlockId := [.BI_REFERENCE_BLOCK_ID, .BI_JAVADOC_BLOCK_ID]

/-- The record ids `BaseRecordBlock::parseRecord` has a case for. -/
def BaseRecordBlock.records : List RecordId :=
  [.BASE_RECORD_TAG_TYPE, .BASE_RECORD_IS_VIRTUAL, .BASE_RECORD_ACCESS, .BASE_RECORD_IS_PARENT]

/-- The sub-block ids `BaseRecordBlock::readSubBlock` has a case for. -/
def BaseRecordBlock.blocks : List BlockId := [.BI_INFO_PART_ID, .BI_MEMBER_TYPE_BLOCK_ID]

/-- The record ids `TemplateSpecializationBlock::parseRecord` has a case for. -/
def TemplateSpecializationBlock.records : List RecordId :=
  [.TEMPLATE_SPECIALIZATION_OF, .TEMPLATE_PARAM_CONTENTS]

/-- The sub-block ids `TemplateSpecializationBlock::readSubBlock` has a case for. -/
def TemplateSpecializationBlock.blocks : List BlockId := [.BI_TEMPLATE_PARAM_BLOCK_ID]

/-- The record ids `TemplateBlock::parseRecord` has a case for. -/
def TemplateBlock.records : List RecordId := [.TEMPLATE_PARAM_CONTENTS]

/-- The sub-block ids `TemplateBlock::readSubBlock` has a case for. -/
def TemplateBlock.blocks : List BlockId :=
  [.BI_TEMPLATE_PARAM_BLOCK_ID, .BI_TEMPLATE_SPECIALIZATION_BLOCK_ID]

/-- The sub-block ids a `NamespaceBlock` has a case for whose `if constexpr`
test holds. -/
def NamespaceBlock.blocks : List BlockId := [.BI_INFO_PART_ID, .BI_REFERENCE_BLOCK_ID]

/-- The record ids `RecordBlock::parseRecord` has a case for. -/
def RecordBlock.records : List RecordId :=
  [.RECORD_TAG_TYPE, .RECORD_IS_TYPE_DEF, .RECORD_SPECS, .RECORD_FRIENDS]

/-- The sub-block ids a `RecordBlock` has a case for whose `if constexpr` test
holds. -/
def RecordBlock.blocks : List BlockId :=
  [.BI_MEMBER_TYPE_BLOCK_ID, .BI_REFERENCE_BLOCK_ID, .BI_BASE_RECORD_BLOCK_ID,
    .BI_TEMPLATE_BLOCK_ID, .BI_INFO_PART_ID, .BI_SYMBOL_PART_ID]

/-- The record ids `FunctionBlock::parseRecord` has a case for. -/
def FunctionBlock.records : List RecordId :=
  [.FUNCTION_ACCESS, .FUNCTION_IS_METHOD, .FUNCTION_SPECS]

/-- The sub-block ids a `FunctionBlock` has a case for whose `if constexpr` test
holds. -/
def FunctionBlock.blocks : List BlockId :=
  [.BI_REFERENCE_BLOCK_ID, .BI_TYPE_BLOCK_ID, .BI_FIELD_TYPE_BLOCK_ID, .BI_TEMPLATE_BLOCK_ID,
    .BI_INFO_PART_ID, .BI_SYMBOL_PART_ID]

/-- The record ids `TypedefBlock::parseRecord` has a case for. -/
def TypedefBlock.records : List RecordId := [.TYPEDEF_IS_USING]

/-- The sub-block ids a `TypedefBlock` has a case for whose `if constexpr` test
holds. -/
def TypedefBlock.blocks : List BlockId :=
  [.BI_TYPE_BLOCK_ID, .BI_INFO_PART_ID, .BI_SYMBOL_PART_ID]

/-- The sub-block ids an `EnumBlock` or a `VariableBlock` has a case for whose
`if constexpr` test holds. -/
def symbolBlocks : List BlockId := [.BI_INFO_PART_ID, .BI_SYMBOL_PART_ID]

/-- The references of the decoded reference blocks `Bs` that carry the field id
`F`, in the order of `Bs`. -/
def tagged (F : FieldId) (Bs : List ReferenceBlock) : List Reference :=
  (Bs.filter (fun B => decide (B.F = F))).map (fun B => B.I)

/-- The reference blocks decoded from the nested blocks `subs`, in order. -/
def decodedRefs (c : Codec) (subs : List (List Item)) : List ReferenceBlock :=
  subs.map (fun s => (readReference c s).2)

/-- The single integer field of a record, for `sampleCodec`. -/
def sampleField (R : List Nat) : Except DecodeError Nat :=
  match R with
  | [v] => .ok v
  | _ => .error (.external 1)

/-- The field id with the value `n`, for `sampleCodec`. -/
def sampleFieldId (n : Nat) : FieldId :=
  match n with
  | 1 => .F_namespace
  | 2 => .F_parent
  | 3 => .F_vparent
  | 4 => .F_type
  | 5 => .F_child_namespace
  | 6 => .F_child_record
  | 7 => .F_child_function
  | 8 => .F_child_typedef
  | n => .other n

/-- The info type with the value `n`, for `sampleCodec`. -/
def sampleInfoType (n : Nat) : InfoType :=
  match n with
  | 1 => .IT_namespace
  | 2 => .IT_record
  | 3 => .IT_function
  | 4 => .IT_enum
  | 5 => .IT_typedef
  | _ => .IT_default

/-- A decoder for concrete inputs: a number is the single integer field of the
record, a string is the blob, a location is the line in the integer field and
the file name in the blob, and a list gets the decoded element appended. -/
def sampleCodec : Codec :=
  { BitcodeVersion := 3
    decodeUnsigned := fun R _ _ => sampleField R
    decodeSymbolID := fun R _ _ => sampleField R
    decodeString := fun _ Blob _ => .ok Blob
    decodeBool := fun R _ _ => (sampleField R).map (fun v => decide (v ≠ 0))
    decodeInfoType := fun R _ _ => (sampleField R).map sampleInfoType
    decodeFieldId := fun R _ _ => (sampleField R).map sampleFieldId
    decodeAccess := fun R _ _ => sampleField R
    decodeTagType := fun R _ _ => sampleField R
    decodeKind := fun R _ => sampleField R
    decodeStyle := fun R _ => sampleField R
    decodeAdmonish := fun R _ => sampleField R
    decodeOptLocation := fun R Blob _ =>
      (sampleField R).map (fun v => some { LineNumber := v, Filename := Blob })
    decodeLocations := fun R Blob old =>
      (sampleField R).map (fun v => old ++ [{ LineNumber := v, Filename := Blob }])
    decodeFriends := fun R _ old => (sampleField R).map (fun v => old ++ [v])
    decodeSpecs := fun R _ _ => sampleField R
    decodeSpecs2 := fun R _ _ =>
      match R with
      | [a, b] => .ok (a, b)
      | _ => .error (.external 1)
    unassignedFieldId := .other 0
    nodeListError := fun _ => none }

/-- The entries of a reference block for the symbol `id` named `name`, of info
type `ty`, with the field id of value `field`. -/
def refItems (id : SymbolID) (name : String) (ty field : Nat) : List Item :=
  [.record .REFERENCE_USR [id] [], .record .REFERENCE_NAME [] (bytes name),
    .record .REFERENCE_TYPE [ty] [], .record .REFERENCE_FIELD [field] []]

/-- The entries of a symbol part: a definition at line 7 of a.hpp and a
declaration at line 3 of b.hpp. -/
def sampleSymbolPart : List Item :=
  [.record .SYMBOL_PART_LOCDEF [7] (bytes "a.hpp"), .record .SYMBOL_PART_LOC [3] (bytes "b.hpp")]

/-- A default-constructed `Scope`. -/
def emptyChildren : Scope := { Namespaces := [], Records := [], Functions := [], Typedefs := [] }

/-- A default-constructed `SymbolInfo`. -/
def emptySymbolInfo : SymbolInfo := { emptyInfo with DefLoc := none, Loc := [] }

/-- A default-constructed `NamespaceInfo`. -/
def emptyNamespace : NamespaceInfo := { emptyInfo with Children := emptyChildren }

/-- A default-constructed `RecordInfo`. -/
def emptyRecord : RecordInfo :=
  { emptySymbolInfo with
    TagType := 0, IsTypeDef := false, specs := 0, Friends := [], Members := [], Parents := [],
    VirtualParents := [], Bases := [], Template := none, Children := emptyChildren }

/-- A default-constructed `FunctionInfo`. -/
def emptyFunction : FunctionInfo :=
  { emptySymbolInfo with
    Access := 0, IsMethod := false, specs0 := 0, specs1 := 0, Parent := emptyReference,
    ReturnType := { Type_ := emptyReference }, Params := [], Template := none }

/-- A default-constructed `TypedefInfo`. -/
def emptyTypedef : TypedefInfo :=
  { emptySymbolInfo with IsUsing := false, Underlying := { Type_ := emptyReference } }

/-- A default-constructed `EnumInfo`. -/
def emptyEnum : EnumInfo := { emptySymbolInfo with }

/-- A default-constructed `VariableInfo`. -/
def emptyVariable : VariableInfo := { emptySymbolInfo with }

/-- The field ids by which `RecordBlock::readSubBlock` and `insertChild` for a
record file a decoded reference. -/
def recordTags : List FieldId :=
  [.F_parent, .F_vparent, .F_child_record, .F_child_function, .F_child_typedef]

/-- The field ids by which `readChild` files a decoded reference. -/
def childTags : List FieldId := [.F_child_namespace, .F_child_record, .F_child_function]

/-- Four reference blocks of a namespace, in stream order: the functions `f` and
`g`, between them the record `R` and the namespace `N`. -/
def sampleChildBlocks : List (List Item) :=
  [refItems 31 "f" 3 7, refItems 32 "R" 2 6, refItems 33 "N" 1 5, refItems 34 "g" 3 7]

/-- Four reference blocks of a record, in stream order: the function `f`, the
parent `P`, the function `g` and the virtual parent `V`. -/
def sampleRecordBlocks : List (List Item) :=
  [refItems 31 "f" 3 7, refItems 35 "P" 2 2, refItems 34 "g" 3 7, refItems 36 "V" 2 3]

end AST

/-! ### Sibling uniqueness in the index -/

mutual
/-- No node of the index tree has two children with the same id. -/
def Index.siblingsUnique : Index → Bool
  | .mk _ cs => decide ((cs.map (fun c => c.ref.USR)).Nodup) && allSiblingsUnique cs
/-- Every tree of a list of index trees has `Index.siblingsUnique`. -/
def allSiblingsUnique : List Index → Bool
  | [] => true
  | c :: cs => c.siblingsUnique && allSiblingsUnique cs
end

/-! ### Termination of the canonicalize walk -/

/-- The id `j` is a child namespace of `i`: the namespace stored under `i` lists
a reference to `j` among its `Namespaces`. -/
def ChildNamespace (m : InfoMap) (i j : SymbolID) : Prop :=
  ∃ I r, findNamespace m i = some I ∧ r ∈ I.Children.Namespaces ∧ r.USR = j

/-- Every reference in the `Namespaces`, `Records` and `Functions` lists of a
namespace of the map resolves in the map to an Info of the matching kind. -/
def ReferencesResolve (m : InfoMap) : Prop :=
  ∀ i I, findNamespace m i = some I →
    (∀ r ∈ I.Children.Namespaces, (findNamespace m r.USR).isSome = true) ∧
    (∀ r ∈ I.Children.Records, (getRecord m r.USR).isSome = true) ∧
    (∀ r ∈ I.Children.Functions, (getFunction m r.USR).isSome = true)

/-- The child-namespace relation of the map is acyclic: no namespace is reached
from itself through one or more child-namespace references. -/
def AcyclicNamespaces (m : InfoMap) : Prop :=
  ∀ i, ¬ Relation.TransGen (ChildNamespace m) i i

/-- A check of `ReferencesResolve` on a concrete map, entry by entry. -/
def referencesResolveCheck (m : InfoMap) : Bool :=
  m.all (fun e =>
    match e.2 with
    | .ofNamespace I =>
      I.Children.Namespaces.all (fun r => (findNamespace m r.USR).isSome) &&
      I.Children.Records.all (fun r => (getRecord m r.USR).isSome) &&
      I.Children.Functions.all (fun r => (getFunction m r.USR).isSome)
    | _ => true)

/-- A check on a concrete map that `rank` falls along every child-namespace
reference. -/
def rankCheck (rank : SymbolID → Nat) (m : InfoMap) : Bool :=
  m.all (fun e =>
    match e.2 with
    | .ofNamespace I => I.Children.Namespaces.all (fun r => decide (rank r.USR < rank e.1))
    | _ => true)

/-! ### The line diff of `src/test_suite/diff.cpp`

Strings are byte lists.  The loops `while` of `splitLines` and of the traceback
carry a bound on their iterations, and the results show that they end within it.
`size_t` is taken as 64 bits wide where a loop counts in it.  The text of the
diff is put together from pieces that depend on the output library; they enter
through `DiffFormat`. -/

namespace test_suite

/-- The index, counted from `i`, of the first byte of `s` that satisfies `p`. -/
def firstIndex (p : Nat → Bool) : Str → Nat → Option Nat
  | [], _ => none
  | c :: cs, i => if p c then some i else firstIndex p cs (i + 1)

/-- `std::string_view::find(ch, pos)`: the index of the first `ch` at or after
`pos`; no index stands for `npos`. -/
def find (text : Str) (ch pos : Nat) : Option Nat :=
  firstIndex (fun c => c == ch) (text.drop pos) pos

/-- `std::string_view::substr(pos, n)`. -/
def substr (text : Str) (pos n : Nat) : Str := (text.drop pos).take n

/-- The loop `while (pos < text.length())` of the lambda `splitLines`, from the
position `pos` with the lines pushed so far.  `fuel` bounds the number of
iterations; no result stands for a loop that has not ended within it. -/
def splitLinesLoop (text : Str) : Nat → Nat → List Str → Option (List Str)
  | 0, pos, lines => if pos < text.length then none else some lines
  | fuel + 1, pos, lines =>
    if pos < text.length then
      let newPos :=
        match find text 10 pos with
        | some p => p
        | none => text.length
      splitLinesLoop text fuel (newPos + 1) (lines ++ [substr text pos (newPos - pos)])
    else some lines

/-- The lambda `splitLines` on an empty vector `lines`.  Every iteration moves
`pos` forward, so `text.length()` iterations are allowed for. -/
def splitLines (text : Str) : Option (List Str) :=
  splitLinesLoop text text.length 0 []

/-- Membership in the set `" \t\r\n"`. -/
def isSpace (c : Nat) : Bool := c == 32 || c == 9 || c == 13 || c == 10

/-- `find_first_not_of(" \t\r\n")`; no index stands for `npos`. -/
def find_first_not_of (s : Str) : Option Nat :=
  firstIndex (fun c => !isSpace c) s 0

/-- `find_last_not_of(" \t\r\n")`; no index stands for `npos`. -/
def find_last_not_of (s : Str) : Option Nat :=
  (firstIndex (fun c => !isSpace c) s.reverse 0).map (fun k => s.length - 1 - k)

/-- The lambda `trim_spaces`: `remove_prefix(pos)` drops `pos` bytes at the
front and `remove_suffix(n)` drops `n` bytes at the end. -/
def trim_spaces (expression : Str) : Str :=
  match find_first_not_of expression with
  | none => []
  | some pos =>
    let e := expression.drop pos
    match find_last_not_of e with
    | none => []
    | some pos2 => e.take (e.length - (e.length - pos2 - 1))

/-- The vector of vectors `lcsTable`. -/
abbrev Table := List (List Nat)

/-- The read `lcsTable[i][j]`. -/
def cell (T : Table) (i j : Nat) : Nat := (T.getD i []).getD j 0

/-- The write `lcsTable[i][j] = v`. -/
def setCell (T : Table) (i j v : Nat) : Table := T.set i ((T.getD i []).set j v)

/-- The body of the inner loop that builds the table, for the lines `i` and `j`:
the lines are compared after `trim_spaces`. -/
def lcsStep (lines1 lines2 : List Str) (T : Table) (i j : Nat) : Table :=
  if trim_spaces (lines1.getD i []) = trim_spaces (lines2.getD j []) then
    setCell T (i + 1) (j + 1) (cell T i j + 1)
  else
    setCell T (i + 1) (j + 1) (max (cell T (i + 1) j) (cell T i (j + 1)))

/-- The table after the two nested `for` loops, from the table of zeros with
`lines1.size() + 1` rows and `lines2.size() + 1` columns. -/
def lcsTable (lines1 lines2 : List Str) : Table :=
  (List.range lines1.length).foldl
    (fun T i => (List.range lines2.length).foldl (fun T j => lcsStep lines1 lines2 T i j) T)
    (List.replicate (lines1.length + 1) (List.replicate (lines2.length + 1) 0))

/-- The local struct `DiffLineResult`. -/
structure DiffLineResult where
  line : Str
  added : Bool
  removed : Bool
  in_context : Bool
  deriving DecidableEq, Repr

/-- Modelled from the spec: `DiffStringsResult`, declared in diff.hpp outside
src: the text of the diff and the three counters, which `DiffStringsResult
result;` holds as zero.  The counters are natural numbers. -/
structure DiffStringsResult where
  diff : Str
  added : Nat
  removed : Nat
  unmodified : Nat
  deriving DecidableEq, Repr

/-- The variables of the traceback: the positions `i` and `j`, the counters of
`result` and the vector `diffLines`. -/
structure Trace where
  i : Nat
  j : Nat
  added : Nat
  removed : Nat
  unmodified : Nat
  diffLines : List DiffLineResult
  deriving DecidableEq, Repr

/-- The loop `while (i > 0 && j > 0)` of the traceback.  The lines are compared
as they are.  `fuel` bounds the number of iterations; no result stands for a
loop that has not ended within it. -/
def tracebackLoop (lines1 lines2 : List Str) (T : Table) : Nat → Trace → Option Trace
  | 0, t => if 0 < t.i ∧ 0 < t.j then none else some t
  | fuel + 1, t =>
    if 0 < t.i ∧ 0 < t.j then
      if lines1.getD (t.i - 1) [] = lines2.getD (t.j - 1) [] then
        tracebackLoop lines1 lines2 T fuel
          { t with
            diffLines := t.diffLines ++
              [{ line := lines1.getD (t.i - 1) [], added := false, removed := false,
                 in_context := false }],
            i := t.i - 1, j := t.j - 1, unmodified := t.unmodified + 1 }
      else if cell T (t.i - 1) t.j ≤ cell T t.i (t.j - 1) then
        tracebackLoop lines1 lines2 T fuel
          { t with
            diffLines := t.diffLines ++
              [{ line := lines2.getD (t.j - 1) [], added := true, removed := false,
                 in_context := false }],
            j := t.j - 1, added := t.added + 1 }
      else
        tracebackLoop lines1 lines2 T fuel
          { t with
            diffLines := t.diffLines ++
              [{ line := lines1.getD (t.i - 1) [], added := false, removed := true,
                 in_context := false }],
            i := t.i - 1, removed := t.removed + 1 }
    else some t

/-- The loop `while (i > 0)` after it, on the value of `i`. -/
def removeRest (lines1 : List Str) : Nat → Trace → Trace
  | 0, t => t
  | i + 1, t =>
    removeRest lines1 i
      { t with
        diffLines := t.diffLines ++
          [{ line := lines1.getD i [], added := false, removed := true, in_context := false }],
        i := i, removed := t.removed + 1 }

/-- The loop `while (j > 0)` after it, on the value of `j`. -/
def addRest (lines2 : List Str) : Nat → Trace → Trace
  | 0, t => t
  | j + 1, t =>
    addRest lines2 j
      { t with
        diffLines := t.diffLines ++
          [{ line := lines2.getD j [], added := true, removed := false, in_context := false }],
        j := j, added := t.added + 1 }

/-- The traceback: the three `while` loops from the bottom right corner of the
table, the first one with an iteration for every line of the two inputs
allowed for. -/
def traceback (lines1 lines2 : List Str) (T : Table) : Option Trace :=
  match tracebackLoop lines1 lines2 T (lines1.length + lines2.length)
      { i := lines1.length, j := lines2.length, added := 0, removed := 0, unmodified := 0,
        diffLines := [] } with
  | none => none
  | some t =>
    let t1 := removeRest lines1 t.i t
    some (addRest lines2 t1.j t1)

/-- The largest value of a `size_t`, taken as 64 bits wide. -/
def SIZE_MAX : Nat := 2 ^ 64 - 1

/-- The vector `modifiedIndexes`: the indexes of the added and removed lines. -/
def modifiedIndexes (diffLines : List DiffLineResult) : List Nat :=
  (List.range diffLines.length).filter
    (fun i => match diffLines[i]? with
      | some d => d.added || d.removed
      | none => false)

/-- The assignment `diffLines[k].in_context = true`. -/
def markAt : List DiffLineResult → Nat → List DiffLineResult
  | [], _ => []
  | d :: ds, 0 => { d with in_context := true } :: ds
  | d :: ds, k + 1 => d :: markAt ds k

/-- The body of the loop over `j` for the modified index `idx`; the sum
`idx + j` is a `size_t`. -/
def markStep (idx : Nat) (diffLines : List DiffLineResult) (j : Nat) :
    List DiffLineResult :=
  let d1 := if j ≤ idx then markAt diffLines (idx - j) else diffLines
  if (idx + j) % 2 ^ 64 < d1.length then markAt d1 ((idx + j) % 2 ^ 64) else d1

/-- The loops that mark the lines in context.  The inner loop
`for (j = 1; j <= context_size; ++j)` counts in a `size_t` and does not end when
`context_size` is `SIZE_MAX`; it is entered when a line is modified.  No result
stands for a loop that does not end. -/
def markContext (context_size : Nat) (diffLines : List DiffLineResult) :
    Option (List DiffLineResult) :=
  if modifiedIndexes diffLines ≠ [] ∧ SIZE_MAX ≤ context_size then none
  else
    some ((modifiedIndexes diffLines).foldl
      (fun ds idx =>
        (List.range context_size).foldl (fun ds k => markStep idx ds (k + 1)) (markAt ds idx))
      diffLines)

/-- What the text of the diff is made of; the pieces differ with the output
library (`MRDOX_TEST_HAS_FMT`): the note on skipped lines within the text and at
its end, an added or removed line, and an unmodified line. -/
structure DiffFormat where
  skipped : Nat → Str
  skippedLast : Nat → Str
  changed : Bool → Str → Str
  kept : Str → Str

/-- The pieces of the text without the fmt library (the `#else` branches). -/
def plainFormat : DiffFormat :=
  { skipped := fun n => bytes "... " ++ bytes (toString n) ++ bytes " unmodified line(s)\n"
    skippedLast := fun n => bytes "... " ++ bytes (toString n) ++ bytes " unmodified line(s)"
    changed := fun added line =>
      [if added then 43 else 45] ++ line ++ [10] ++
        (if line = [] then bytes "     (empty line)" else line) ++ [10]
    kept := fun line => line ++ [10] }

/-- The loop that concatenates the diff lines into `result.diff`, with the
counter `out_of_context`, and the note after the loop. -/
def render (F : DiffFormat) : List DiffLineResult → Nat → Str → Str
  | [], out_of_context, diff =>
    if 0 < out_of_context then diff ++ F.skippedLast out_of_context else diff
  | d :: rest, out_of_context, diff =>
    if d.in_context = false then render F rest (out_of_context + 1) diff
    else
      let diff1 := if 0 < out_of_context then diff ++ F.skipped out_of_context else diff
      if d.added || d.removed then render F rest 0 (diff1 ++ F.changed d.added d.line)
      else render F rest 0 (diff1 ++ F.kept d.line)

/-- `diffStrings(str1, str2, context_size)`. -/
def diffStrings (F : DiffFormat) (str1 str2 : Str) (context_size : Nat) :
    Option DiffStringsResult :=
  match splitLines str1, splitLines str2 with
  | some lines1, some lines2 =>
    match traceback lines1 lines2 (lcsTable lines1 lines2) with
    | none => none
    | some t =>
      match markContext context_size t.diffLines.reverse with
      | none => none
      | some diffLines =>
        some { diff := render F diffLines 0 [], added := t.added, removed := t.removed,
               unmodified := t.unmodified }
  | _, _ => none

/-- The lines of a text in the words of the specification: the text is split at
every `'\n'`, and a final `'\n'` does not start a further line. -/
def linesOf : Str → List Str
  | [] => []
  | c :: cs =>
    if c = 10 then [] :: linesOf cs
    else
      match linesOf cs with
      | [] => [[c]]
      | l :: ls => (c :: l) :: ls

/-- The recurrence of the table: the length of the longest common subsequence of
the first `i` lines of `lines1` and the first `j` lines of `lines2`, two lines
counting as equal when `key` maps them to the same string. -/
def lcsLen (key : Str → Str) (lines1 lines2 : List Str) : Nat → Nat → Nat
  | 0, _ => 0
  | _ + 1, 0 => 0
  | i + 1, j + 1 =>
    if key (lines1.getD i []) = key (lines2.getD j []) then lcsLen key lines1 lines2 i j + 1
    else max (lcsLen key lines1 lines2 (i + 1) j) (lcsLen key lines1 lines2 i (j + 1))
termination_by i j => i + j

/-- What the loops have reached when they are about to work on the lines `i`
and `j`: the table has its dimensions, its first column is zero, and the rows up
to `i` and the row `i + 1` up to the column `j` hold the recurrence. -/
def TableInv (lines1 lines2 : List Str) (T : Table) (i j : Nat) : Prop :=
  T.length = lines1.length + 1 ∧
  (∀ a, a ≤ lines1.length → (T.getD a []).length = lines2.length + 1) ∧
  (∀ a, cell T a 0 = 0) ∧
  ∀ a b, a ≤ lines1.length → b ≤ lines2.length → (a ≤ i ∨ (a = i + 1 ∧ b ≤ j)) →
    cell T a b = lcsLen trim_spaces lines1 lines2 a b

/-- The lists `s1` and `s2` are a common subsequence of `xs` and `ys`, lines
counting as equal when `key` maps them to the same string: `s1` is a
subsequence of `xs`, `s2` one of `ys`, and they are equal line by line. -/
def CommonSubsequence (key : Str → Str) (s1 s2 xs ys : List Str) : Prop :=
  s1.Sublist xs ∧ s2.Sublist ys ∧ s1.map key = s2.map key

/-- The number `n` is the length of the longest common subsequence of `xs` and
`ys`: a common subsequence of this length exists and none is longer. -/
def IsLcsLength (key : Str → Str) (n : Nat) (xs ys : List Str) : Prop :=
  (∃ s1 s2, CommonSubsequence key s1 s2 xs ys ∧ s1.length = n) ∧
  ∀ s1 s2, CommonSubsequence key s1 s2 xs ys → s1.length ≤ n

/-- Trimming in the words of the specification: the leading and the trailing
spaces, tabs, carriage returns and newlines are dropped. -/
def trimSpec (s : Str) : Str :=
  ((s.dropWhile isSpace).reverse.dropWhile isSpace).reverse

/-- The diff lines marked as added or removed are as many as the counters
`added` and `removed` say. -/
def Counted (t : Trace) : Prop :=
  t.diffLines.countP (fun d => d.added || d.removed) = t.added + t.removed

end test_suite

end Mrdox

namespace Mrdox

/-! ## The comparator -/

theorem lexLess_irrefl (a : Str) : lexLess a a = false := by
  induction a with
  | nil => rfl
  | cons x xs ih => simp [lexLess, ih]

theorem lexLess_asymm : ∀ a b : Str, lexLess a b = true → lexLess b a = false
  | [], [], _ => rfl
  | [], _ :: _, _ => rfl
  | _ :: _, [], h => by simp [lexLess] at h
  | x :: xs, y :: ys, h => by
    simp only [lexLess] at h ⊢
    by_cases h1 : x < y
    · have h2 : ¬ y < x := by omega
      simp [h1, h2]
    · by_cases h2 : y < x
      · simp [h1, h2] at h
      · simp only [h1, h2, if_false] at h ⊢
        exact lexLess_asymm xs ys h

theorem lexLess_trans : ∀ a b c : Str,
    lexLess a b = true → lexLess b c = true → lexLess a c = true
  | [], [], _, h, _ => by simp [lexLess] at h
  | [], _ :: _, [], _, h => by simp [lexLess] at h
  | [], _ :: _, _ :: _, _, _ => rfl
  | _ :: _, [], _, h, _ => by simp [lexLess] at h
  | _ :: _, _ :: _, [], _, h => by simp [lexLess] at h
  | x :: xs, y :: ys, z :: zs, h1, h2 => by
    simp only [lexLess] at h1 h2 ⊢
    by_cases hxy : x < y
    · by_cases hyz : y < z
      · have : x < z := by omega
        simp [this]
      · by_cases hzy : z < y
        · simp [hyz, hzy] at h2
        · have : x < z := by omega
          simp [this]
    · by_cases hyx : y < x
      · simp [hxy, hyx] at h1
      · simp only [hxy, hyx, if_false] at h1
        have hxe : x = y := by omega
        subst hxe
        by_cases hyz : x < z
        · simp [hyz]
        · by_cases hzy : z < x
          · simp [hyz, hzy] at h2
          · simp only [hyz, hzy, if_false] at h2 ⊢
            exact lexLess_trans xs ys zs h1 h2

theorem lexLess_total : ∀ a b : Str, a ≠ b → lexLess a b = true ∨ lexLess b a = true
  | [], [], h => absurd rfl h
  | [], _ :: _, _ => Or.inl rfl
  | _ :: _, [], _ => Or.inr rfl
  | x :: xs, y :: ys, h => by
    simp only [lexLess]
    by_cases hxy : x < y
    · simp [hxy]
    · by_cases hyx : y < x
      · simp [hxy, hyx]
      · have hxe : x = y := by omega
        subst hxe
        simp only [hxy, if_false]
        exact lexLess_total xs ys (fun e => h (by rw [e]))

/-- The second loop, once the tie-break is recorded: the lowercased rests decide,
and the recorded tie-break only when they are equal. -/
theorem symbolCompareTiebreak_eq (sc : Int) : ∀ (i0 i1 : Str) (k : Nat),
    symbolCompareTiebreak (k + i0.length) (k + i1.length) sc i0 i1 =
      if lower i0 = lower i1 then decide (sc < 0) else lexLess (lower i0) (lower i1)
  | [], [], k => by simp [symbolCompareTiebreak, lower]
  | [], _ :: _, k => by simp [symbolCompareTiebreak, lower, lexLess]
  | _ :: _, [], k => by
    simp [symbolCompareTiebreak, lower, lexLess]
  | c0 :: i0, c1 :: i1, k => by
    have ih := symbolCompareTiebreak_eq sc i0 i1 (k + 1)
    have e0 : k + (c0 :: i0).length = k + 1 + i0.length := by simp; omega
    have e1 : k + (c1 :: i1).length = k + 1 + i1.length := by simp; omega
    rw [e0, e1]
    simp only [symbolCompareTiebreak, lower, List.map_cons, lexLess, List.cons.injEq]
    by_cases h : tolower c0 = tolower c1
    · simp only [h, ne_eq, not_true_eq_false, if_false, lt_irrefl, true_and]
      exact ih
    · simp only [h, ne_eq, not_false_eq_true, if_true, false_and, if_false]
      by_cases h2 : tolower c0 < tolower c1
      · simp [h2]
      · have : tolower c1 < tolower c0 := by omega
        simp [h2, this]

/-- The first loop: the lowercased strings decide, and between strings that are
equal ignoring case the bytewise greater one is the smaller. -/
theorem symbolCompareScan_eq : ∀ (i0 i1 : Str) (k : Nat),
    symbolCompareScan (k + i0.length) (k + i1.length) i0 i1 =
      (lexLess (lower i0) (lower i1) || (decide (lower i0 = lower i1) && lexLess i1 i0))
  | [], [], k => by simp [symbolCompareScan, lower, lexLess]
  | [], _ :: _, k => by simp [symbolCompareScan, lower, lexLess]
  | _ :: _, [], k => by simp [symbolCompareScan, lower, lexLess]
  | c0 :: i0, c1 :: i1, k => by
    have ih := symbolCompareScan_eq i0 i1 (k + 1)
    have ht := symbolCompareTiebreak_eq (if c0 > c1 then -1 else 1) i0 i1 (k + 1)
    have e0 : k + (c0 :: i0).length = k + 1 + i0.length := by simp; omega
    have e1 : k + (c1 :: i1).length = k + 1 + i1.length := by simp; omega
    rw [e0, e1]
    simp only [symbolCompareScan]
    by_cases h : tolower c0 = tolower c1
    · have hl : lexLess (lower (c0 :: i0)) (lower (c1 :: i1)) = lexLess (lower i0) (lower i1) := by
        simp [lower, lexLess, h]
      have he : decide (lower (c0 :: i0) = lower (c1 :: i1)) = decide (lower i0 = lower i1) := by
        simp [lower, h]
      rw [hl, he]
      by_cases hc : c0 = c1
      · subst hc
        simp only [ne_eq, not_true_eq_false, if_false]
        rw [ih]
        simp [lexLess]
      · simp only [h, hc, ne_eq, not_true_eq_false, not_false_eq_true, if_false, if_true]
        rw [ht]
        by_cases hq : lower i0 = lower i1
        · have hir : lexLess (lower i0) (lower i1) = false := by
            rw [hq]; exact lexLess_irrefl _
          simp only [hq, if_true, hir, decide_True, Bool.true_and, Bool.false_or, lexLess]
          by_cases hgt : c1 < c0
          · simp [hgt, lexLess_irrefl]
          · have hlt : c0 < c1 := by omega
            simp [hgt, hlt, lexLess_irrefl]
        · simp [hq]
    · simp only [h, ne_eq, not_false_eq_true, if_true]
      have hne : ¬ lower (c0 :: i0) = lower (c1 :: i1) := by
        simp [lower, h]
      simp only [hne, decide_False, Bool.false_and, Bool.or_false]
      simp only [lower, List.map_cons, lexLess]
      by_cases h2 : tolower c0 < tolower c1
      · simp [h2]
      · have : tolower c1 < tolower c0 := by omega
        simp [h2, this]

/-- `symbolCompare` is the two-key order: lowercased strings first, then the
bytewise order reversed. -/
theorem symbolCompare_eq (s0 s1 : Str) :
    symbolCompare s0 s1 =
      (lexLess (lower s0) (lower s1) || (decide (lower s0 = lower s1) && lexLess s1 s0)) := by
  have h := symbolCompareScan_eq s0 s1 0
  simp only [Nat.zero_add] at h
  exact h

theorem symbolCompare_iff (s0 s1 : Str) :
    symbolCompare s0 s1 = true ↔
      lexLess (lower s0) (lower s1) = true ∨ (lower s0 = lower s1 ∧ lexLess s1 s0 = true) := by
  rw [symbolCompare_eq]
  simp

theorem symbolCompare_irrefl (a : Str) : symbolCompare a a = false := by
  rw [symbolCompare_eq]
  simp [lexLess_irrefl]

theorem symbolCompare_asymm (a b : Str) (h : symbolCompare a b = true) :
    symbolCompare b a = false := by
  rw [symbolCompare_iff] at h
  cases hb : symbolCompare b a with
  | false => rfl
  | true =>
    exfalso
    rw [symbolCompare_iff] at hb
    rcases h with h | ⟨he, h⟩ <;> rcases hb with hb | ⟨hbe, hb⟩
    · have := lexLess_asymm _ _ h
      rw [this] at hb
      cases hb
    · rw [hbe, lexLess_irrefl] at h
      cases h
    · rw [he, lexLess_irrefl] at hb
      cases hb
    · have := lexLess_asymm _ _ h
      rw [this] at hb
      cases hb

theorem symbolCompare_trans (a b c : Str) (h1 : symbolCompare a b = true)
    (h2 : symbolCompare b c = true) : symbolCompare a c = true := by
  rw [symbolCompare_iff] at h1 h2 ⊢
  rcases h1 with h1 | ⟨e1, h1⟩ <;> rcases h2 with h2 | ⟨e2, h2⟩
  · exact Or.inl (lexLess_trans _ _ _ h1 h2)
  · rw [e2] at h1
    exact Or.inl h1
  · rw [← e1] at h2
    exact Or.inl h2
  · exact Or.inr ⟨e1.trans e2, lexLess_trans _ _ _ h2 h1⟩

theorem symbolCompare_total (a b : Str) (h : a ≠ b) :
    symbolCompare a b = true ∨ symbolCompare b a = true := by
  rw [symbolCompare_iff, symbolCompare_iff]
  by_cases he : lower a = lower b
  · rcases lexLess_total a b h with h1 | h1
    · exact Or.inr (Or.inr ⟨he.symm, h1⟩)
    · exact Or.inl (Or.inr ⟨he, h1⟩)
  · rcases lexLess_total _ _ he with h1 | h1
    · exact Or.inl (Or.inl h1)
    · exact Or.inr (Or.inl h1)

theorem lexLess_append_left (p a b : Str) : lexLess (p ++ a) (p ++ b) = lexLess a b := by
  induction p with
  | nil => rfl
  | cons x xs ih => simp [lexLess, ih]

theorem tolower_eq_cases (c0 c1 : Nat) (h : tolower c0 = tolower c1) (hne : c0 ≠ c1) :
    (c1 < c0 ∧ isLower c0 ∧ isUpper c1) ∨ (c0 < c1 ∧ isLower c1 ∧ isUpper c0) := by
  unfold tolower at h
  unfold isLower isUpper
  split_ifs at h <;> omega

/-- Two different strings that are equal ignoring case split at a first
differing position. -/
theorem exists_first_difference : ∀ s0 s1 : Str, lower s0 = lower s1 → s0 ≠ s1 →
    ∃ p c0 c1 t0 t1, s0 = p ++ c0 :: t0 ∧ s1 = p ++ c1 :: t1 ∧ c0 ≠ c1 ∧
      tolower c0 = tolower c1
  | [], [], _, h => absurd rfl h
  | [], _ :: _, h, _ => by simp [lower] at h
  | _ :: _, [], h, _ => by simp [lower] at h
  | a :: as, b :: bs, h, hne => by
    simp only [lower, List.map_cons, List.cons.injEq] at h
    by_cases hab : a = b
    · subst hab
      have hne2 : as ≠ bs := fun e => hne (by rw [e])
      obtain ⟨p, c0, c1, t0, t1, e0, e1, hc, ht⟩ := exists_first_difference as bs h.2 hne2
      exact ⟨a :: p, c0, c1, t0, t1, by rw [e0]; rfl, by rw [e1]; rfl, hc, ht⟩
    · exact ⟨[], a, b, as, bs, rfl, rfl, hab, h.1⟩

theorem lexLess_cons_ne (c0 c1 : Nat) (t0 t1 : Str) (hne : c0 ≠ c1) :
    lexLess (c1 :: t1) (c0 :: t0) = decide (c1 < c0) := by
  simp only [lexLess]
  by_cases h : c1 < c0
  · simp [h]
  · have h2 : c0 < c1 := by omega
    simp [h, h2]

theorem lexLess_take : ∀ (n : Nat) (t : Str), n < t.length → lexLess (t.take n) t = true
  | _, [], h => by simp at h
  | 0, _ :: _, _ => by simp [lexLess]
  | n + 1, x :: xs, h => by
    have h2 : n < xs.length := by simpa using h
    simp [lexLess, lexLess_take n xs h2]

theorem lexLess_lower_first_difference : ∀ (k : Nat) (s0 s1 : Str),
    (∀ j, j < k → tolower (s0.getD j 0) = tolower (s1.getD j 0)) →
    k < s0.length → k < s1.length →
    tolower (s0.getD k 0) ≠ tolower (s1.getD k 0) →
    lower s0 ≠ lower s1 ∧
      lexLess (lower s0) (lower s1) = decide (tolower (s0.getD k 0) < tolower (s1.getD k 0))
  | _, [], _, _, h0, _, _ => by simp at h0
  | _, _ :: _, [], _, _, h1, _ => by simp at h1
  | 0, a :: as, b :: bs, _, _, _, hk => by
    simp only [List.getD_cons_zero] at hk ⊢
    refine ⟨by simp [lower, hk], ?_⟩
    simp only [lower, List.map_cons, lexLess]
    by_cases h : tolower a < tolower b
    · simp [h]
    · have h2 : tolower b < tolower a := by omega
      simp [h, h2]
  | k + 1, a :: as, b :: bs, hpre, h0, h1, hk => by
    have hab : tolower a = tolower b := by
      have := hpre 0 (by omega)
      simpa using this
    have hpre2 : ∀ j, j < k → tolower (as.getD j 0) = tolower (bs.getD j 0) := by
      intro j hj
      have := hpre (j + 1) (by omega)
      simpa using this
    have h0b : k < as.length := by simpa using h0
    have h1b : k < bs.length := by simpa using h1
    have hk2 : tolower (as.getD k 0) ≠ tolower (bs.getD k 0) := by simpa using hk
    obtain ⟨hne, hl⟩ := lexLess_lower_first_difference k as bs hpre2 h0b h1b hk2
    refine ⟨?_, ?_⟩
    · intro e
      simp only [lower, List.map_cons, List.cons.injEq] at e
      exact hne e.2
    · simp only [List.getD_cons_succ]
      rw [← hl]
      simp [lower, lexLess, hab]

/-! ## The sort -/

theorem stdSortInsert_perm {α : Type} (lt : α → α → Bool) (x : α) :
    ∀ l : List α, (stdSortInsert lt x l).Perm (x :: l)
  | [] => List.Perm.refl _
  | y :: ys => by
    simp only [stdSortInsert]
    split_ifs
    · exact List.Perm.refl _
    · exact ((stdSortInsert_perm lt x ys).cons y).trans (List.Perm.swap x y ys)

theorem stdSort_perm {α : Type} (lt : α → α → Bool) : ∀ l : List α, (stdSort lt l).Perm l
  | [] => List.Perm.refl _
  | x :: xs => (stdSortInsert_perm lt x _).trans ((stdSort_perm lt xs).cons x)

theorem stdSortInsert_sorted {α : Type} (lt : α → α → Bool)
    (hasymm : ∀ a b, lt a b = true → lt b a = false)
    (htrans : ∀ a b c, lt a b = true → lt b c = true → lt a c = true) (x : α) :
    ∀ l : List α, l.Pairwise (fun a b => lt b a = false) →
      (stdSortInsert lt x l).Pairwise (fun a b => lt b a = false)
  | [], _ => by simp [stdSortInsert]
  | y :: ys, h => by
    rw [List.pairwise_cons] at h
    simp only [stdSortInsert]
    by_cases hxy : lt x y = true
    · simp only [hxy, if_true]
      refine List.pairwise_cons.2 ⟨?_, List.pairwise_cons.2 h⟩
      intro z hz
      rcases List.mem_cons.1 hz with hz | hz
      · rw [hz]
        exact hasymm _ _ hxy
      · cases hzx : lt z x with
        | false => rfl
        | true =>
          have := htrans _ _ _ hzx hxy
          rw [h.1 z hz] at this
          cases this
    · simp only [hxy, if_false]
      refine List.pairwise_cons.2 ⟨?_, stdSortInsert_sorted lt hasymm htrans x ys h.2⟩
      intro z hz
      have hz2 := (stdSortInsert_perm lt x ys).subset hz
      rcases List.mem_cons.1 hz2 with hz2 | hz2
      · rw [hz2]
        simpa using hxy
      · exact h.1 z hz2

theorem stdSort_sorted {α : Type} (lt : α → α → Bool)
    (hasymm : ∀ a b, lt a b = true → lt b a = false)
    (htrans : ∀ a b c, lt a b = true → lt b c = true → lt a c = true) :
    ∀ l : List α, (stdSort lt l).Pairwise (fun a b => lt b a = false)
  | [] => List.Pairwise.nil
  | x :: xs => stdSortInsert_sorted lt hasymm htrans x _ (stdSort_sorted lt hasymm htrans xs)

/-- Under a strict total order the sorted arrangement is unique, so the result
of the sort does not depend on the algorithm. -/
theorem stdSort_eq_of_perm_sorted {α : Type} (lt : α → α → Bool)
    (hasymm : ∀ a b, lt a b = true → lt b a = false)
    (htrans : ∀ a b c, lt a b = true → lt b c = true → lt a c = true)
    (htotal : ∀ a b, a ≠ b → lt a b = true ∨ lt b a = true)
    (l t : List α) (hp : l.Perm t) (ht : t.Pairwise (fun a b => lt b a = false)) :
    stdSort lt l = t := by
  haveI : IsAntisymm α (fun a b => lt b a = false) := ⟨by
    intro a b h1 h2
    by_contra hne
    rcases htotal a b hne with h | h
    · rw [h2] at h
      cases h
    · rw [h1] at h
      cases h⟩
  exact List.eq_of_perm_of_sorted ((stdSort_perm lt l).trans hp)
    (stdSort_sorted lt hasymm htrans l) ht

/-! ## Claims about the comparator -/

/-- C1: `Corpus::symbolCompare` is a strict order on byte strings: it is
irreflexive, never holds in both directions, and is transitive. -/
theorem symbolCompare_strict_order (a b c : Str) :
    symbolCompare a a = false ∧
    ¬ (symbolCompare a b = true ∧ symbolCompare b a = true) ∧
    (symbolCompare a b = true → symbolCompare b c = true → symbolCompare a c = true) := by
  refine ⟨symbolCompare_irrefl a, ?_, symbolCompare_trans a b c⟩
  rintro ⟨h1, h2⟩
  rw [symbolCompare_asymm a b h1] at h2
  cases h2

theorem symbolCompare_strict_order_witness :
    symbolCompare (bytes "apple") (bytes "Apple") = true ∧
    symbolCompare (bytes "Apple") (bytes "Banana") = true ∧
    symbolCompare (bytes "apple") (bytes "Banana") = true :=
  ⟨by decide, by decide,
    (symbolCompare_strict_order (bytes "apple") (bytes "Apple") (bytes "Banana")).2.2
      (by decide) (by decide)⟩

/-- C2: `Corpus::symbolCompare` is total on distinct strings: of two different
strings exactly one is less than the other, so two strings neither of which is
less are identical. -/
theorem symbolCompare_total_on_distinct (a b : Str) :
    (a ≠ b →
      (symbolCompare a b = true ∧ symbolCompare b a = false) ∨
      (symbolCompare a b = false ∧ symbolCompare b a = true)) ∧
    (symbolCompare a b = false → symbolCompare b a = false → a = b) := by
  have key : a ≠ b →
      (symbolCompare a b = true ∧ symbolCompare b a = false) ∨
      (symbolCompare a b = false ∧ symbolCompare b a = true) := by
    intro h
    rcases symbolCompare_total a b h with h1 | h1
    · exact Or.inl ⟨h1, symbolCompare_asymm _ _ h1⟩
    · exact Or.inr ⟨symbolCompare_asymm _ _ h1, h1⟩
  refine ⟨key, ?_⟩
  intro h1 h2
  by_contra hne
  rcases key hne with ⟨h, _⟩ | ⟨_, h⟩
  · rw [h1] at h
    cases h
  · rw [h2] at h
    cases h

theorem symbolCompare_total_on_distinct_witness :
    (symbolCompare (bytes "aB") (bytes "Ab") = true ∧
        symbolCompare (bytes "Ab") (bytes "aB") = false) ∨
      (symbolCompare (bytes "aB") (bytes "Ab") = false ∧
        symbolCompare (bytes "Ab") (bytes "aB") = true) :=
  (symbolCompare_total_on_distinct (bytes "aB") (bytes "Ab")).1 (by decide)

/-- C3, as the claim states it, fails: `symbolCompare("Apple","apple")` is false
(the lowercase spelling is the smaller one), and sorting
`["Apple","apple","Banana"]` puts `"apple"` first. -/
theorem symbolCompare_uppercase_first_counterexample :
    symbolCompare (bytes "Apple") (bytes "apple") = false ∧
    stdSort symbolCompare [bytes "Apple", bytes "apple", bytes "Banana"] =
      [bytes "apple", bytes "Apple", bytes "Banana"] := by
  decide

/-- C3, amended: for two different strings of equal length that are equal
ignoring case, `symbolCompare s0 s1` holds exactly when at the first position
where they differ `s0` has the lowercase letter and `s1` the uppercase one.  In
particular `symbolCompare("apple","Apple")` holds and sorting any permutation of
`["Apple","apple","Banana"]` yields `["apple","Apple","Banana"]`. -/
theorem symbolCompare_lowercase_first :
    (∀ s0 s1 : Str, s0.length = s1.length → lower s0 = lower s1 → s0 ≠ s1 →
      (symbolCompare s0 s1 = true ↔
        ∃ p c0 c1 t0 t1, s0 = p ++ c0 :: t0 ∧ s1 = p ++ c1 :: t1 ∧ c0 ≠ c1 ∧
          isLower c0 ∧ isUpper c1)) ∧
    symbolCompare (bytes "apple") (bytes "Apple") = true ∧
    (∀ l : List Str, l.Perm [bytes "Apple", bytes "apple", bytes "Banana"] →
      stdSort symbolCompare l = [bytes "apple", bytes "Apple", bytes "Banana"]) := by
  refine ⟨?_, by decide, ?_⟩
  · intro s0 s1 _ hlow hne
    rw [symbolCompare_iff]
    constructor
    · intro h
      obtain ⟨p, c0, c1, t0, t1, e0, e1, hc, ht⟩ := exists_first_difference s0 s1 hlow hne
      refine ⟨p, c0, c1, t0, t1, e0, e1, hc, ?_⟩
      rcases h with h | ⟨_, h⟩
      · rw [hlow, lexLess_irrefl] at h
        cases h
      · rw [e0, e1, lexLess_append_left, lexLess_cons_ne c0 c1 t0 t1 hc] at h
        have hlt : c1 < c0 := by simpa using h
        rcases tolower_eq_cases c0 c1 ht hc with h3 | h3
        · exact h3.2
        · omega
    · rintro ⟨p, c0, c1, t0, t1, e0, e1, hc, hl, hu⟩
      refine Or.inr ⟨hlow, ?_⟩
      rw [e0, e1, lexLess_append_left, lexLess_cons_ne c0 c1 t0 t1 hc]
      unfold isLower at hl
      unfold isUpper at hu
      simp only [decide_eq_true_eq]
      omega
  · intro l hl
    refine stdSort_eq_of_perm_sorted symbolCompare symbolCompare_asymm symbolCompare_trans
      symbolCompare_total l _ (hl.trans ?_) (by decide)
    exact (List.Perm.swap _ _ _)

theorem symbolCompare_lowercase_first_witness :
    symbolCompare (bytes "aB") (bytes "Ab") = true ↔
      ∃ p c0 c1 t0 t1, bytes "aB" = p ++ c0 :: t0 ∧ bytes "Ab" = p ++ c1 :: t1 ∧ c0 ≠ c1 ∧
        isLower c0 ∧ isUpper c1 :=
  symbolCompare_lowercase_first.1 (bytes "aB") (bytes "Ab") (by decide) (by decide) (by decide)

/-- C4: the first case-insensitive difference decides: if `k` is the first index
(below both lengths) with `tolower(s0[k]) ≠ tolower(s1[k])`, then
`symbolCompare(s0,s1)` is `tolower(s0[k]) < tolower(s1[k])`, whatever case-only
differences come before `k`. -/
theorem symbolCompare_first_difference (s0 s1 : Str) (k : Nat)
    (h0 : k < s0.length) (h1 : k < s1.length)
    (hpre : ∀ j (hj : j < k), tolower s0[j] = tolower s1[j])
    (hk : tolower s0[k] ≠ tolower s1[k]) :
    symbolCompare s0 s1 = decide (tolower s0[k] < tolower s1[k]) := by
  have hpre2 : ∀ j, j < k → tolower (s0.getD j 0) = tolower (s1.getD j 0) := by
    intro j hj
    have := hpre j hj
    rw [List.getD_eq_getElem s0 0 (by omega), List.getD_eq_getElem s1 0 (by omega)]
    exact this
  have e0 : s0.getD k 0 = s0[k] := List.getD_eq_getElem s0 0 h0
  have e1 : s1.getD k 0 = s1[k] := List.getD_eq_getElem s1 0 h1
  obtain ⟨hne, hl⟩ := lexLess_lower_first_difference k s0 s1 hpre2 h0 h1 (by rw [e0, e1]; exact hk)
  rw [symbolCompare_eq, hl, e0, e1]
  simp [hne]

theorem symbolCompare_first_difference_witness :
    symbolCompare (bytes "aZ") (bytes "Ab") = decide (tolower 90 < tolower 98) :=
  symbolCompare_first_difference (bytes "aZ") (bytes "Ab") 1 (by decide) (by decide)
    (by decide) (by decide)

/-- C5: the shorter string sorts first when the overlap is equal ignoring case:
if `|s0| < |s1|` and the first `|s0|` characters of `s1` equal `s0` ignoring
case, then `symbolCompare(s0,s1)` is true and `symbolCompare(s1,s0)` is false. -/
theorem symbolCompare_shorter_first (s0 s1 : Str) (hlen : s0.length < s1.length)
    (hpre : lower s0 = lower (s1.take s0.length)) :
    symbolCompare s0 s1 = true ∧ symbolCompare s1 s0 = false := by
  have h : symbolCompare s0 s1 = true := by
    rw [symbolCompare_iff]
    left
    have hl : s0.length < (lower s1).length := by simpa [lower] using hlen
    have := lexLess_take s0.length (lower s1) hl
    rw [hpre]
    simpa [lower, List.map_take] using this
  exact ⟨h, symbolCompare_asymm _ _ h⟩

theorem symbolCompare_shorter_first_witness :
    symbolCompare (bytes "aB") (bytes "Abc") = true ∧
      symbolCompare (bytes "Abc") (bytes "aB") = false :=
  symbolCompare_shorter_first (bytes "aB") (bytes "Abc") (by decide) (by decide)

/-! ## The canonicalizer -/

theorem infoMapFind_set (v : AnyInfo) (id j : SymbolID) : ∀ m : InfoMap,
    infoMapFind (infoMapSet m id v) j =
      if j = id then (infoMapFind m id).map (fun _ => v) else infoMapFind m j
  | [] => by simp [infoMapSet, infoMapFind]
  | (k, w) :: rest => by
    have ih := infoMapFind_set v id j rest
    simp only [infoMapSet, infoMapFind]
    by_cases hk : k = id
    · subst hk
      by_cases hj : j = k
      · subst hj
        simp [infoMapFind]
      · have hj2 : ¬ k = j := fun e => hj e.symm
        simp [infoMapFind, hj, hj2]
    · by_cases hj : j = id
      · subst hj
        simp only [hk, if_false, infoMapFind, if_true]
        rw [ih]
        simp
      · simp only [hk, if_false, infoMapFind, hj]
        by_cases hkj : k = j
        · simp [hkj]
        · simp only [hkj, if_false]
          rw [ih]
          simp [hj]

theorem nsRel_refl (I : NamespaceInfo) : NsRel I I :=
  ⟨rfl, List.Perm.refl _, List.Perm.refl _, List.Perm.refl _, rfl, rfl⟩

theorem nsRel_trans {I J L : NamespaceInfo} (h1 : NsRel I J) (h2 : NsRel J L) : NsRel I L :=
  ⟨h2.1.trans h1.1, h2.2.1.trans h1.2.1, h2.2.2.1.trans h1.2.2.1,
    h2.2.2.2.1.trans h1.2.2.2.1, h2.2.2.2.2.1.trans h1.2.2.2.2.1,
    h2.2.2.2.2.2.trans h1.2.2.2.2.2⟩

theorem anyRel_refl (a : AnyInfo) : AnyRel a a := Or.inl rfl

theorem anyRel_trans {a b c : AnyInfo} (h1 : AnyRel a b) (h2 : AnyRel b c) : AnyRel a c := by
  rcases h1 with h1 | ⟨I, J, ha, hb, hr⟩
  · rw [h1]
    exact h2
  · rcases h2 with h2 | ⟨J2, L, hb2, hc, hr2⟩
    · rw [← h2]
      exact Or.inr ⟨I, J, ha, hb, hr⟩
    · rw [hb] at hb2
      cases hb2
      exact Or.inr ⟨I, L, ha, hc, nsRel_trans hr hr2⟩

theorem anyRel_base_eq {a b : AnyInfo} (h : AnyRel a b) : b.base = a.base := by
  rcases h with h | ⟨I, J, ha, hb, hr⟩
  · rw [h]
  · rw [ha, hb]
    exact hr.1

theorem mapRel_refl (m : InfoMap) : MapRel m m := by
  intro j
  cases h : infoMapFind m j with
  | none => exact Or.inl ⟨rfl, rfl⟩
  | some a => exact Or.inr ⟨a, a, rfl, rfl, anyRel_refl a⟩

theorem mapRel_trans {m1 m2 m3 : InfoMap} (h1 : MapRel m1 m2) (h2 : MapRel m2 m3) :
    MapRel m1 m3 := by
  intro j
  rcases h1 j with ⟨a1, a2⟩ | ⟨a, b, ha, hb, hab⟩
  · rcases h2 j with ⟨_, b2⟩ | ⟨b, c, hb, _, _⟩
    · exact Or.inl ⟨a1, b2⟩
    · rw [a2] at hb
      cases hb
  · rcases h2 j with ⟨b1, _⟩ | ⟨b2, c, hb2, hc, hbc⟩
    · rw [hb] at b1
      cases b1
    · rw [hb] at hb2
      cases hb2
      exact Or.inr ⟨a, c, ha, hc, anyRel_trans hab hbc⟩

theorem mapRel_fqnOf_eq (fqn : Info → Str) {m1 m2 : InfoMap} (h : MapRel m1 m2) :
    fqnOf fqn m2 = fqnOf fqn m1 := by
  funext j
  unfold fqnOf
  rcases h j with ⟨a1, a2⟩ | ⟨a, b, ha, hb, hab⟩
  · rw [a1, a2]
  · rw [ha, hb]
    simp [anyRel_base_eq hab]

theorem mapRel_findNamespace_fwd {m1 m2 : InfoMap} (h : MapRel m1 m2) {j : SymbolID}
    {I : NamespaceInfo} (hI : findNamespace m1 j = some I) :
    ∃ J, findNamespace m2 j = some J ∧ NsRel I J := by
  unfold findNamespace at hI ⊢
  rcases h j with ⟨a1, _⟩ | ⟨a, b, ha, hb, hab⟩
  · rw [a1] at hI
    cases hI
  · rw [ha] at hI
    rw [hb]
    rcases hab with hab | ⟨I2, J, ha2, hb2, hr⟩
    · subst hab
      cases a <;> simp at hI
      subst hI
      exact ⟨_, rfl, nsRel_refl _⟩
    · subst ha2
      subst hb2
      simp at hI
      subst hI
      exact ⟨J, rfl, hr⟩

theorem mapRel_findNamespace_bwd {m1 m2 : InfoMap} (h : MapRel m1 m2) {j : SymbolID}
    {J : NamespaceInfo} (hJ : findNamespace m2 j = some J) :
    ∃ I, findNamespace m1 j = some I ∧ NsRel I J := by
  unfold findNamespace at hJ ⊢
  rcases h j with ⟨_, a2⟩ | ⟨a, b, ha, hb, hab⟩
  · rw [a2] at hJ
    cases hJ
  · rw [hb] at hJ
    rw [ha]
    rcases hab with hab | ⟨I, J2, ha2, hb2, hr⟩
    · subst hab
      cases a <;> simp at hJ
      subst hJ
      exact ⟨_, rfl, nsRel_refl _⟩
    · subst ha2
      subst hb2
      simp at hJ
      subst hJ
      exact ⟨I, rfl, hr⟩

theorem reach_of_mapRel {m1 m2 : InfoMap} (h : MapRel m1 m2) {i j : SymbolID}
    (hr : Reach m1 i j) : Reach m2 i j := by
  induction hr with
  | refl i => exact Reach.refl i
  | step i j I r hI hmem _ ih =>
    obtain ⟨J, hJ, hrel⟩ := mapRel_findNamespace_fwd h hI
    exact Reach.step i j J r hJ (hrel.2.1.symm.subset hmem) ih

theorem sortStep_refl (K : SymbolID → Option Str) (m : InfoMap) : SortStep K m m :=
  ⟨mapRel_refl m, fun _ => Or.inl rfl⟩

theorem sortedNs_of_find_eq {K : SymbolID → Option Str} {m1 m2 : InfoMap} {j : SymbolID}
    (he : infoMapFind m2 j = infoMapFind m1 j) (h : SortedNs K m1 j) : SortedNs K m2 j := by
  obtain ⟨J, hJ, hs⟩ := h
  refine ⟨J, ?_, hs⟩
  unfold findNamespace at hJ ⊢
  rw [he]
  exact hJ

theorem sortStep_sortedNs {K : SymbolID → Option Str} {m1 m2 : InfoMap} (h : SortStep K m1 m2)
    {j : SymbolID} (hs : SortedNs K m1 j) : SortedNs K m2 j := by
  rcases h.2 j with he | h2
  · exact sortedNs_of_find_eq he hs
  · exact h2

theorem sortStep_trans {K : SymbolID → Option Str} {m1 m2 m3 : InfoMap}
    (h1 : SortStep K m1 m2) (h2 : SortStep K m2 m3) : SortStep K m1 m3 := by
  refine ⟨mapRel_trans h1.1 h2.1, ?_⟩
  intro j
  rcases h2.2 j with he | hs
  · rcases h1.2 j with he1 | hs1
    · exact Or.inl (he.trans he1)
    · exact Or.inr (sortedNs_of_find_eq he hs1)
  · exact Or.inr hs

theorem refCompare_asymm (fqn : Info → Str) (m : InfoMap) (a b : Reference)
    (h : refCompare fqn m a b = true) : refCompare fqn m b a = false := by
  unfold refCompare at h ⊢
  cases ha : fqnOf fqn m a.USR with
  | none => simp [ha] at h
  | some sa =>
    cases hb : fqnOf fqn m b.USR with
    | none => simp [ha, hb] at h
    | some sb =>
      simp only [ha, hb] at h ⊢
      exact symbolCompare_asymm _ _ h

theorem refCompare_trans (fqn : Info → Str) (m : InfoMap) (a b c : Reference)
    (h1 : refCompare fqn m a b = true) (h2 : refCompare fqn m b c = true) :
    refCompare fqn m a c = true := by
  unfold refCompare at h1 h2 ⊢
  cases ha : fqnOf fqn m a.USR with
  | none => simp [ha] at h1
  | some sa =>
    cases hb : fqnOf fqn m b.USR with
    | none => simp [ha, hb] at h1
    | some sb =>
      cases hc : fqnOf fqn m c.USR with
      | none => simp [hb, hc] at h2
      | some sc =>
        simp only [ha, hb, hc] at h1 h2 ⊢
        exact symbolCompare_trans _ _ _ h1 h2

/-- A successful sort of a reference list gives a permutation that is sorted by
name. -/
theorem sortReferences_spec (fqn : Info → Str) (m : InfoMap) (l l2 : List Reference)
    (h : sortReferences fqn m l = some l2) :
    l2.Perm l ∧ SortedByName (fqnOf fqn m) l2 := by
  unfold sortReferences at h
  split_ifs at h with hc
  simp only [Option.some.injEq] at h
  subst h
  have hperm := stdSort_perm (refCompare fqn m) l
  refine ⟨hperm, ?_⟩
  have hs := stdSort_sorted (refCompare fqn m) (refCompare_asymm fqn m)
    (refCompare_trans fqn m) l
  rcases hc with hc | hc
  · have hlen : (stdSort (refCompare fqn m) l).length < 2 := by
      rw [hperm.length_eq]
      exact hc
    unfold SortedByName
    generalize stdSort (refCompare fqn m) l = t at hlen
    match t, hlen with
    | [], _ => exact List.Pairwise.nil
    | [x], _ => exact List.pairwise_singleton _ _
    | _ :: _ :: _, h2 =>
      simp only [List.length_cons] at h2
      omega
  · unfold SortedByName
    refine List.Pairwise.imp_of_mem ?_ hs
    intro a b ha hb hab
    have hra := List.all_eq_true.1 hc a (hperm.subset ha)
    have hrb := List.all_eq_true.1 hc b (hperm.subset hb)
    obtain ⟨ia, hia⟩ := Option.isSome_iff_exists.1 hra
    obtain ⟨ib, hib⟩ := Option.isSome_iff_exists.1 hrb
    refine ⟨fqn ia.base, fqn ib.base, by simp [fqnOf, hia], by simp [fqnOf, hib], ?_⟩
    simpa [refCompare, fqnOf, hia, hib] using hab

/-- The loop over the child namespaces, given the result for the recursive
call. -/
theorem forNamespaces_spec (fqn : Info → Str)
    (f : InfoMap → SymbolID → Option (Bool × InfoMap))
    (hf : ∀ m id b m2, f m id = some (b, m2) →
      b = true ∧ SortStep (fqnOf fqn m) m m2 ∧
        ∀ j, Reach m id j → SortedNs (fqnOf fqn m) m2 j) :
    ∀ (l : List Reference) (m : InfoMap) (b : Bool) (m2 : InfoMap),
      forNamespaces f m l = some (b, m2) →
      b = true ∧ SortStep (fqnOf fqn m) m m2 ∧
        ∀ r ∈ l, ∀ j, Reach m r.USR j → SortedNs (fqnOf fqn m) m2 j
  | [], m, b, m2, h => by
    simp only [forNamespaces, Option.some.injEq, Prod.mk.injEq] at h
    obtain ⟨hb, hm⟩ := h
    subst hb
    subst hm
    exact ⟨rfl, sortStep_refl _ _, by simp⟩
  | r :: rest, m, b, m2, h => by
    simp only [forNamespaces] at h
    cases hfr : f m r.USR with
    | none => simp [hfr] at h
    | some p =>
      obtain ⟨b1, m1⟩ := p
      obtain ⟨hb1, hstep1, hreach1⟩ := hf m r.USR b1 m1 hfr
      subst hb1
      simp only [hfr] at h
      obtain ⟨hb, hstep2, hreach2⟩ := forNamespaces_spec fqn f hf rest m1 b m2 h
      have hK : fqnOf fqn m1 = fqnOf fqn m := mapRel_fqnOf_eq fqn hstep1.1
      rw [hK] at hstep2 hreach2
      refine ⟨hb, sortStep_trans hstep1 hstep2, ?_⟩
      intro r2 hr2 j hj
      rcases List.mem_cons.1 hr2 with he | hmem
      · subst he
        exact sortStep_sortedNs hstep2 (hreach1 j hj)
      · exact hreach2 r2 hmem j (reach_of_mapRel hstep1.1 hj)

theorem findNamespace_eq_some {m : InfoMap} {id : SymbolID} {I : NamespaceInfo}
    (h : findNamespace m id = some I) : infoMapFind m id = some (.ofNamespace I) := by
  unfold findNamespace at h
  cases hf : infoMapFind m id with
  | none => simp [hf] at h
  | some a =>
    rw [hf] at h
    cases a <;> simp at h
    rw [h]

theorem forRecords_eq_true (m : InfoMap) : ∀ (l : List Reference) (b : Bool),
    forRecords m l = some b → b = true
  | [], b, h => by
    simp only [forRecords, Option.some.injEq] at h
    exact h.symm
  | r :: rest, b, h => by
    simp only [forRecords, canonicalizeRecord, if_true] at h
    cases hg : getRecord m r.USR with
    | none => simp [hg] at h
    | some I =>
      simp only [hg] at h
      exact forRecords_eq_true m rest b h

theorem forFunctions_eq_true (m : InfoMap) : ∀ (l : List Reference) (b : Bool),
    forFunctions m l = some b → b = true
  | [], b, h => by
    simp only [forFunctions, Option.some.injEq] at h
    exact h.symm
  | r :: rest, b, h => by
    simp only [forFunctions, canonicalizeFunction, if_true] at h
    cases hg : getFunction m r.USR with
    | none => simp [hg] at h
    | some I =>
      simp only [hg] at h
      exact forFunctions_eq_true m rest b h

/-- Writing the sorted lists back into the namespace stored under `id`. -/
theorem sortStep_set (fqn : Info → Str) (m : InfoMap) (id : SymbolID) (I : NamespaceInfo)
    (ns rs fs : List Reference) (hI : findNamespace m id = some I)
    (hns : sortReferences fqn m I.Children.Namespaces = some ns)
    (hrs : sortReferences fqn m I.Children.Records = some rs)
    (hfs : sortReferences fqn m I.Children.Functions = some fs) :
    SortStep (fqnOf fqn m) m
      (infoMapSet m id (.ofNamespace (setChildLists I ns rs fs))) ∧
    SortedNs (fqnOf fqn m)
      (infoMapSet m id (.ofNamespace (setChildLists I ns rs fs))) id := by
  have hfind := findNamespace_eq_some hI
  obtain ⟨pns, sns⟩ := sortReferences_spec fqn m _ _ hns
  obtain ⟨prs, srs⟩ := sortReferences_spec fqn m _ _ hrs
  obtain ⟨pfs, sfs⟩ := sortReferences_spec fqn m _ _ hfs
  have hsorted : SortedNs (fqnOf fqn m)
      (infoMapSet m id (.ofNamespace (setChildLists I ns rs fs))) id := by
    refine ⟨setChildLists I ns rs fs, ?_, sns, srs, sfs⟩
    unfold findNamespace
    rw [infoMapFind_set]
    simp [hfind]
  refine ⟨⟨?_, ?_⟩, hsorted⟩
  · intro j
    rw [infoMapFind_set]
    by_cases hj : j = id
    · subst hj
      refine Or.inr ⟨.ofNamespace I, .ofNamespace (setChildLists I ns rs fs), hfind,
        by simp [hfind], Or.inr ⟨I, setChildLists I ns rs fs, rfl, rfl, ?_⟩⟩
      exact ⟨rfl, pns, prs, pfs, rfl, rfl⟩
    · simp only [hj, if_false]
      exact mapRel_refl m j
  · intro j
    by_cases hj : j = id
    · subst hj
      exact Or.inr hsorted
    · left
      rw [infoMapFind_set]
      simp [hj]

/-- What a returning call of `canonicalize(NamespaceInfo&)` has done: it returned
true, it only rearranged reference lists of namespaces, and every namespace
reached from `id` has its three lists sorted by name. -/
theorem canonicalizeNamespace_spec (fqn : Info → Str) :
    ∀ (fuel : Nat) (m : InfoMap) (id : SymbolID) (b : Bool) (m2 : InfoMap),
      canonicalizeNamespace fqn fuel m id = some (b, m2) →
      b = true ∧ SortStep (fqnOf fqn m) m m2 ∧
        ∀ j, Reach m id j → SortedNs (fqnOf fqn m) m2 j
  | 0, m, id, b, m2, h => by simp [canonicalizeNamespace] at h
  | fuel + 1, m, id, b, m2, h => by
    rw [canonicalizeNamespace] at h
    cases hI : findNamespace m id with
    | none => simp [hI] at h
    | some I =>
      cases hns : sortReferences fqn m I.Children.Namespaces with
      | none => simp [hI, hns] at h
      | some ns =>
        cases hrs : sortReferences fqn m I.Children.Records with
        | none => simp [hI, hns, hrs] at h
        | some rs =>
          cases hfs : sortReferences fqn m I.Children.Functions with
          | none => simp [hI, hns, hrs, hfs] at h
          | some fs =>
            simp only [hI, hns, hrs, hfs] at h
            obtain ⟨hstep1, hsorted1⟩ := sortStep_set fqn m id I ns rs fs hI hns hrs hfs
            generalize infoMapSet m id (.ofNamespace (setChildLists I ns rs fs)) = m1
              at h hstep1 hsorted1
            have hK : fqnOf fqn m1 = fqnOf fqn m := mapRel_fqnOf_eq fqn hstep1.1
            cases hloop : forNamespaces (canonicalizeNamespace fqn fuel) m1 ns with
            | none => simp [hloop] at h
            | some p =>
              obtain ⟨b1, mA⟩ := p
              obtain ⟨hb1, hstepL, hreachL⟩ := forNamespaces_spec fqn _
                (canonicalizeNamespace_spec fqn fuel) ns m1 b1 mA hloop
              subst hb1
              rw [hK] at hstepL hreachL
              simp only [hloop] at h
              have hres : b = true ∧ m2 = mA := by
                cases hr : forRecords mA rs with
                | none => simp [hr] at h
                | some br =>
                  have := forRecords_eq_true mA rs br hr
                  subst this
                  simp only [hr] at h
                  cases hfn : forFunctions mA fs with
                  | none => simp [hfn] at h
                  | some bf =>
                    have := forFunctions_eq_true mA fs bf hfn
                    subst this
                    simp only [hfn] at h
                    have he : (I.Children.Enums.all canonicalizeEnum) = true :=
                      List.all_eq_true.2 (fun _ _ => rfl)
                    have ht : (I.Children.Typedefs.all canonicalizeTypedef) = true :=
                      List.all_eq_true.2 (fun _ _ => rfl)
                    simp only [he, ht, if_true, Option.some.injEq, Prod.mk.injEq] at h
                    exact ⟨h.1.symm, h.2.symm⟩
              obtain ⟨hb, hm⟩ := hres
              subst hm
              refine ⟨hb, sortStep_trans hstep1 hstepL, ?_⟩
              intro j hj
              cases hj with
              | refl => exact sortStep_sortedNs hstepL hsorted1
              | step _ _ I2 r hI2 hmem hreach =>
                rw [hI] at hI2
                cases hI2
                have hperm := (sortReferences_spec fqn m _ _ hns).1
                exact hreachL r (hperm.symm.subset hmem) j (reach_of_mapRel hstep1.1 hreach)

theorem canonicalize_isCanonical (fqn : Info → Str) (fuel : Nat) (C C2 : Corpus)
    (h : canonicalize fqn fuel C = some (true, C2)) : C2.isCanonical_ = true := by
  unfold canonicalize at h
  by_cases hc : C.isCanonical_ = true
  · simp only [hc, if_true, Option.some.injEq, Prod.mk.injEq, true_and] at h
    rw [← h]
    exact hc
  · simp only [hc, Bool.false_eq_true, if_false] at h
    cases hg : findNamespace C.InfoMap EmptySID with
    | none => simp [hg] at h
    | some p =>
      simp only [hg] at h
      cases hn : canonicalizeNamespace fqn fuel C.InfoMap EmptySID with
      | none => simp [hn] at h
      | some q =>
        obtain ⟨b, m⟩ := q
        cases b with
        | false => simp [hn] at h
        | true =>
          simp only [hn, Option.some.injEq, Prod.mk.injEq, true_and] at h
          rw [← h]

/-- A successful call on a Corpus that is not canonical ran the recursive walk
from the global namespace, and the result carries its map. -/
theorem canonicalize_walk (fqn : Info → Str) (fuel : Nat) (C C2 : Corpus)
    (hC : C.isCanonical_ = false) (h : canonicalize fqn fuel C = some (true, C2)) :
    canonicalizeNamespace fqn fuel C.InfoMap EmptySID = some (true, C2.InfoMap) := by
  unfold canonicalize at h
  simp only [hC, Bool.false_eq_true, if_false] at h
  cases hg : findNamespace C.InfoMap EmptySID with
  | none => simp [hg] at h
  | some p =>
    simp only [hg] at h
    cases hn : canonicalizeNamespace fqn fuel C.InfoMap EmptySID with
    | none => simp [hn] at h
    | some q =>
      obtain ⟨b, m⟩ := q
      cases b with
      | false => simp [hn] at h
      | true =>
        simp only [hn, Option.some.injEq, Prod.mk.injEq, true_and] at h
        rw [← h]

/-- A successful call only rearranges reference lists of namespaces. -/
theorem canonicalize_mapRel (fqn : Info → Str) (fuel : Nat) (C C2 : Corpus)
    (h : canonicalize fqn fuel C = some (true, C2)) : MapRel C.InfoMap C2.InfoMap := by
  by_cases hc : C.isCanonical_ = true
  · unfold canonicalize at h
    simp only [hc, if_true, Option.some.injEq, Prod.mk.injEq, true_and] at h
    rw [← h]
    exact mapRel_refl _
  · have hC : C.isCanonical_ = false := by simpa using hc
    exact (canonicalizeNamespace_spec fqn fuel _ _ _ _ (canonicalize_walk fqn fuel C C2 hC h)).2.1.1

/-! ## Claims about the canonicalizer -/

/-- C6: `Corpus::canonicalize` is idempotent: on a canonical Corpus it returns
success and changes nothing, whatever the recursion budget, and the Corpus a
successful call produces is canonical, so a second call returns it unchanged. -/
theorem canonicalize_idempotent (fqn : Info → Str) (C : Corpus) :
    (C.isCanonical_ = true → ∀ fuel, canonicalize fqn fuel C = some (true, C)) ∧
    (∀ fuel C2, canonicalize fqn fuel C = some (true, C2) →
      ∀ fuel2, canonicalize fqn fuel2 C2 = some (true, C2)) := by
  have key : ∀ D : Corpus, D.isCanonical_ = true →
      ∀ fuel, canonicalize fqn fuel D = some (true, D) := by
    intro D hD fuel
    unfold canonicalize
    simp [hD]
  refine ⟨key C, ?_⟩
  intro fuel C2 h fuel2
  exact key C2 (canonicalize_isCanonical fqn fuel C C2 h) fuel2

theorem canonicalize_idempotent_witness :
    canonicalize dottedName 0 (sampleCanonical [typedefY, typedefX]) =
      some (true, sampleCanonical [typedefY, typedefX]) ∧
    canonicalize dottedName 5 (sampleCanonical [typedefY, typedefX]) =
      some (true, sampleCanonical [typedefY, typedefX]) :=
  ⟨(canonicalize_idempotent dottedName (sampleCanonical [typedefY, typedefX])).1 rfl 0,
    (canonicalize_idempotent dottedName (sampleCorpus [typedefY, typedefX])).2 2
      (sampleCanonical [typedefY, typedefX]) rfl 5⟩

/-- C7: on a Corpus that is not canonical and whose map holds no namespace under
the id of the global namespace, `Corpus::canonicalize` returns failure and the
Corpus after the call is the Corpus before it: map, index, discovery list and
the flag, still false, are unchanged. -/
theorem canonicalize_without_global_namespace (fqn : Info → Str) (fuel : Nat) (C : Corpus)
    (hC : C.isCanonical_ = false) (hg : findNamespace C.InfoMap EmptySID = none) :
    canonicalize fqn fuel C = some (false, C) ∧ C.isCanonical_ = false := by
  refine ⟨?_, hC⟩
  unfold canonicalize
  simp [hC, hg]

theorem canonicalize_without_global_namespace_witness :
    canonicalize dottedName 3 noGlobalCorpus = some (false, noGlobalCorpus) ∧
      noGlobalCorpus.isCanonical_ = false :=
  canonicalize_without_global_namespace dottedName 3 noGlobalCorpus rfl rfl

/-- C8: after `Corpus::canonicalize` succeeds on a Corpus that is not canonical,
every namespace reached from the global namespace through child-namespace
references has its `Namespaces`, `Records` and `Functions` lists each a
permutation of the list before the call and sorted by `symbolCompare` on the
fully qualified names of the referenced symbols: every pair of an earlier and a
later element resolves in the map, and the later one does not compare less. -/
theorem canonicalize_sorts_reachable_namespaces (fqn : Info → Str) (fuel : Nat)
    (C C2 : Corpus) (hC : C.isCanonical_ = false)
    (h : canonicalize fqn fuel C = some (true, C2))
    (id : SymbolID) (hr : Reach C.InfoMap EmptySID id) :
    ∃ I J, findNamespace C.InfoMap id = some I ∧ findNamespace C2.InfoMap id = some J ∧
      J.Children.Namespaces.Perm I.Children.Namespaces ∧
      J.Children.Records.Perm I.Children.Records ∧
      J.Children.Functions.Perm I.Children.Functions ∧
      SortedByName (fqnOf fqn C2.InfoMap) J.Children.Namespaces ∧
      SortedByName (fqnOf fqn C2.InfoMap) J.Children.Records ∧
      SortedByName (fqnOf fqn C2.InfoMap) J.Children.Functions := by
  have hw := canonicalize_walk fqn fuel C C2 hC h
  obtain ⟨_, hstep, hreach⟩ := canonicalizeNamespace_spec fqn fuel _ _ _ _ hw
  obtain ⟨J, hJ, s1, s2, s3⟩ := hreach id hr
  obtain ⟨I, hI, hrel⟩ := mapRel_findNamespace_bwd hstep.1 hJ
  rw [mapRel_fqnOf_eq fqn hstep.1]
  exact ⟨I, J, hI, hJ, hrel.2.1, hrel.2.2.1, hrel.2.2.2.1, s1, s2, s3⟩

theorem canonicalize_sorts_reachable_namespaces_witness :
    ∃ I J, findNamespace (sampleCorpus [typedefY, typedefX]).InfoMap 0 = some I ∧
      findNamespace (sampleCanonical [typedefY, typedefX]).InfoMap 0 = some J ∧
      J.Children.Namespaces.Perm I.Children.Namespaces ∧
      J.Children.Records.Perm I.Children.Records ∧
      J.Children.Functions.Perm I.Children.Functions ∧
      SortedByName (fqnOf dottedName (sampleCanonical [typedefY, typedefX]).InfoMap)
        J.Children.Namespaces ∧
      SortedByName (fqnOf dottedName (sampleCanonical [typedefY, typedefX]).InfoMap)
        J.Children.Records ∧
      SortedByName (fqnOf dottedName (sampleCanonical [typedefY, typedefX]).InfoMap)
        J.Children.Functions :=
  canonicalize_sorts_reachable_namespaces dottedName 2 (sampleCorpus [typedefY, typedefX])
    (sampleCanonical [typedefY, typedefX]) rfl rfl 0 (Reach.refl 0)

/-- C9, as the claim states it, fails: `canonicalize` succeeds on the sample
Corpus, whose record `R` is a child of the global namespace and lists its
functions as `n`, `m` and its typedefs as `V`, `U`; afterwards `R` still lists
them so, although `R.m` compares less than `R.n` and `R.U` less than `R.V`. -/
theorem canonicalize_record_lists_counterexample :
    canonicalize dottedName 2 (sampleCorpus [typedefY, typedefX]) =
      some (true, sampleCanonical [typedefY, typedefX]) ∧
    (getRecord (sampleCanonical [typedefY, typedefX]).InfoMap 3).map
        (fun R => R.Children.Functions) =
      some [refTo 5 "n" .IT_function, refTo 4 "m" .IT_function] ∧
    fqnOf dottedName (sampleCanonical [typedefY, typedefX]).InfoMap 5 = some (bytes "R.n") ∧
    fqnOf dottedName (sampleCanonical [typedefY, typedefX]).InfoMap 4 = some (bytes "R.m") ∧
    symbolCompare (bytes "R.m") (bytes "R.n") = true ∧
    (getRecord (sampleCanonical [typedefY, typedefX]).InfoMap 3).map
        (fun R => R.Children.Typedefs) = some [typedefRV, typedefRU] ∧
    dottedName typedefRV.toInfo = bytes "R.V" ∧
    dottedName typedefRU.toInfo = bytes "R.U" ∧
    symbolCompare (bytes "R.U") (bytes "R.V") = true :=
  ⟨rfl, rfl, rfl, rfl, by decide, rfl, rfl, rfl, by decide⟩

/-- C9, amended: after a successful `canonicalize` every record of the map, in
particular every record referenced from a reached namespace, is still stored
under its id and the `Typedefs` list of its `Scope` is exactly the list before
the call, in the order it had, sorted or not.  Nothing is said about the order
of a record's `Records` and `Functions` lists. -/
theorem canonicalize_keeps_record_typedefs (fqn : Info → Str) (fuel : Nat) (C C2 : Corpus)
    (h : canonicalize fqn fuel C = some (true, C2))
    (id : SymbolID) (R : RecordInfo) (hR : getRecord C.InfoMap id = some R) :
    ∃ R2, getRecord C2.InfoMap id = some R2 ∧
      R2.Children.Typedefs = R.Children.Typedefs := by
  have hrel := canonicalize_mapRel fqn fuel C C2 h id
  unfold getRecord at hR ⊢
  rcases hrel with ⟨h1, _⟩ | ⟨a, b, ha, hb, hab⟩
  · rw [h1] at hR
    cases hR
  · rw [ha] at hR
    rw [hb]
    rcases hab with hab | ⟨I, J, hI, _, _⟩
    · subst hab
      cases a <;> simp at hR
      subst hR
      exact ⟨_, rfl, rfl⟩
    · subst hI
      simp at hR

theorem canonicalize_keeps_record_typedefs_witness :
    ∃ R2, getRecord (sampleCanonical [typedefY, typedefX]).InfoMap 3 = some R2 ∧
      R2.Children.Typedefs = [typedefRV, typedefRU] :=
  canonicalize_keeps_record_typedefs dottedName 2 (sampleCorpus [typedefY, typedefX])
    (sampleCanonical [typedefY, typedefX]) rfl 3 _ rfl

/-- C10, as the claim states it, fails: two Corpora that differ only in the
order of the typedefs of the global namespace, `Y, X` against `X, Y`, are both
canonicalized with success, and the two typedef lists afterwards are still
`Y, X` and `X, Y`; the first is not in the order of `symbolCompare`. -/
theorem canonicalize_typedefs_counterexample :
    canonicalize dottedName 2 (sampleCorpus [typedefY, typedefX]) =
      some (true, sampleCanonical [typedefY, typedefX]) ∧
    canonicalize dottedName 2 (sampleCorpus [typedefX, typedefY]) =
      some (true, sampleCanonical [typedefX, typedefY]) ∧
    (findNamespace (sampleCanonical [typedefY, typedefX]).InfoMap EmptySID).map
        (fun I => I.Children.Typedefs) = some [typedefY, typedefX] ∧
    (findNamespace (sampleCanonical [typedefX, typedefY]).InfoMap EmptySID).map
        (fun I => I.Children.Typedefs) = some [typedefX, typedefY] ∧
    [typedefY, typedefX] ≠ [typedefX, typedefY] ∧
    symbolCompare (dottedName typedefX.toInfo) (dottedName typedefY.toInfo) = true :=
  ⟨rfl, rfl, rfl, rfl, by decide, by decide⟩

/-- C10, amended: canonicalization does not reorder the by-value children: after
a successful `canonicalize` every namespace of the map has its `Typedefs` list
(and its `Enums` list) exactly as before the call, so two Corpora that differ in
the order of a `Typedefs` list still differ in it afterwards. -/
theorem canonicalize_keeps_typedefs (fqn : Info → Str) (fuel : Nat) (C C2 : Corpus)
    (h : canonicalize fqn fuel C = some (true, C2))
    (id : SymbolID) (I : NamespaceInfo) (hI : findNamespace C.InfoMap id = some I) :
    ∃ J, findNamespace C2.InfoMap id = some J ∧
      J.Children.Typedefs = I.Children.Typedefs ∧ J.Children.Enums = I.Children.Enums := by
  obtain ⟨J, hJ, hrel⟩ := mapRel_findNamespace_fwd (canonicalize_mapRel fqn fuel C C2 h) hI
  exact ⟨J, hJ, hrel.2.2.2.2.2, hrel.2.2.2.2.1⟩

theorem canonicalize_keeps_typedefs_witness :
    ∃ J, findNamespace (sampleCanonical [typedefY, typedefX]).InfoMap EmptySID = some J ∧
      J.Children.Typedefs = [typedefY, typedefX] ∧ J.Children.Enums = [] :=
  canonicalize_keeps_typedefs dottedName 2 (sampleCorpus [typedefY, typedefX])
    (sampleCanonical [typedefY, typedefX]) rfl EmptySID _ rfl

/-! ## The index -/

theorem findChild_usr (id : SymbolID) : ∀ (cs : List Index) (c : Index),
    findChild id cs = some c → c.ref.USR = id
  | [], _, h => by simp [findChild] at h
  | d :: ds, c, h => by
    simp only [findChild] at h
    by_cases hd : d.ref.USR = id
    · simp only [hd, if_true, Option.some.injEq] at h
      rw [← h]
      exact hd
    · simp only [hd, if_false] at h
      exact findChild_usr id ds c h

theorem findChild_updateOrAppend (id : SymbolID) (f : Index → Index) (g : Index)
    (hf : ∀ c, (f c).ref.USR = c.ref.USR) (hg : g.ref.USR = id) :
    ∀ cs : List Index, findChild id (updateOrAppend id f g cs) =
      some (match findChild id cs with
        | some c => f c
        | none => g)
  | [] => by simp [updateOrAppend, findChild, hg]
  | d :: ds => by
    simp only [updateOrAppend, findChild]
    by_cases hd : d.ref.USR = id
    · simp [hd, findChild, hf]
    · simp only [hd, if_false, findChild]
      exact findChild_updateOrAppend id f g hf hg ds

theorem length_updateOrAppend (id : SymbolID) (f : Index → Index) (g : Index) :
    ∀ cs : List Index, (updateOrAppend id f g cs).length =
      match findChild id cs with
      | some _ => cs.length
      | none => cs.length + 1
  | [] => by simp [updateOrAppend, findChild]
  | d :: ds => by
    simp only [updateOrAppend, findChild]
    by_cases hd : d.ref.USR = id
    · simp [hd]
    · simp only [hd, if_false, List.length_cons]
      rw [length_updateOrAppend id f g ds]
      cases findChild id ds <;> simp

theorem sizeOfChildren_updateOrAppend (id : SymbolID) (f : Index → Index) (g : Index) :
    ∀ cs : List Index,
      match findChild id cs with
      | some c =>
        sizeOfChildren (updateOrAppend id f g cs) + c.size = sizeOfChildren cs + (f c).size
      | none => sizeOfChildren (updateOrAppend id f g cs) = sizeOfChildren cs + g.size
  | [] => by simp [updateOrAppend, findChild, sizeOfChildren]
  | d :: ds => by
    have ih := sizeOfChildren_updateOrAppend id f g ds
    simp only [updateOrAppend, findChild]
    by_cases hd : d.ref.USR = id
    · simp only [hd, if_true, sizeOfChildren]
      omega
    · simp only [hd, if_false, sizeOfChildren]
      cases hfc : findChild id ds with
      | none =>
        rw [hfc] at ih
        simp only at ih ⊢
        omega
      | some c =>
        rw [hfc] at ih
        simp only at ih ⊢
        omega

theorem backfill_ref_usr (extractName : AnyInfo → Str) (I : AnyInfo) (c : Index) :
    (backfill extractName I c).ref.USR = c.ref.USR := by
  cases c
  rfl

theorem backfill_size (extractName : AnyInfo → Str) (I : AnyInfo) (c : Index) :
    (backfill extractName I c).size = c.size := by
  cases c
  simp [backfill, Index.size]

theorem indexLeaf_ref (extractName : AnyInfo → Str) (I : AnyInfo) (n : Index) :
    (indexLeaf extractName I n).ref = n.ref := by
  cases n
  rfl

theorem indexWalk_ref (leafStep : Index → Index) (hl : ∀ n, (leafStep n).ref = n.ref) :
    ∀ (path : List Reference) (n : Index), (indexWalk leafStep path n).ref = n.ref
  | [], n => by simp [indexWalk, hl]
  | _ :: _, .mk _ _ => rfl

theorem lookupPath_append : ∀ (a b : List SymbolID) (n : Index),
    lookupPath (a ++ b) n = (lookupPath a n).bind (lookupPath b)
  | [], b, n => by simp [lookupPath]
  | id :: rest, b, .mk r cs => by
    simp only [List.cons_append, lookupPath]
    cases findChild id cs with
    | none => rfl
    | some c => exact lookupPath_append rest b c

theorem lookupPath_last_usr (ids : List SymbolID) (x : SymbolID) (n m : Index)
    (h : lookupPath (ids ++ [x]) n = some m) : m.ref.USR = x := by
  rw [lookupPath_append] at h
  cases hp : lookupPath ids n with
  | none => simp [hp] at h
  | some p =>
    obtain ⟨r, cs⟩ := p
    simp only [hp, Option.some_bind, lookupPath] at h
    cases hc : findChild x cs with
    | none => simp [hc] at h
    | some c =>
      simp only [hc, Option.some.injEq] at h
      rw [← h]
      exact findChild_usr x cs c hc

theorem indexWalk_ref_usr (extractName : AnyInfo → Str) (I : AnyInfo)
    (path : List Reference) (n : Index) :
    (indexWalk (indexLeaf extractName I) path n).ref.USR = n.ref.USR := by
  rw [indexWalk_ref _ (indexLeaf_ref extractName I)]

theorem findChild_indexLeaf (extractName : AnyInfo → Str) (I : AnyInfo) (cs : List Index) :
    findChild I.base.USR (updateOrAppend I.base.USR (backfill extractName I)
      (.mk { USR := I.base.USR, Name := extractName I, RefType := I.IT, Path := I.base.Path } [])
      cs) =
      some (match findChild I.base.USR cs with
        | some c => backfill extractName I c
        | none => .mk { USR := I.base.USR, Name := extractName I, RefType := I.IT,
                        Path := I.base.Path } []) :=
  findChild_updateOrAppend I.base.USR (backfill extractName I)
    (.mk { USR := I.base.USR, Name := extractName I, RefType := I.IT, Path := I.base.Path } [])
    (backfill_ref_usr extractName I) rfl cs

theorem findChild_indexWalk (extractName : AnyInfo → Str) (I : AnyInfo) (R : Reference)
    (rest : List Reference) (cs : List Index) :
    findChild R.USR (updateOrAppend R.USR (indexWalk (indexLeaf extractName I) rest)
      (indexWalk (indexLeaf extractName I) rest (.mk R [])) cs) =
      some (match findChild R.USR cs with
        | some c => indexWalk (indexLeaf extractName I) rest c
        | none => indexWalk (indexLeaf extractName I) rest (.mk R [])) :=
  findChild_updateOrAppend R.USR (indexWalk (indexLeaf extractName I) rest)
    (indexWalk (indexLeaf extractName I) rest (.mk R []))
    (indexWalk_ref_usr extractName I rest)
    (indexWalk_ref_usr extractName I rest (.mk R [])) cs

/-- After the walk the node of the symbol is found along the ids of the walk. -/
theorem indexWalk_lookup (extractName : AnyInfo → Str) (I : AnyInfo) :
    ∀ (path : List Reference) (n : Index),
      ∃ m, lookupPath (path.map (fun R => R.USR) ++ [I.base.USR])
        (indexWalk (indexLeaf extractName I) path n) = some m
  | [], .mk r cs => by
    simp only [List.map_nil, List.nil_append, indexWalk, indexLeaf, lookupPath]
    rw [findChild_indexLeaf]
    exact ⟨_, rfl⟩
  | R :: rest, .mk r cs => by
    simp only [List.map_cons, List.cons_append, indexWalk, lookupPath, List.append_eq]
    rw [findChild_indexWalk]
    cases findChild R.USR cs with
    | none => exact indexWalk_lookup extractName I rest _
    | some c => exact indexWalk_lookup extractName I rest c

theorem foundDepth_no_children (id : SymbolID) (ids : List SymbolID) (r : Reference) :
    foundDepth (id :: ids) (.mk r []) = 0 := by
  simp [foundDepth, findChild]

/-- The walk creates one node for each id of the path that was not found, and
no other node. -/
theorem indexWalk_size (extractName : AnyInfo → Str) (I : AnyInfo) :
    ∀ (path : List Reference) (n : Index),
      (indexWalk (indexLeaf extractName I) path n).size +
          foundDepth (path.map (fun R => R.USR) ++ [I.base.USR]) n =
        n.size + path.length + 1
  | [], .mk r cs => by
    have hs := sizeOfChildren_updateOrAppend I.base.USR (backfill extractName I)
      (.mk { USR := I.base.USR, Name := extractName I, RefType := I.IT, Path := I.base.Path } [])
      cs
    simp only [List.map_nil, List.nil_append, indexWalk, indexLeaf, foundDepth, Index.size,
      List.length_nil]
    cases hfc : findChild I.base.USR cs with
    | none =>
      rw [hfc] at hs
      simp only [Index.size, sizeOfChildren] at hs ⊢
      omega
    | some c =>
      rw [hfc] at hs
      simp only [backfill_size] at hs ⊢
      omega
  | R :: rest, .mk r cs => by
    have hs := sizeOfChildren_updateOrAppend R.USR
      (indexWalk (indexLeaf extractName I) rest)
      (indexWalk (indexLeaf extractName I) rest (.mk R [])) cs
    simp only [List.map_cons, List.cons_append, indexWalk, foundDepth, Index.size,
      List.length_cons, List.append_eq]
    cases hfc : findChild R.USR cs with
    | none =>
      rw [hfc] at hs
      have ih := indexWalk_size extractName I rest (.mk R [])
      have hz : foundDepth (rest.map (fun R => R.USR) ++ [I.base.USR]) (.mk R []) = 0 := by
        cases rest with
        | nil => exact foundDepth_no_children _ _ _
        | cons a as => exact foundDepth_no_children _ _ _
      rw [hz] at ih
      simp only [Index.size, sizeOfChildren] at ih hs ⊢
      omega
    | some c =>
      rw [hfc] at hs
      have ih := indexWalk_size extractName I rest c
      simp only at hs ⊢
      omega

/-- When the node of the symbol is already in the index, the walk back-fills it
in place and the node above it keeps the number of its children. -/
theorem indexWalk_existing (extractName : AnyInfo → Str) (I : AnyInfo) :
    ∀ (path : List Reference) (n old : Index),
      lookupPath (path.map (fun R => R.USR) ++ [I.base.USR]) n = some old →
      lookupPath (path.map (fun R => R.USR) ++ [I.base.USR])
          (indexWalk (indexLeaf extractName I) path n) = some (backfill extractName I old) ∧
      ∃ p p2, lookupPath (path.map (fun R => R.USR)) n = some p ∧
        lookupPath (path.map (fun R => R.USR))
          (indexWalk (indexLeaf extractName I) path n) = some p2 ∧
        p2.Children.length = p.Children.length
  | [], .mk r cs, old, h => by
    simp only [List.map_nil, List.nil_append, lookupPath] at h
    cases hfc : findChild I.base.USR cs with
    | none => simp [hfc] at h
    | some c =>
      simp only [hfc, Option.some.injEq] at h
      subst h
      have hlen := length_updateOrAppend I.base.USR (backfill extractName I)
        (.mk { USR := I.base.USR, Name := extractName I, RefType := I.IT,
               Path := I.base.Path } []) cs
      rw [hfc] at hlen
      simp only [List.map_nil, List.nil_append, indexWalk, indexLeaf, lookupPath]
      rw [findChild_indexLeaf, hfc]
      exact ⟨rfl, _, _, rfl, rfl, hlen⟩
  | R :: rest, .mk r cs, old, h => by
    simp only [List.map_cons, List.cons_append, lookupPath, List.append_eq] at h
    cases hfc : findChild R.USR cs with
    | none => simp [hfc] at h
    | some c =>
      simp only [hfc] at h
      obtain ⟨h1, p, p2, hp, hp2, hlen⟩ := indexWalk_existing extractName I rest c old h
      simp only [List.map_cons, List.cons_append, indexWalk, lookupPath, List.append_eq]
      rw [findChild_indexWalk, hfc]
      exact ⟨h1, p, p2, hp, hp2, hlen⟩

theorem lookupPath_cons (id : SymbolID) (rest : List SymbolID) (n : Index) :
    lookupPath (id :: rest) n = (findChild id n.Children).bind (lookupPath rest) := by
  cases n with
  | mk r cs =>
    simp only [lookupPath, Index.Children]
    cases findChild id cs <;> rfl

theorem foundDepth_of_lookup : ∀ (ids : List SymbolID) (n m : Index),
    lookupPath ids n = some m → foundDepth ids n = ids.length
  | [], _, _, _ => rfl
  | id :: rest, .mk r cs, m, h => by
    simp only [lookupPath] at h
    simp only [foundDepth, List.length_cons]
    cases hfc : findChild id cs with
    | none => simp [hfc] at h
    | some c =>
      simp only [hfc] at h
      simp only [foundDepth_of_lookup rest c m h]
      omega

theorem insertIntoIndex_eq (extractName : AnyInfo → Str) (C : Corpus) (I : AnyInfo)
    (hC : C.isCanonical_ = false) :
    insertIntoIndex extractName C I =
      some { C with
        Idx := indexWalk (indexLeaf extractName I) I.base.Namespace.reverse C.Idx,
        allSymbols := C.allSymbols ++ [I.base.USR] } := by
  unfold insertIntoIndex
  simp [hC]

/-! ## Claims about the index and the insert path -/

/-- C13: per the documented example of `insertIntoIndex`, for an Info `X` whose
`Namespace` list is `[B, A]` the root has a child `A`, `A` a child `B` and `B`
a child `X`; in general the node of `X` is reached from the root by following
the ids of the `Namespace` list from the last to the first and then the id of
`X`, and exactly the nodes missing on this path were created: the tree grew by
one node for each id of the path that was not found before. -/
theorem insertIntoIndex_path (extractName : AnyInfo → Str) (C : Corpus) (I : AnyInfo)
    (hC : C.isCanonical_ = false) :
    ∃ C2, insertIntoIndex extractName C I = some C2 ∧
      (∃ n, lookupPath (walkIds I ++ [I.base.USR]) C2.Idx = some n ∧
        n.ref.USR = I.base.USR) ∧
      C2.Idx.size + foundDepth (walkIds I ++ [I.base.USR]) C.Idx =
        C.Idx.size + (walkIds I).length + 1 ∧
      (∀ B A, I.base.Namespace = [B, A] →
        ∃ a b x, findChild A.USR C2.Idx.Children = some a ∧
          findChild B.USR a.Children = some b ∧
          findChild I.base.USR b.Children = some x) := by
  refine ⟨_, insertIntoIndex_eq extractName C I hC, ?_, ?_, ?_⟩
  · obtain ⟨m, hm⟩ := indexWalk_lookup extractName I I.base.Namespace.reverse C.Idx
    exact ⟨m, hm, lookupPath_last_usr _ _ _ _ hm⟩
  · have := indexWalk_size extractName I I.base.Namespace.reverse C.Idx
    simpa [walkIds] using this
  · intro B A hBA
    obtain ⟨m, hm⟩ := indexWalk_lookup extractName I I.base.Namespace.reverse C.Idx
    rw [hBA] at hm
    simp only [List.reverse_cons, List.reverse_nil, List.nil_append, List.cons_append,
      List.map_cons, List.map_nil] at hm
    simp only [hBA, List.reverse_cons, List.reverse_nil, List.nil_append, List.cons_append]
    rw [lookupPath_cons] at hm
    cases ha : findChild A.USR
        (indexWalk (indexLeaf extractName I) [A, B] C.Idx).Children with
    | none => simp [ha] at hm
    | some a =>
      simp only [ha, Option.some_bind] at hm
      rw [lookupPath_cons] at hm
      cases hb : findChild B.USR a.Children with
      | none => simp [hb] at hm
      | some b =>
        simp only [hb, Option.some_bind] at hm
        rw [lookupPath_cons] at hm
        cases hx : findChild I.base.USR b.Children with
        | none => simp [hx] at hm
        | some x => exact ⟨a, b, x, rfl, hb, hx⟩

theorem insertIntoIndex_path_witness :
    ∃ C2, insertIntoIndex ownName emptyCorpus sampleX = some C2 ∧
      (∃ n, lookupPath (walkIds sampleX ++ [sampleX.base.USR]) C2.Idx = some n ∧
        n.ref.USR = sampleX.base.USR) ∧
      C2.Idx.size + foundDepth (walkIds sampleX ++ [sampleX.base.USR]) emptyCorpus.Idx =
        emptyCorpus.Idx.size + (walkIds sampleX).length + 1 ∧
      (∀ B A, sampleX.base.Namespace = [B, A] →
        ∃ a b x, findChild A.USR C2.Idx.Children = some a ∧
          findChild B.USR a.Children = some b ∧
          findChild sampleX.base.USR b.Children = some x) :=
  insertIntoIndex_path ownName emptyCorpus sampleX rfl

/-- C14, as the claim states it, fails: for the `Namespace` list `[B, A]`, read
as outermost `B` first and innermost `A` last, the insert into an empty index
makes `A` the child of the root, `B` the child of `A` and `X` the child of `B`:
the first element `B` is no child of the root, and `X` is no child of the last
element `A`. -/
theorem insertIntoIndex_order_counterexample :
    insertIntoIndex ownName emptyCorpus sampleX =
      some { emptyCorpus with
        Idx := .mk { USR := EmptySID, Name := [], RefType := .IT_default, Path := [] }
          [ .mk (refTo 10 "A" .IT_namespace)
            [ .mk (refTo 11 "B" .IT_namespace)
              [ .mk { USR := 12, Name := bytes "X", RefType := .IT_function,
                      Path := bytes "A/B" } [] ] ] ],
        allSymbols := [12] } ∧
    sampleX.base.Namespace = [refTo 11 "B" .IT_namespace, refTo 10 "A" .IT_namespace] ∧
    (insertIntoIndex ownName emptyCorpus sampleX).map
        (fun C => findChild 11 C.Idx.Children) = some none ∧
    (insertIntoIndex ownName emptyCorpus sampleX).map
        (fun C => lookupPath [11, 10, 12] C.Idx) = some none ∧
    (insertIntoIndex ownName emptyCorpus sampleX).map
        (fun C => (lookupPath [10, 11, 12] C.Idx).map (fun n => n.ref.USR)) =
      some (some 12) :=
  ⟨rfl, rfl, rfl, rfl, rfl⟩

/-- C14, amended: the namespace path is ordered with the direct parent first and
the upper-most namespace last, and the insert descends from the last element to
the first: after `insertIntoIndex` the node for the last element is a child of
the root, and the node of the symbol is a child of the node for the first
element, which is reached from the root along the ids of the path from the last
to the first. -/
theorem insertIntoIndex_descends_from_last (extractName : AnyInfo → Str) (C : Corpus)
    (I : AnyInfo) (hC : C.isCanonical_ = false) :
    ∃ C2, insertIntoIndex extractName C I = some C2 ∧
      (∀ init last, I.base.Namespace = init ++ [last] →
        ∃ c, findChild last.USR C2.Idx.Children = some c) ∧
      (∀ first rest, I.base.Namespace = first :: rest →
        ∃ p x, lookupPath (walkIds I) C2.Idx = some p ∧ p.ref.USR = first.USR ∧
          findChild I.base.USR p.Children = some x) := by
  refine ⟨_, insertIntoIndex_eq extractName C I hC, ?_, ?_⟩
  · intro init last hns
    obtain ⟨m, hm⟩ := indexWalk_lookup extractName I I.base.Namespace.reverse C.Idx
    simp only
    generalize indexWalk (indexLeaf extractName I) I.base.Namespace.reverse C.Idx = t at hm
    rw [hns] at hm
    simp only [List.reverse_append, List.reverse_cons, List.reverse_nil, List.nil_append,
      List.cons_append, List.map_cons] at hm
    rw [lookupPath_cons] at hm
    cases hc : findChild last.USR t.Children with
    | none => simp [hc] at hm
    | some c => exact ⟨c, rfl⟩
  · intro first rest hns
    obtain ⟨m, hm⟩ := indexWalk_lookup extractName I I.base.Namespace.reverse C.Idx
    simp only
    generalize indexWalk (indexLeaf extractName I) I.base.Namespace.reverse C.Idx = t at hm
    have hw : walkIds I = rest.reverse.map (fun R => R.USR) ++ [first.USR] := by
      simp [walkIds, hns]
    have hm2 : lookupPath (walkIds I ++ [I.base.USR]) t = some m := hm
    rw [lookupPath_append] at hm2
    cases hp : lookupPath (walkIds I) t with
    | none => simp [hp] at hm2
    | some p =>
      simp only [hp, Option.some_bind] at hm2
      rw [lookupPath_cons] at hm2
      refine ⟨p, ?_⟩
      cases hx : findChild I.base.USR p.Children with
      | none => simp [hx] at hm2
      | some x =>
        rw [hw] at hp
        exact ⟨x, rfl, lookupPath_last_usr _ _ _ _ hp, rfl⟩

theorem insertIntoIndex_descends_from_last_witness :
    ∃ C2, insertIntoIndex ownName emptyCorpus sampleX = some C2 ∧
      (∀ init last, sampleX.base.Namespace = init ++ [last] →
        ∃ c, findChild last.USR C2.Idx.Children = some c) ∧
      (∀ first rest, sampleX.base.Namespace = first :: rest →
        ∃ p x, lookupPath (walkIds sampleX) C2.Idx = some p ∧ p.ref.USR = first.USR ∧
          findChild sampleX.base.USR p.Children = some x) :=
  insertIntoIndex_descends_from_last ownName emptyCorpus sampleX rfl

/-- C15: back-fill never overwrites populated fields: when the index already
holds a node with the id of the symbol at the leaf position, after
`insertIntoIndex` that node has its old `Name` if it was not empty and the
extracted name of the symbol otherwise, its old `Path` if it was not empty and
the `Path` of the symbol otherwise, and no node was created: the node above it
has as many children as before and the tree has as many nodes as before. -/
theorem insertIntoIndex_backfill (extractName : AnyInfo → Str) (C : Corpus) (I : AnyInfo)
    (old : Index) (hC : C.isCanonical_ = false)
    (hold : lookupPath (walkIds I ++ [I.base.USR]) C.Idx = some old) :
    ∃ C2 new, insertIntoIndex extractName C I = some C2 ∧
      lookupPath (walkIds I ++ [I.base.USR]) C2.Idx = some new ∧
      new.ref.Name = (if old.ref.Name = [] then extractName I else old.ref.Name) ∧
      new.ref.Path = (if old.ref.Path = [] then I.base.Path else old.ref.Path) ∧
      (∃ p p2, lookupPath (walkIds I) C.Idx = some p ∧
        lookupPath (walkIds I) C2.Idx = some p2 ∧
        p2.Children.length = p.Children.length) ∧
      C2.Idx.size = C.Idx.size := by
  obtain ⟨h1, h2⟩ := indexWalk_existing extractName I I.base.Namespace.reverse C.Idx old hold
  refine ⟨_, backfill extractName I old, insertIntoIndex_eq extractName C I hC, h1, ?_, ?_,
    h2, ?_⟩
  · cases old
    rfl
  · cases old
    rfl
  · have hs := indexWalk_size extractName I I.base.Namespace.reverse C.Idx
    have hd := foundDepth_of_lookup _ _ _ hold
    simp only [walkIds] at hd
    rw [hd] at hs
    simp only [List.length_append, List.length_map, List.length_singleton] at hs
    simp only
    omega

theorem insertIntoIndex_backfill_witness :
    ∃ C2 new, insertIntoIndex ownName stubCorpus sampleParent = some C2 ∧
      lookupPath (walkIds sampleParent ++ [sampleParent.base.USR]) C2.Idx = some new ∧
      new.ref.Name =
        (if stubNode.ref.Name = [] then ownName sampleParent else stubNode.ref.Name) ∧
      new.ref.Path =
        (if stubNode.ref.Path = [] then sampleParent.base.Path else stubNode.ref.Path) ∧
      (∃ p p2, lookupPath (walkIds sampleParent) stubCorpus.Idx = some p ∧
        lookupPath (walkIds sampleParent) C2.Idx = some p2 ∧
        p2.Children.length = p.Children.length) ∧
      C2.Idx.size = stubCorpus.Idx.size :=
  insertIntoIndex_backfill ownName stubCorpus sampleParent stubNode rfl rfl

/-- C16, as the claim states it, fails: the function `f` is inserted first and its
parent, referred to without a kind, gets an index node of the default kind; the
insert of the parent namespace `N` then back-fills name and path of that node,
and its kind is still the default kind, not the kind of `N`. -/
theorem insertIntoIndex_kind_counterexample :
    (insert ownName emptyCorpus sampleChild).map
        (fun C => (findChild 20 C.Idx.Children).map (fun n => n.ref)) =
      some (some { USR := 20, Name := [], RefType := .IT_default, Path := [] }) ∧
    ((insert ownName emptyCorpus sampleChild).bind
        (fun C => insert ownName C sampleParent)).map
        (fun C => (findChild 20 C.Idx.Children).map (fun n => n.ref)) =
      some (some { USR := 20, Name := bytes "N", RefType := .IT_default, Path := bytes "p" }) ∧
    sampleParent.IT = .IT_namespace :=
  ⟨rfl, rfl, rfl⟩

/-- C16, amended: back-fill does not touch the kind: when the index already
holds a node with the id of the symbol at the leaf position, after
`insertIntoIndex` that node has the kind it had before, whatever it was, and the
same id. -/
theorem insertIntoIndex_keeps_kind (extractName : AnyInfo → Str) (C : Corpus) (I : AnyInfo)
    (old : Index) (hC : C.isCanonical_ = false)
    (hold : lookupPath (walkIds I ++ [I.base.USR]) C.Idx = some old) :
    ∃ C2 new, insertIntoIndex extractName C I = some C2 ∧
      lookupPath (walkIds I ++ [I.base.USR]) C2.Idx = some new ∧
      new.ref.RefType = old.ref.RefType ∧ new.ref.USR = old.ref.USR := by
  obtain ⟨h1, _⟩ := indexWalk_existing extractName I I.base.Namespace.reverse C.Idx old hold
  refine ⟨_, backfill extractName I old, insertIntoIndex_eq extractName C I hC, h1, ?_, ?_⟩
  · cases old
    rfl
  · cases old
    rfl

theorem insertIntoIndex_keeps_kind_witness :
    ∃ C2 new, insertIntoIndex ownName stubCorpus sampleParent = some C2 ∧
      lookupPath (walkIds sampleParent ++ [sampleParent.base.USR]) C2.Idx = some new ∧
      new.ref.RefType = stubNode.ref.RefType ∧ new.ref.USR = stubNode.ref.USR :=
  insertIntoIndex_keeps_kind ownName stubCorpus sampleParent stubNode rfl rfl

/-- C17: every call of `insertIntoIndex` on a Corpus that is not canonical
returns and appends exactly the id of the inserted symbol to the end of the
discovery list, whether the leaf was created or back-filled; map and flag are
as before. -/
theorem insertIntoIndex_appends_symbol (extractName : AnyInfo → Str) (C : Corpus)
    (I : AnyInfo) (hC : C.isCanonical_ = false) :
    ∃ C2, insertIntoIndex extractName C I = some C2 ∧
      C2.allSymbols = C.allSymbols ++ [I.base.USR] ∧
      C2.InfoMap = C.InfoMap ∧ C2.isCanonical_ = false :=
  ⟨_, insertIntoIndex_eq extractName C I hC, rfl, rfl, hC⟩

theorem insertIntoIndex_appends_symbol_witness :
    ∃ C2, insertIntoIndex ownName stubCorpus sampleParent = some C2 ∧
      C2.allSymbols = stubCorpus.allSymbols ++ [sampleParent.base.USR] ∧
      C2.InfoMap = stubCorpus.InfoMap ∧ C2.isCanonical_ = false :=
  insertIntoIndex_appends_symbol ownName stubCorpus sampleParent rfl

/-- C11, as the claim states it, fails: the same three objects inserted in two
orders give index roots whose children are in the order of the inserts, and a
successful `canonicalize` leaves both orders as they are. -/
theorem canonicalize_index_counterexample :
    ((insertAll ownName emptyCorpus [sampleGlobal, sampleF, sampleG]).bind
        (fun C => canonicalize dottedName 1 C)).map
        (fun r => (r.1, r.2.Idx.Children.map (fun n => n.ref.USR))) =
      some (true, [0, 1, 2]) ∧
    ((insertAll ownName emptyCorpus [sampleGlobal, sampleG, sampleF]).bind
        (fun C => canonicalize dottedName 1 C)).map
        (fun r => (r.1, r.2.Idx.Children.map (fun n => n.ref.USR))) =
      some (true, [0, 2, 1]) :=
  ⟨rfl, rfl⟩

/-- C11, amended: the canonicalizer does not touch the index: after a call of
`canonicalize` that returns, the index tree, with the order of the children of
each node, and the discovery list are exactly those before the call, so the
order of index children stays the order in which the inserts created them. -/
theorem canonicalize_keeps_index (fqn : Info → Str) (fuel : Nat) (C C2 : Corpus) (b : Bool)
    (h : canonicalize fqn fuel C = some (b, C2)) :
    C2.Idx = C.Idx ∧ C2.allSymbols = C.allSymbols := by
  unfold canonicalize at h
  by_cases hc : C.isCanonical_ = true
  · simp only [hc, if_true, Option.some.injEq, Prod.mk.injEq] at h
    rw [← h.2]
    exact ⟨rfl, rfl⟩
  · simp only [hc, Bool.false_eq_true, if_false] at h
    cases hg : findNamespace C.InfoMap EmptySID with
    | none =>
      simp only [hg, Option.some.injEq, Prod.mk.injEq] at h
      rw [← h.2]
      exact ⟨rfl, rfl⟩
    | some p =>
      simp only [hg] at h
      cases hn : canonicalizeNamespace fqn fuel C.InfoMap EmptySID with
      | none => simp [hn] at h
      | some q =>
        obtain ⟨b2, m⟩ := q
        cases b2 with
        | false =>
          simp only [hn, Option.some.injEq, Prod.mk.injEq] at h
          rw [← h.2]
          exact ⟨rfl, rfl⟩
        | true =>
          simp only [hn, Option.some.injEq, Prod.mk.injEq] at h
          rw [← h.2]
          exact ⟨rfl, rfl⟩

theorem canonicalize_keeps_index_witness :
    (sampleCanonical [typedefY, typedefX]).Idx = (sampleCorpus [typedefY, typedefX]).Idx ∧
      (sampleCanonical [typedefY, typedefX]).allSymbols =
        (sampleCorpus [typedefY, typedefX]).allSymbols :=
  canonicalize_keeps_index dottedName 2 (sampleCorpus [typedefY, typedefX])
    (sampleCanonical [typedefY, typedefX]) true rfl

theorem runOps_canonical (fqn : Info → Str) (extractName : AnyInfo → Str) (C : Corpus)
    (hC : C.isCanonical_ = true) :
    ∀ (ops : List CorpusOp) (D : Corpus), runOps fqn extractName C ops = some D → D = C
  | [], D, h => by
    simp only [runOps, Option.some.injEq] at h
    exact h.symm
  | op :: ops, D, h => by
    simp only [runOps] at h
    cases op with
    | canonicalize fuel =>
      have hk : canonicalize fqn fuel C = some (true, C) := by
        unfold canonicalize
        simp [hC]
      simp only [applyOp, hk, Option.map_some'] at h
      exact runOps_canonical fqn extractName C hC ops D h
    | insert I => simp [applyOp, insert, hC] at h
    | insertIntoIndex I => simp [applyOp, insertIntoIndex, hC] at h

/-- C18: once `canonicalize` has succeeded, `Corpus::insert` and
`Corpus::insertIntoIndex` on the resulting Corpus fail their assertion
`! isCanonical_`, and every sequence of calls of `canonicalize` and of the
inserts in which each call returns leaves the Corpus, with map, index and
discovery list, exactly as it was. -/
theorem canonical_corpus_is_frozen (fqn : Info → Str) (extractName : AnyInfo → Str)
    (fuel : Nat) (C0 C : Corpus) (h : canonicalize fqn fuel C0 = some (true, C)) :
    (∀ I, insert extractName C I = none ∧ insertIntoIndex extractName C I = none) ∧
    (∀ ops D, runOps fqn extractName C ops = some D → D = C) := by
  have hC := canonicalize_isCanonical fqn fuel C0 C h
  refine ⟨?_, runOps_canonical fqn extractName C hC⟩
  intro I
  constructor
  · simp [insert, hC]
  · simp [insertIntoIndex, hC]

theorem canonical_corpus_is_frozen_witness :
    (∀ I, insert ownName (sampleCanonical [typedefY, typedefX]) I = none ∧
        insertIntoIndex ownName (sampleCanonical [typedefY, typedefX]) I = none) ∧
    (∀ ops D, runOps dottedName ownName (sampleCanonical [typedefY, typedefX]) ops = some D →
        D = sampleCanonical [typedefY, typedefX]) :=
  canonical_corpus_is_frozen dottedName ownName 2 (sampleCorpus [typedefY, typedefX])
    (sampleCanonical [typedefY, typedefX]) rfl

/-! ## The build -/

theorem infoMapFind_insert (v : AnyInfo) (id j : SymbolID) : ∀ m : InfoMap,
    infoMapFind (infoMapInsert m id v) j = if j = id then some v else infoMapFind m j
  | [] => by
    simp only [infoMapInsert, infoMapFind]
    by_cases hj : j = id
    · simp [hj]
    · have hj2 : ¬ id = j := fun e => hj e.symm
      simp [hj, hj2]
  | (k, w) :: rest => by
    have ih := infoMapFind_insert v id j rest
    simp only [infoMapInsert]
    by_cases hk : k = id
    · subst hk
      simp only [if_true, infoMapFind]
      by_cases hj : j = k
      · simp [hj]
      · have hj2 : ¬ k = j := fun e => hj e.symm
        simp [hj, hj2]
    · simp only [hk, if_false, infoMapFind]
      by_cases hkj : k = j
      · subst hkj
        simp [hk]
      · simp only [hkj, if_false]
        exact ih

theorem keys_infoMapInsert (v : AnyInfo) (id : SymbolID) : ∀ m : InfoMap,
    id ∉ m.map Prod.fst →
      (infoMapInsert m id v).map Prod.fst = m.map Prod.fst ++ [id]
  | [], _ => rfl
  | (k, w) :: rest, h => by
    simp only [List.map_cons, List.mem_cons, not_or] at h
    have hk : ¬ k = id := fun e => h.1 e.symm
    simp only [infoMapInsert, hk, if_false, List.map_cons, List.cons_append]
    rw [keys_infoMapInsert v id rest h.2]

theorem infoMapFind_isSome_of_mem_keys : ∀ (m : InfoMap) (id : SymbolID),
    id ∈ m.map Prod.fst → (infoMapFind m id).isSome = true
  | [], _, h => by simp at h
  | (k, w) :: rest, id, h => by
    simp only [infoMapFind]
    by_cases hk : k = id
    · simp [hk]
    · simp only [hk, if_false]
      simp only [List.map_cons, List.mem_cons] at h
      rcases h with h | h
      · exact absurd h.symm hk
      · exact infoMapFind_isSome_of_mem_keys rest id h

theorem insert_eq (extractName : AnyInfo → Str) (C : Corpus) (I : AnyInfo)
    (hC : C.isCanonical_ = false) :
    insert extractName C I =
      some { InfoMap := infoMapInsert C.InfoMap I.base.USR I,
             Idx := indexWalk (indexLeaf extractName I) I.base.Namespace.reverse C.Idx,
             allSymbols := C.allSymbols ++ [I.base.USR],
             isCanonical_ := C.isCanonical_ } := by
  unfold insert insertIntoIndex
  simp [hC]

/-- What one reduce task that returns does to the shared state. -/
theorem reduceTask_spec (readBitcode : Bitcode → Option (List AnyInfo))
    (mergeInfos : List AnyInfo → Option AnyInfo) (extractName : AnyInfo → Str)
    (st st2 : BuildState) (g : Group) (hC : st.corpus.isCanonical_ = false)
    (h : reduceTask readBitcode mergeInfos extractName st g = some st2) :
    st2.corpus.isCanonical_ = false ∧
    st2.corpus.allSymbols = st.corpus.allSymbols ++
      (taskInfo readBitcode mergeInfos g).toList.map (fun I => I.base.USR) ∧
    (∀ j, (infoMapFind st.corpus.InfoMap j).isSome = true →
      (infoMapFind st2.corpus.InfoMap j).isSome = true) ∧
    (∀ I, taskInfo readBitcode mergeInfos g = some I →
      (infoMapFind st2.corpus.InfoMap I.base.USR).isSome = true) := by
  unfold reduceTask at h
  unfold taskInfo
  cases hr : readGroup readBitcode g.2 with
  | none =>
    simp only [hr, Option.some.injEq] at h
    subst h
    simp [hC]
  | some Infos =>
    simp only [hr, Option.some_bind] at h ⊢
    cases hm : mergeInfos Infos with
    | none =>
      simp only [hm, Option.some.injEq] at h
      subst h
      simp [hC]
    | some Ip =>
      simp only [hm] at h
      by_cases hk : g.1 = Ip.base.USR
      · simp only [hk, if_true, insert_eq extractName st.corpus Ip hC,
          Option.some.injEq] at h
        subst h
        refine ⟨hC, by simp, ?_, ?_⟩
        · intro j hj
          simp only
          rw [infoMapFind_insert]
          by_cases hji : j = Ip.base.USR
          · simp [hji]
          · simp only [hji, if_false]
            exact hj
        · intro I hI
          simp only [Option.some.injEq] at hI
          subst hI
          simp only
          rw [infoMapFind_insert]
          simp
      · simp [hk] at h

/-- What the reduce tasks, all returning, do to the shared state: the discovery
list grows by the ids of the objects inserted, in the order of the tasks, and
each id of the list is a key of the map. -/
theorem reduceAll_spec (readBitcode : Bitcode → Option (List AnyInfo))
    (mergeInfos : List AnyInfo → Option AnyInfo) (extractName : AnyInfo → Str) :
    ∀ (tasks : List Group) (st st2 : BuildState), st.corpus.isCanonical_ = false →
      (∀ id ∈ st.corpus.allSymbols, (infoMapFind st.corpus.InfoMap id).isSome = true) →
      reduceAll readBitcode mergeInfos extractName st tasks = some st2 →
      st2.corpus.isCanonical_ = false ∧
      st2.corpus.allSymbols = st.corpus.allSymbols ++
        (tasks.filterMap (taskInfo readBitcode mergeInfos)).map (fun I => I.base.USR) ∧
      (∀ id ∈ st2.corpus.allSymbols, (infoMapFind st2.corpus.InfoMap id).isSome = true)
  | [], st, st2, hC, hinv, h => by
    simp only [reduceAll, Option.some.injEq] at h
    subst h
    exact ⟨hC, by simp, hinv⟩
  | g :: rest, st, st2, hC, hinv, h => by
    simp only [reduceAll] at h
    cases ht : reduceTask readBitcode mergeInfos extractName st g with
    | none => simp [ht] at h
    | some st1 =>
      simp only [ht] at h
      obtain ⟨hC1, hsym, hmono, hnew⟩ :=
        reduceTask_spec readBitcode mergeInfos extractName st st1 g hC ht
      have hinv1 : ∀ id ∈ st1.corpus.allSymbols,
          (infoMapFind st1.corpus.InfoMap id).isSome = true := by
        intro id hid
        rw [hsym] at hid
        rcases List.mem_append.1 hid with hid | hid
        · exact hmono id (hinv id hid)
        · cases hti : taskInfo readBitcode mergeInfos g with
          | none => simp [hti] at hid
          | some I =>
            simp only [hti, Option.toList_some, List.map_cons, List.map_nil,
              List.mem_singleton] at hid
            rw [hid]
            exact hnew I hti
      obtain ⟨hC2, hsym2, hinv2⟩ :=
        reduceAll_spec readBitcode mergeInfos extractName rest st1 st2 hC1 hinv1 h
      refine ⟨hC2, ?_, hinv2⟩
      rw [hsym2, hsym, List.filterMap_cons]
      cases taskInfo readBitcode mergeInfos g <;> simp

theorem idCompare_asymm (fqn : Info → Str) (m : InfoMap) (a b : SymbolID)
    (h : idCompare fqn m a b = true) : idCompare fqn m b a = false := by
  unfold idCompare at h ⊢
  cases ha : fqnOf fqn m a with
  | none => simp [ha] at h
  | some sa =>
    cases hb : fqnOf fqn m b with
    | none => simp [ha, hb] at h
    | some sb =>
      simp only [ha, hb] at h ⊢
      exact symbolCompare_asymm _ _ h

theorem idCompare_trans (fqn : Info → Str) (m : InfoMap) (a b c : SymbolID)
    (h1 : idCompare fqn m a b = true) (h2 : idCompare fqn m b c = true) :
    idCompare fqn m a c = true := by
  unfold idCompare at h1 h2 ⊢
  cases ha : fqnOf fqn m a with
  | none => simp [ha] at h1
  | some sa =>
    cases hb : fqnOf fqn m b with
    | none => simp [ha, hb] at h1
    | some sb =>
      cases hc : fqnOf fqn m c with
      | none => simp [hb, hc] at h2
      | some sc =>
        simp only [ha, hb, hc] at h1 h2 ⊢
        exact symbolCompare_trans _ _ _ h1 h2

/-- A successful sort of the discovery list gives a permutation that is sorted
by name. -/
theorem sortSymbols_spec (fqn : Info → Str) (m : InfoMap) (l l2 : List SymbolID)
    (h : sortSymbols fqn m l = some l2) :
    l2.Perm l ∧ SortedIdsByName (fqnOf fqn m) l2 := by
  unfold sortSymbols at h
  split_ifs at h with hc
  simp only [Option.some.injEq] at h
  subst h
  have hperm := stdSort_perm (idCompare fqn m) l
  refine ⟨hperm, ?_⟩
  have hs := stdSort_sorted (idCompare fqn m) (idCompare_asymm fqn m)
    (idCompare_trans fqn m) l
  rcases hc with hc | hc
  · have hlen : (stdSort (idCompare fqn m) l).length < 2 := by
      rw [hperm.length_eq]
      exact hc
    unfold SortedIdsByName
    generalize stdSort (idCompare fqn m) l = t at hlen
    match t, hlen with
    | [], _ => exact List.Pairwise.nil
    | [x], _ => exact List.pairwise_singleton _ _
    | _ :: _ :: _, h2 =>
      simp only [List.length_cons] at h2
      omega
  · unfold SortedIdsByName
    refine List.Pairwise.imp_of_mem ?_ hs
    intro a b ha hb hab
    have hra := List.all_eq_true.1 hc a (hperm.subset ha)
    have hrb := List.all_eq_true.1 hc b (hperm.subset hb)
    obtain ⟨ia, hia⟩ := Option.isSome_iff_exists.1 hra
    obtain ⟨ib, hib⟩ := Option.isSome_iff_exists.1 hrb
    refine ⟨fqn ia.base, fqn ib.base, by simp [fqnOf, hia], by simp [fqnOf, hib], ?_⟩
    simpa [idCompare, fqnOf, hia, hib] using hab

/-- A build that returns a Corpus ran all reduce tasks without failure and sorted
the discovery list they left. -/
theorem build_corpus (readBitcode : Bitcode → Option (List AnyInfo))
    (mergeInfos : List AnyInfo → Option AnyInfo) (extractName : AnyInfo → Str)
    (fqn : Info → Str) (mappingFailed IgnoreMappingFailures : Bool)
    (tasks : List Group) (C : Corpus)
    (h : build readBitcode mergeInfos extractName fqn mappingFailed IgnoreMappingFailures
      tasks = .corpus C) :
    ∃ st, reduceAll readBitcode mergeInfos extractName
        { corpus := emptyCorpus, GotFailure := false } tasks = some st ∧
      st.GotFailure = false ∧ C.InfoMap = st.corpus.InfoMap ∧ C.Idx = st.corpus.Idx ∧
      sortSymbols fqn st.corpus.InfoMap st.corpus.allSymbols = some C.allSymbols := by
  unfold build at h
  split_ifs at h with h1
  cases hr : reduceAll readBitcode mergeInfos extractName
      { corpus := emptyCorpus, GotFailure := false } tasks with
  | none => simp [hr] at h
  | some st =>
    simp only [hr] at h
    split_ifs at h with h2
    cases hs : sortSymbols fqn st.corpus.InfoMap st.corpus.allSymbols with
    | none => simp [hs] at h
    | some l =>
      simp only [hs, BuildResult.corpus.injEq] at h
      subst h
      exact ⟨st, rfl, by simpa using h2, rfl, rfl, hs⟩

theorem keys_addResult (k : SymbolID) (v : Bitcode) : ∀ gs : List Group,
    (addResult gs (k, v)).map Prod.fst =
      if k ∈ gs.map Prod.fst then gs.map Prod.fst else gs.map Prod.fst ++ [k]
  | [] => by simp [addResult]
  | (k2, vs) :: rest => by
    have ih := keys_addResult k v rest
    simp only [addResult]
    by_cases hk : k2 = k
    · subst hk
      simp
    · have hk2 : ¬ k = k2 := fun e => hk e.symm
      simp only [hk, if_false, List.map_cons, List.mem_cons, hk2, false_or]
      rw [ih]
      split_ifs <;> simp

/-- The keys of `USRToBitcode` are the keys of the tool results, each once. -/
theorem keys_foldl_addResult : ∀ (results : List (SymbolID × Bitcode)) (acc : List Group),
    (acc.map Prod.fst).Nodup →
      ((results.foldl addResult acc).map Prod.fst).Nodup ∧
      ∀ k, k ∈ (results.foldl addResult acc).map Prod.fst ↔
        k ∈ acc.map Prod.fst ∨ k ∈ results.map Prod.fst
  | [], acc, h => by simp [h]
  | (k, v) :: rest, acc, h => by
    have hkeys := keys_addResult k v acc
    have hnd : ((addResult acc (k, v)).map Prod.fst).Nodup := by
      rw [hkeys]
      split_ifs with hmem
      · exact h
      · exact List.Nodup.append h (List.nodup_singleton k) (by simpa using hmem)
    obtain ⟨h1, h2⟩ := keys_foldl_addResult rest (addResult acc (k, v)) hnd
    refine ⟨h1, ?_⟩
    intro j
    simp only [List.foldl_cons]
    rw [h2 j, hkeys]
    simp only [List.map_cons, List.mem_cons]
    split_ifs with hmem
    · constructor
      · rintro (hj | hj)
        · exact Or.inl hj
        · exact Or.inr (Or.inr hj)
      · rintro (hj | hj | hj)
        · exact Or.inl hj
        · exact Or.inl (hj ▸ hmem)
        · exact Or.inr hj
    · simp only [List.mem_append, List.mem_singleton]
      tauto

/-- When every group reads and merges to an object with the key of the group as
its id, all reduce tasks return, no failure is flagged, and map and discovery
list get one entry for each group, in the order of the tasks. -/
theorem reduceAll_all_merge (readBitcode : Bitcode → Option (List AnyInfo))
    (mergeInfos : List AnyInfo → Option AnyInfo) (extractName : AnyInfo → Str) :
    ∀ (tasks : List Group) (st : BuildState), st.corpus.isCanonical_ = false →
      (∀ g ∈ tasks, ∃ I, taskInfo readBitcode mergeInfos g = some I ∧ I.base.USR = g.1) →
      (st.corpus.InfoMap.map Prod.fst ++ tasks.map Prod.fst).Nodup →
      ∃ st2, reduceAll readBitcode mergeInfos extractName st tasks = some st2 ∧
        st2.GotFailure = st.GotFailure ∧
        st2.corpus.InfoMap.map Prod.fst = st.corpus.InfoMap.map Prod.fst ++ tasks.map Prod.fst ∧
        st2.corpus.allSymbols = st.corpus.allSymbols ++ tasks.map Prod.fst
  | [], st, _, _, _ => ⟨st, rfl, rfl, by simp, by simp⟩
  | g :: rest, st, hC, hall, hnd => by
    obtain ⟨I, hI, hkey⟩ := hall g (List.mem_cons_self _ _)
    have hI2 := hI
    unfold taskInfo at hI2
    cases hr : readGroup readBitcode g.2 with
    | none => simp [hr] at hI2
    | some Infos =>
      simp only [hr, Option.some_bind] at hI2
      have hnotin : I.base.USR ∉ st.corpus.InfoMap.map Prod.fst := by
        rw [hkey]
        intro hmem
        have := (List.nodup_append.1 hnd).2.2
        exact this hmem (by simp)
      have htask : reduceTask readBitcode mergeInfos extractName st g =
          some { st with corpus :=
            { InfoMap := infoMapInsert st.corpus.InfoMap I.base.USR I,
              Idx := indexWalk (indexLeaf extractName I) I.base.Namespace.reverse
                st.corpus.Idx,
              allSymbols := st.corpus.allSymbols ++ [I.base.USR],
              isCanonical_ := st.corpus.isCanonical_ } } := by
        unfold reduceTask
        simp [hr, hI2, hkey, insert_eq extractName st.corpus I hC]
      have hnd2 : ((infoMapInsert st.corpus.InfoMap I.base.USR I).map Prod.fst ++
          rest.map Prod.fst).Nodup := by
        rw [keys_infoMapInsert I I.base.USR _ hnotin, hkey]
        simpa [List.append_assoc] using hnd
      obtain ⟨st2, h2, hg, hk, hs⟩ := reduceAll_all_merge readBitcode mergeInfos extractName
        rest
        { st with corpus :=
            { InfoMap := infoMapInsert st.corpus.InfoMap I.base.USR I,
              Idx := indexWalk (indexLeaf extractName I) I.base.Namespace.reverse
                st.corpus.Idx,
              allSymbols := st.corpus.allSymbols ++ [I.base.USR],
              isCanonical_ := st.corpus.isCanonical_ } }
        hC (fun g2 hg2 => hall g2 (List.mem_cons_of_mem _ hg2)) hnd2
      refine ⟨st2, ?_, hg, ?_, ?_⟩
      · simp only [reduceAll, htask]
        exact h2
      · rw [hk]
        simp only
        rw [keys_infoMapInsert I I.base.USR _ hnotin, hkey]
        simp
      · rw [hs]
        simp [hkey]

/-! ## Claims about the build -/

/-- C12: when `Corpus::build` returns a Corpus, its discovery list `allSymbols`
is sorted by `symbolCompare` on the fully qualified names of the listed symbols
and is a permutation of the ids the inserts appended, which are the ids of the
objects the groups read and merge to, whatever the order in which the reduce
tasks ran. -/
theorem build_sorts_allSymbols (readBitcode : Bitcode → Option (List AnyInfo))
    (mergeInfos : List AnyInfo → Option AnyInfo) (extractName : AnyInfo → Str)
    (fqn : Info → Str) (mappingFailed IgnoreMappingFailures : Bool)
    (results : List (SymbolID × Bitcode)) (tasks : List Group) (C : Corpus)
    (hp : tasks.Perm (collectSymbols results))
    (h : build readBitcode mergeInfos extractName fqn mappingFailed IgnoreMappingFailures
      tasks = .corpus C) :
    SortedIdsByName (fqnOf fqn C.InfoMap) C.allSymbols ∧
    C.allSymbols.Perm (((collectSymbols results).filterMap
      (taskInfo readBitcode mergeInfos)).map (fun I => I.base.USR)) := by
  obtain ⟨st, hr, _, hmap, _, hs⟩ := build_corpus _ _ _ _ _ _ _ _ h
  obtain ⟨hperm, hsorted⟩ := sortSymbols_spec fqn _ _ _ hs
  obtain ⟨_, hsym, _⟩ := reduceAll_spec readBitcode mergeInfos extractName tasks _ st rfl
    (by intro id hid; simp [emptyCorpus] at hid) hr
  rw [hmap]
  refine ⟨hsorted, hperm.trans ?_⟩
  rw [hsym]
  simp only [emptyCorpus, List.nil_append]
  exact (hp.filterMap _).map _

theorem build_sorts_allSymbols_witness :
    SortedIdsByName
      (fqnOf dottedName [(0, sampleGlobal), (2, sampleG), (1, sampleF)]) [0, 1, 2] ∧
    [0, 1, 2].Perm (((collectSymbols [(0, [0]), (2, [2]), (1, [1]), (2, [2])]).filterMap
      (taskInfo sampleRead sampleMerge)).map (fun I => I.base.USR)) :=
  build_sorts_allSymbols sampleRead sampleMerge ownName dottedName false false
    [(0, [0]), (2, [2]), (1, [1]), (2, [2])]
    [(0, [[0]]), (2, [[2], [2]]), (1, [[1]])]
    { InfoMap := [(0, sampleGlobal), (2, sampleG), (1, sampleF)],
      Idx := .mk { USR := EmptySID, Name := [], RefType := .IT_default, Path := [] }
        (.mk { USR := 0, Name := [], RefType := .IT_namespace, Path := [] } [] ::
         .mk { USR := 2, Name := bytes "g", RefType := .IT_function, Path := [] } [] ::
         .mk { USR := 1, Name := bytes "f", RefType := .IT_function, Path := [] } [] :: []),
      allSymbols := [0, 1, 2], isCanonical_ := false }
    (List.Perm.refl _) rfl

/-- C19: however many fragments carry the same identity, the built Corpus holds
exactly one entry for it: when the mapping did not stop the build and every
group reads and merges to an object whose id is the key of the group, `build`
returns a Corpus in which the keys of the map and the ids of the discovery list
are, each without repetition, exactly the keys of the tool results. -/
theorem build_one_entry_per_key (readBitcode : Bitcode → Option (List AnyInfo))
    (mergeInfos : List AnyInfo → Option AnyInfo) (extractName : AnyInfo → Str)
    (fqn : Info → Str) (mappingFailed IgnoreMappingFailures : Bool)
    (results : List (SymbolID × Bitcode)) (tasks : List Group)
    (hmap : mappingFailed = false ∨ IgnoreMappingFailures = true)
    (hp : tasks.Perm (collectSymbols results))
    (hall : ∀ g ∈ collectSymbols results,
      ∃ I, taskInfo readBitcode mergeInfos g = some I ∧ I.base.USR = g.1) :
    ∃ C, build readBitcode mergeInfos extractName fqn mappingFailed IgnoreMappingFailures
        tasks = .corpus C ∧
      (C.InfoMap.map Prod.fst).Nodup ∧
      (∀ k, k ∈ C.InfoMap.map Prod.fst ↔ k ∈ results.map Prod.fst) ∧
      C.allSymbols.Nodup ∧
      (∀ k, k ∈ C.allSymbols ↔ k ∈ results.map Prod.fst) := by
  obtain ⟨hnd0, hmem0⟩ := keys_foldl_addResult results [] List.nodup_nil
  have hpk : (tasks.map Prod.fst).Perm ((collectSymbols results).map Prod.fst) := hp.map _
  have hnd : (tasks.map Prod.fst).Nodup := hpk.nodup_iff.2 hnd0
  have hmem : ∀ k, k ∈ tasks.map Prod.fst ↔ k ∈ results.map Prod.fst := by
    intro k
    rw [hpk.mem_iff]
    have := hmem0 k
    simpa [collectSymbols] using this
  obtain ⟨st, hr, hg, hk, hs⟩ := reduceAll_all_merge readBitcode mergeInfos extractName tasks
    { corpus := emptyCorpus, GotFailure := false } rfl
    (fun g hg => hall g (hp.subset hg)) (by simpa [emptyCorpus] using hnd)
  simp only [emptyCorpus, List.map_nil, List.nil_append] at hk hs
  have hres : ∀ id ∈ st.corpus.allSymbols, (infoMapFind st.corpus.InfoMap id).isSome = true := by
    intro id hid
    apply infoMapFind_isSome_of_mem_keys
    rw [hk]
    rw [hs] at hid
    exact hid
  have hsort : sortSymbols fqn st.corpus.InfoMap st.corpus.allSymbols =
      some (stdSort (idCompare fqn st.corpus.InfoMap) st.corpus.allSymbols) := by
    unfold sortSymbols
    rw [if_pos]
    exact Or.inr (List.all_eq_true.2 hres)
  have hperm : (stdSort (idCompare fqn st.corpus.InfoMap) st.corpus.allSymbols).Perm
      (tasks.map Prod.fst) := by
    have := stdSort_perm (idCompare fqn st.corpus.InfoMap) st.corpus.allSymbols
    rw [hs] at this ⊢
    exact this
  have hcond : (mappingFailed && !IgnoreMappingFailures) = false := by
    rcases hmap with h | h <;> simp [h]
  refine ⟨{ st.corpus with
      allSymbols := stdSort (idCompare fqn st.corpus.InfoMap) st.corpus.allSymbols }, ?_, ?_,
    ?_, ?_, ?_⟩
  · unfold build
    simp [hcond, hr, hg, hsort]
  · simp only
    rw [hk]
    exact hnd
  · intro k
    simp only
    rw [hk]
    exact hmem k
  · show (stdSort (idCompare fqn st.corpus.InfoMap) st.corpus.allSymbols).Nodup
    exact hperm.nodup_iff.2 hnd
  · intro k
    show k ∈ stdSort (idCompare fqn st.corpus.InfoMap) st.corpus.allSymbols ↔ _
    rw [hperm.mem_iff]
    exact hmem k

theorem build_one_entry_per_key_witness :
    ∃ C, build sampleRead sampleMerge ownName dottedName false false
        [(0, [[0]]), (2, [[2], [2]]), (1, [[1]])] = .corpus C ∧
      (C.InfoMap.map Prod.fst).Nodup ∧
      (∀ k, k ∈ C.InfoMap.map Prod.fst ↔
        k ∈ [(0, [0]), (2, [2]), (1, [1]), (2, [2])].map Prod.fst) ∧
      C.allSymbols.Nodup ∧
      (∀ k, k ∈ C.allSymbols ↔
        k ∈ ([(0, [0]), (2, [2]), (1, [1]), (2, [2])] : List (SymbolID × Bitcode)).map
          Prod.fst) :=
  build_one_entry_per_key sampleRead sampleMerge ownName dottedName false false
    [(0, [0]), (2, [2]), (1, [1]), (2, [2])] [(0, [[0]]), (2, [[2], [2]]), (1, [[1]])]
    (Or.inl rfl) (List.Perm.refl _)
    (by
      intro g hg
      have hc : collectSymbols [(0, [0]), (2, [2]), (1, [1]), (2, [2])] =
          [(0, [[0]]), (2, [[2], [2]]), (1, [[1]])] := rfl
      rw [hc] at hg
      simp only [List.mem_cons, List.mem_singleton, List.not_mem_nil, or_false] at hg
      rcases hg with hg | hg | hg
      · exact ⟨sampleGlobal, by rw [hg]; rfl, by rw [hg]; rfl⟩
      · exact ⟨sampleG, by rw [hg]; rfl, by rw [hg]; rfl⟩
      · exact ⟨sampleF, by rw [hg]; rfl, by rw [hg]; rfl⟩)

/-- C20, as the claim states it, fails: the only tool result holds the function
`f`, whose `Namespace` list refers to the id 20; `build` returns a Corpus, `f` is
in its map, and the id 20 is no key of the map. -/
theorem build_dangling_reference_counterexample :
    ∃ C, build sampleRead sampleMerge ownName dottedName false false
        (collectSymbols [(21, [3])]) = .corpus C ∧
      infoMapFind C.InfoMap 21 = some sampleChild ∧
      sampleChild.base.Namespace.map (fun R => R.USR) = [20] ∧
      infoMapFind C.InfoMap 20 = none :=
  ⟨_, rfl, rfl, rfl, rfl⟩

/-- C20, amended: `build` checks no reference: in a Corpus returned by
`Corpus::build` every id of the discovery list, that is the own id of every
inserted symbol, is a key of the map, so `get` succeeds on it; nothing is
guaranteed for the ids of the references inside the stored objects. -/
theorem build_symbols_resolve (readBitcode : Bitcode → Option (List AnyInfo))
    (mergeInfos : List AnyInfo → Option AnyInfo) (extractName : AnyInfo → Str)
    (fqn : Info → Str) (mappingFailed IgnoreMappingFailures : Bool)
    (tasks : List Group) (C : Corpus)
    (h : build readBitcode mergeInfos extractName fqn mappingFailed IgnoreMappingFailures
      tasks = .corpus C) :
    ∀ id ∈ C.allSymbols, (infoMapFind C.InfoMap id).isSome = true := by
  obtain ⟨st, hr, _, hmap, _, hs⟩ := build_corpus _ _ _ _ _ _ _ _ h
  obtain ⟨hperm, _⟩ := sortSymbols_spec fqn _ _ _ hs
  obtain ⟨_, _, hinv⟩ := reduceAll_spec readBitcode mergeInfos extractName tasks _ st rfl
    (by intro id hid; simp [emptyCorpus] at hid) hr
  intro id hid
  rw [hmap]
  exact hinv id (hperm.subset hid)

theorem build_symbols_resolve_witness :
    (infoMapFind [(21, sampleChild)] 21).isSome = true :=
  build_symbols_resolve sampleRead sampleMerge ownName dottedName false false
    (collectSymbols [(21, [3])])
    { InfoMap := [(21, sampleChild)],
      Idx := .mk { USR := EmptySID, Name := [], RefType := .IT_default, Path := [] }
        (.mk { USR := 20, Name := [], RefType := .IT_default, Path := [] }
          (.mk { USR := 21, Name := bytes "f", RefType := .IT_function, Path := bytes "N" } []
            :: []) :: []),
      allSymbols := [21], isCanonical_ := false }
    rfl 21 (List.mem_singleton.2 rfl)

theorem readGroup_none (readBitcode : Bitcode → Option (List AnyInfo)) (b : Bitcode)
    (hb : readBitcode b = none) : ∀ bs : List Bitcode, b ∈ bs → readGroup readBitcode bs = none
  | [], h => by simp at h
  | x :: xs, h => by
    simp only [readGroup]
    cases hx : readBitcode x with
    | none => rfl
    | some infos =>
      simp only
      rcases List.mem_cons.1 h with h | h
      · rw [← h, hb] at hx
        cases hx
      · rw [readGroup_none readBitcode b hb xs h]

theorem reduceTask_gotFailure (readBitcode : Bitcode → Option (List AnyInfo))
    (mergeInfos : List AnyInfo → Option AnyInfo) (extractName : AnyInfo → Str)
    (st st2 : BuildState) (g : Group)
    (h : reduceTask readBitcode mergeInfos extractName st g = some st2)
    (hf : st.GotFailure = true) : st2.GotFailure = true := by
  unfold reduceTask at h
  cases hr : readGroup readBitcode g.2 with
  | none =>
    simp only [hr, Option.some.injEq] at h
    rw [← h]
  | some Infos =>
    simp only [hr] at h
    cases hm : mergeInfos Infos with
    | none =>
      simp only [hm, Option.some.injEq] at h
      rw [← h]
      exact hf
    | some Ip =>
      simp only [hm] at h
      split_ifs at h
      cases hi : insert extractName st.corpus Ip with
      | none => simp [hi] at h
      | some C =>
        simp only [hi, Option.some.injEq] at h
        rw [← h]
        exact hf

theorem reduceAll_gotFailure (readBitcode : Bitcode → Option (List AnyInfo))
    (mergeInfos : List AnyInfo → Option AnyInfo) (extractName : AnyInfo → Str) :
    ∀ (tasks : List Group) (st st2 : BuildState),
      reduceAll readBitcode mergeInfos extractName st tasks = some st2 →
      st.GotFailure = true → st2.GotFailure = true
  | [], st, st2, h, hf => by
    simp only [reduceAll, Option.some.injEq] at h
    rw [← h]
    exact hf
  | g :: rest, st, st2, h, hf => by
    simp only [reduceAll] at h
    cases ht : reduceTask readBitcode mergeInfos extractName st g with
    | none => simp [ht] at h
    | some st1 =>
      simp only [ht] at h
      exact reduceAll_gotFailure readBitcode mergeInfos extractName rest st1 st2 h
        (reduceTask_gotFailure readBitcode mergeInfos extractName st st1 g ht hf)

/-- A group one of whose bitcodes cannot be read sets the failure flag for
good. -/
theorem reduceAll_read_failure (readBitcode : Bitcode → Option (List AnyInfo))
    (mergeInfos : List AnyInfo → Option AnyInfo) (extractName : AnyInfo → Str)
    (g : Group) (hg : readGroup readBitcode g.2 = none) :
    ∀ (tasks : List Group) (st st2 : BuildState), g ∈ tasks →
      reduceAll readBitcode mergeInfos extractName st tasks = some st2 →
      st2.GotFailure = true
  | [], _, _, hmem, _ => by simp at hmem
  | x :: rest, st, st2, hmem, h => by
    simp only [reduceAll] at h
    cases ht : reduceTask readBitcode mergeInfos extractName st x with
    | none => simp [ht] at h
    | some st1 =>
      simp only [ht] at h
      rcases List.mem_cons.1 hmem with hx | hx
      · subst hx
        have h1 : st1.GotFailure = true := by
          unfold reduceTask at ht
          simp only [hg, Option.some.injEq] at ht
          rw [← ht]
        exact reduceAll_gotFailure readBitcode mergeInfos extractName rest st1 st2 h h1
      · exact reduceAll_read_failure readBitcode mergeInfos extractName g hg rest st1 st2 hx h

/-- C21: a decode failure is atomic and fatal for the build: if one bitcode of
a group cannot be read, the task of the group leaves map, index and discovery
list as they are, also when earlier bitcodes of the group were read, it only
sets the failure flag, and `Corpus::build` returns no Corpus. -/
theorem build_read_failure (readBitcode : Bitcode → Option (List AnyInfo))
    (mergeInfos : List AnyInfo → Option AnyInfo) (extractName : AnyInfo → Str)
    (fqn : Info → Str) (mappingFailed IgnoreMappingFailures : Bool)
    (tasks : List Group) (g : Group) (b : Bitcode)
    (hg : g ∈ tasks) (hb : b ∈ g.2) (hfail : readBitcode b = none) :
    (∀ st, reduceTask readBitcode mergeInfos extractName st g =
      some { corpus := st.corpus, GotFailure := true }) ∧
    (∀ C, build readBitcode mergeInfos extractName fqn mappingFailed IgnoreMappingFailures
      tasks ≠ .corpus C) := by
  have hr := readGroup_none readBitcode b hfail g.2 hb
  constructor
  · intro st
    unfold reduceTask
    simp [hr]
  · intro C hC
    obtain ⟨st, hred, hflag, _⟩ := build_corpus _ _ _ _ _ _ _ _ hC
    have := reduceAll_read_failure readBitcode mergeInfos extractName g hr tasks _ st hg hred
    rw [hflag] at this
    cases this

theorem build_read_failure_witness :
    (∀ st, reduceTask sampleRead sampleMerge ownName st (2, [[2], [9]]) =
      some { corpus := st.corpus, GotFailure := true }) ∧
    (∀ C, build sampleRead sampleMerge ownName dottedName false false
      [(0, [[0]]), (2, [[2], [9]]), (1, [[1]])] ≠ .corpus C) :=
  build_read_failure sampleRead sampleMerge ownName dottedName false false
    [(0, [[0]]), (2, [[2], [9]]), (1, [[1]])] (2, [[2], [9]]) [9]
    (by simp) (by simp) rfl

theorem reduceAll_append (readBitcode : Bitcode → Option (List AnyInfo))
    (mergeInfos : List AnyInfo → Option AnyInfo) (extractName : AnyInfo → Str) :
    ∀ (a b : List Group) (st : BuildState),
      reduceAll readBitcode mergeInfos extractName st (a ++ b) =
        (reduceAll readBitcode mergeInfos extractName st a).bind
          (fun s => reduceAll readBitcode mergeInfos extractName s b)
  | [], b, st => by simp [reduceAll]
  | x :: rest, b, st => by
    simp only [List.cons_append, reduceAll]
    cases reduceTask readBitcode mergeInfos extractName st x with
    | none => rfl
    | some st1 => exact reduceAll_append readBitcode mergeInfos extractName rest b st1

theorem mem_keys_infoMapInsert (v : AnyInfo) (id k : SymbolID) : ∀ m : InfoMap,
    k ∈ (infoMapInsert m id v).map Prod.fst → k ∈ m.map Prod.fst ∨ k = id
  | [], h => by
    simp only [infoMapInsert, List.map_cons, List.map_nil, List.mem_singleton] at h
    exact Or.inr h
  | (k2, w) :: rest, h => by
    simp only [infoMapInsert] at h
    by_cases hk : k2 = id
    · simp only [hk, if_true, List.map_cons, List.mem_cons] at h
      rcases h with h | h
      · exact Or.inr h
      · exact Or.inl (by simp [h])
    · simp only [hk, if_false, List.map_cons, List.mem_cons] at h
      rcases h with h | h
      · exact Or.inl (by simp [h])
      · rcases mem_keys_infoMapInsert v id k rest h with h2 | h2
        · exact Or.inl (by simp [h2])
        · exact Or.inr h2

/-- Every key of the map and every id of the discovery list after the reduce
tasks was there before or is the key of one of the groups. -/
theorem reduceAll_keys (readBitcode : Bitcode → Option (List AnyInfo))
    (mergeInfos : List AnyInfo → Option AnyInfo) (extractName : AnyInfo → Str) :
    ∀ (tasks : List Group) (st st2 : BuildState), st.corpus.isCanonical_ = false →
      reduceAll readBitcode mergeInfos extractName st tasks = some st2 →
      (∀ k ∈ st2.corpus.InfoMap.map Prod.fst,
        k ∈ st.corpus.InfoMap.map Prod.fst ∨ k ∈ tasks.map Prod.fst) ∧
      (∀ k ∈ st2.corpus.allSymbols, k ∈ st.corpus.allSymbols ∨ k ∈ tasks.map Prod.fst)
  | [], st, st2, _, h => by
    simp only [reduceAll, Option.some.injEq] at h
    subst h
    exact ⟨fun k hk => Or.inl hk, fun k hk => Or.inl hk⟩
  | g :: rest, st, st2, hC, h => by
    simp only [reduceAll] at h
    cases ht : reduceTask readBitcode mergeInfos extractName st g with
    | none => simp [ht] at h
    | some st1 =>
      simp only [ht] at h
      have hC1 := (reduceTask_spec readBitcode mergeInfos extractName st st1 g hC ht).1
      obtain ⟨ih1, ih2⟩ := reduceAll_keys readBitcode mergeInfos extractName rest st1 st2 hC1 h
      have hstep : (∀ k ∈ st1.corpus.InfoMap.map Prod.fst,
            k ∈ st.corpus.InfoMap.map Prod.fst ∨ k = g.1) ∧
          (∀ k ∈ st1.corpus.allSymbols, k ∈ st.corpus.allSymbols ∨ k = g.1) := by
        unfold reduceTask at ht
        cases hr : readGroup readBitcode g.2 with
        | none =>
          simp only [hr, Option.some.injEq] at ht
          subst ht
          exact ⟨fun k hk => Or.inl hk, fun k hk => Or.inl hk⟩
        | some Infos =>
          simp only [hr] at ht
          cases hm : mergeInfos Infos with
          | none =>
            simp only [hm, Option.some.injEq] at ht
            subst ht
            exact ⟨fun k hk => Or.inl hk, fun k hk => Or.inl hk⟩
          | some Ip =>
            simp only [hm] at ht
            by_cases hk : g.1 = Ip.base.USR
            · simp only [hk, if_true, insert_eq extractName st.corpus Ip hC,
                Option.some.injEq] at ht
              subst ht
              constructor
              · intro k hmem
                rw [hk]
                exact mem_keys_infoMapInsert Ip Ip.base.USR k _ hmem
              · intro k hmem
                rw [hk]
                simpa using hmem
            · simp [hk] at ht
      constructor
      · intro k hk
        rcases ih1 k hk with h1 | h1
        · rcases hstep.1 k h1 with h2 | h2
          · exact Or.inl h2
          · exact Or.inr (by simp [h2])
        · exact Or.inr (by simp [h1])
      · intro k hk
        rcases ih2 k hk with h1 | h1
        · rcases hstep.2 k h1 with h2 | h2
          · exact Or.inl h2
          · exact Or.inr (by simp [h2])
        · exact Or.inr (by simp [h1])

/-- C22, as the claim states it, fails: the group of the namespace `N` holds two
views that do not merge, the group of its function `f` merges; `build` returns
a Corpus whose map and discovery list do not hold `N`, and whose index holds a
node with the id of `N`, created on the insert of `f` as its parent. -/
theorem build_merge_failure_counterexample :
    ∃ C, build conflictRead strictMerge ownName dottedName false false
        [(20, [[4], [5]]), (21, [[3]])] = .corpus C ∧
      readGroup conflictRead [[4], [5]] = some [sampleParent, sampleParentOther] ∧
      strictMerge [sampleParent, sampleParentOther] = none ∧
      infoMapFind C.InfoMap 20 = none ∧
      C.allSymbols = [21] ∧
      (findChild 20 C.Idx.Children).map (fun n => n.ref.USR) = some 20 :=
  ⟨_, rfl, rfl, rfl, rfl, rfl, rfl⟩

/-- C22, amended: a merge failure is local to its group: if merging the Infos
read for one group fails, the task of the group changes neither map nor index
nor discovery list and does not set the failure flag, every other group is
merged and inserted exactly as if the failing group were not there, so that
`build` returns what it returns without the group, and, the keys of the groups
being distinct, the key of the group is absent from the map and from the
discovery list of a returned Corpus.  (The index may hold a node with this id,
created as the parent of another symbol.) -/
theorem build_merge_failure (readBitcode : Bitcode → Option (List AnyInfo))
    (mergeInfos : List AnyInfo → Option AnyInfo) (extractName : AnyInfo → Str)
    (fqn : Info → Str) (mappingFailed IgnoreMappingFailures : Bool)
    (pre post : List Group) (g : Group) (Infos : List AnyInfo)
    (hr : readGroup readBitcode g.2 = some Infos) (hm : mergeInfos Infos = none) :
    (∀ st, reduceTask readBitcode mergeInfos extractName st g = some st) ∧
    build readBitcode mergeInfos extractName fqn mappingFailed IgnoreMappingFailures
        (pre ++ g :: post) =
      build readBitcode mergeInfos extractName fqn mappingFailed IgnoreMappingFailures
        (pre ++ post) ∧
    (((pre ++ g :: post).map Prod.fst).Nodup →
      ∀ C, build readBitcode mergeInfos extractName fqn mappingFailed IgnoreMappingFailures
          (pre ++ g :: post) = .corpus C →
        g.1 ∉ C.InfoMap.map Prod.fst ∧ g.1 ∉ C.allSymbols) := by
  have htask : ∀ st, reduceTask readBitcode mergeInfos extractName st g = some st := by
    intro st
    unfold reduceTask
    simp [hr, hm]
  have hred : ∀ st, reduceAll readBitcode mergeInfos extractName st (pre ++ g :: post) =
      reduceAll readBitcode mergeInfos extractName st (pre ++ post) := by
    intro st
    rw [reduceAll_append, reduceAll_append]
    congr 1
    funext s
    simp only [reduceAll, htask]
  have hbuild : build readBitcode mergeInfos extractName fqn mappingFailed
      IgnoreMappingFailures (pre ++ g :: post) =
      build readBitcode mergeInfos extractName fqn mappingFailed IgnoreMappingFailures
        (pre ++ post) := by
    unfold build
    rw [hred]
  refine ⟨htask, hbuild, ?_⟩
  intro hnd C hC
  rw [hbuild] at hC
  obtain ⟨st, hst, _, hmap, _, hs⟩ := build_corpus _ _ _ _ _ _ _ _ hC
  obtain ⟨hk1, hk2⟩ := reduceAll_keys readBitcode mergeInfos extractName (pre ++ post) _ st
    rfl hst
  have hperm := (sortSymbols_spec fqn _ _ _ hs).1
  have hnot : g.1 ∉ (pre ++ post).map Prod.fst := by
    have h1 : ((pre ++ g :: post).map Prod.fst).Perm (g.1 :: (pre ++ post).map Prod.fst) := by
      simp only [List.map_append, List.map_cons]
      exact List.perm_middle
    exact (List.nodup_cons.1 (h1.nodup_iff.1 hnd)).1
  constructor
  · intro hmem
    rw [hmap] at hmem
    rcases hk1 _ hmem with h | h
    · simp [emptyCorpus] at h
    · exact hnot h
  · intro hmem
    rcases hk2 _ (hperm.subset hmem) with h | h
    · simp [emptyCorpus] at h
    · exact hnot h

theorem build_merge_failure_witness :
    (∀ st, reduceTask conflictRead strictMerge ownName st (20, [[4], [5]]) = some st) ∧
    build conflictRead strictMerge ownName dottedName false false
        ([] ++ (20, [[4], [5]]) :: [(21, [[3]])]) =
      build conflictRead strictMerge ownName dottedName false false ([] ++ [(21, [[3]])]) ∧
    ((([] ++ (20, [[4], [5]]) :: [(21, [[3]])] : List Group).map Prod.fst).Nodup →
      ∀ C, build conflictRead strictMerge ownName dottedName false false
          ([] ++ (20, [[4], [5]]) :: [(21, [[3]])]) = .corpus C →
        (20, [[4], [5]]).1 ∉ C.InfoMap.map Prod.fst ∧
          ((20, [[4], [5]]) : Group).1 ∉ C.allSymbols) :=
  build_merge_failure conflictRead strictMerge ownName dottedName false false
    [] [(21, [[3]])] (20, [[4], [5]]) [sampleParent, sampleParentOther] rfl rfl

/-- C30: `Corpus::symbolCompare` equals the two-key lexicographic reference
order: `symbolCompare s0 s1` holds exactly when `lower s0` is lexicographically
less than `lower s1`, or `lower s0 = lower s1` and `s0` is bytewise
lexicographically greater than `s1`; here `lower` maps only `'A'..'Z'`, to
`'a'..'z'`, and the lexicographic order `lexLess` is the usual one on byte
lists, a proper prefix being less. -/
theorem symbolCompare_eq_referenceOrder :
    (∀ s0 s1 : Str, symbolCompare s0 s1 = referenceOrder s0 s1) ∧
    (∀ s0 s1 : Str, symbolCompare s0 s1 = true ↔
      List.Lex (· < ·) (lower s0) (lower s1) ∨
        (lower s0 = lower s1 ∧ List.Lex (· < ·) s1 s0)) ∧
    (∀ c : Nat, tolower c = if 65 ≤ c ∧ c ≤ 90 then c + 32 else c) := by
  have hlex : ∀ a b : Str, lexLess a b = true ↔ List.Lex (· < ·) a b := by
    intro a
    induction a with
    | nil =>
      intro b
      cases b with
      | nil =>
        simp only [lexLess, Bool.false_eq_true, false_iff]
        intro h
        cases h
      | cons y ys => simp [lexLess, List.Lex.nil]
    | cons x xs ih =>
      intro b
      cases b with
      | nil =>
        simp only [lexLess, Bool.false_eq_true, false_iff]
        intro h
        cases h
      | cons y ys =>
        simp only [lexLess]
        by_cases hxy : x < y
        · simp only [hxy, if_true, true_iff]
          exact List.Lex.rel hxy
        · by_cases hyx : y < x
          · simp only [hxy, hyx, if_false, if_true, Bool.false_eq_true, false_iff]
            intro h
            cases h with
            | cons h2 => omega
            | rel h2 => exact hxy h2
          · have he : x = y := by omega
            subst he
            simp only [hxy, if_false]
            rw [ih ys]
            constructor
            · intro h
              exact List.Lex.cons h
            · intro h
              cases h with
              | cons h2 => exact h2
              | rel h2 => exact absurd h2 hxy
  refine ⟨fun s0 s1 => symbolCompare_eq s0 s1, ?_, fun c => rfl⟩
  intro s0 s1
  rw [symbolCompare_iff, hlex, hlex]

namespace AST

/-- `readItems` of a handler that keeps a projection of the state keeps it. -/
theorem readItems_invariant {σ τ : Type} (handle : σ → Item → Res σ) (f : σ → τ)
    (hh : ∀ st it, f (handle st it).2 = f st) (st : σ) (items : List Item) :
    f (readItems handle st items).2 = f st := by
  induction items generalizing st with
  | nil => rfl
  | cons it rest ih =>
    simp only [readItems]
    have h1 := hh st it
    rcases hr : handle st it with ⟨status, st1⟩
    rw [hr] at h1
    cases status with
    | ok => simp only; rw [ih st1]; exact h1
    | failed e => exact h1
    | undefined => exact h1

/-- A symbol part leaves the `Info` base as it was. -/
theorem readSymbolPart_toInfo (c : Codec) (S : SymbolInfo) (items : List Item) :
    (readSymbolPart c S items).2.toInfo = S.toInfo := by
  unfold readSymbolPart
  refine readItems_invariant _ (fun S : SymbolInfo => S.toInfo) (fun st it => ?_) S items
  cases it with
  | record ID R Blob =>
    simp only [SymbolPartBlock.parseRecord]
    cases ID <;> simp only [AnyBlock.parseRecord, assign]
    · cases c.decodeOptLocation R Blob st.DefLoc <;> rfl
    · cases c.decodeLocations R Blob st.Loc <;> rfl
  | block ID sub => rfl

/-- On a reference sub-block, `NamespaceBlock::readSubBlock` is `readChild` on the
children of the namespace. -/
theorem namespaceBlock_readSubBlock_reference (c : Codec) (I : NamespaceInfo)
    (items : List Item) :
    NamespaceBlock.readSubBlock c I .BI_REFERENCE_BLOCK_ID items
      = ((TopLevelBlock.readChild c I.Children items).1,
          { I with Children := (TopLevelBlock.readChild c I.Children items).2 }) := rfl

/-- `tagged` on a list with one more decoded block in front. -/
theorem tagged_cons (F : FieldId) (B : ReferenceBlock) (Bs : List ReferenceBlock) :
    tagged F (B :: Bs) = tagged F [B] ++ tagged F Bs := by
  unfold tagged
  by_cases h : B.F = F <;> simp [List.filter_cons, h]

/-- One successful reference sub-block of a `NamespaceBlock`: the decoded
reference goes to the end of the list of its tag, and nothing else changes. -/
theorem namespaceBlock_reference_step (c : Codec) (I I1 : NamespaceInfo) (s : List Item)
    (h : NamespaceBlock.readSubBlock c I .BI_REFERENCE_BLOCK_ID s = (.ok, I1)) :
    I1.Children.Namespaces
        = I.Children.Namespaces ++ tagged .F_child_namespace [(readReference c s).2] ∧
      I1.Children.Records
        = I.Children.Records ++ tagged .F_child_record [(readReference c s).2] ∧
      I1.Children.Functions
        = I.Children.Functions ++ tagged .F_child_function [(readReference c s).2] ∧
      I1.Children.Typedefs = I.Children.Typedefs ∧ I1.toInfo = I.toInfo := by
  simp only [NamespaceBlock.readSubBlock, TopLevelBlock.readSubBlock, namespaceKind,
    TopLevelBlock.readChild] at h
  rcases hr : readReference c s with ⟨status, B⟩
  rw [hr] at h
  cases status with
  | ok =>
    cases hF : B.F <;> simp [hF, makeWrongFieldError] at h <;> subst h <;>
      simp [tagged, hF]
  | failed e => simp at h
  | undefined => simp at h

/-- One successful reference sub-block of a `RecordBlock`: the decoded reference
goes to the end of the list of its tag, and nothing else changes. -/
theorem recordBlock_reference_step (c : Codec) (I I1 : RecordInfo) (s : List Item)
    (h : RecordBlock.readSubBlock c I .BI_REFERENCE_BLOCK_ID s = (.ok, I1)) :
    (I1.Children.Namespaces
        = I.Children.Namespaces ++ tagged .F_child_namespace [(readReference c s).2] ∧
      I1.Children.Records
        = I.Children.Records ++ tagged .F_child_record [(readReference c s).2] ∧
      I1.Children.Functions
        = I.Children.Functions ++ tagged .F_child_function [(readReference c s).2] ∧
      I1.Children.Typedefs
        = I.Children.Typedefs ++ tagged .F_child_typedef [(readReference c s).2] ∧
      I1.Parents = I.Parents ++ tagged .F_parent [(readReference c s).2] ∧
      I1.VirtualParents = I.VirtualParents ++ tagged .F_vparent [(readReference c s).2]) ∧
      I1.toSymbolInfo = I.toSymbolInfo ∧ I1.TagType = I.TagType ∧
      I1.IsTypeDef = I.IsTypeDef ∧ I1.specs = I.specs ∧ I1.Friends = I.Friends ∧
      I1.Members = I.Members ∧ I1.Bases = I.Bases ∧ I1.Template = I.Template := by
  simp only [RecordBlock.readSubBlock] at h
  rcases hr : readReference c s with ⟨status, B⟩
  rw [hr] at h
  cases status with
  | ok =>
    cases hF : B.F <;>
      simp [hF, makeWrongFieldError, TopLevelBlock.insertChild, recordKind] at h <;>
      subst h <;> simp [tagged, hF]
  | failed e => simp at h
  | undefined => simp at h

/-- A reference sub-block of a `NamespaceBlock` that decodes and carries one of
the tags of `readChild` is read with success. -/
theorem namespaceBlock_reference_ok (c : Codec) (I : NamespaceInfo) (s : List Item)
    (h1 : (readReference c s).1 = .ok) (h2 : (readReference c s).2.F ∈ childTags) :
    (NamespaceBlock.readSubBlock c I .BI_REFERENCE_BLOCK_ID s).1 = .ok := by
  simp only [NamespaceBlock.readSubBlock, TopLevelBlock.readSubBlock, namespaceKind,
    TopLevelBlock.readChild]
  rcases hr : readReference c s with ⟨status, B⟩
  rw [hr] at h1 h2
  simp only at h1 h2
  subst h1
  cases hF : B.F <;> simp [hF, childTags] at h2 ⊢

/-- A reference sub-block of a `RecordBlock` that decodes and carries one of the
tags of a record is read with success. -/
theorem recordBlock_reference_ok (c : Codec) (I : RecordInfo) (s : List Item)
    (h1 : (readReference c s).1 = .ok) (h2 : (readReference c s).2.F ∈ recordTags) :
    (RecordBlock.readSubBlock c I .BI_REFERENCE_BLOCK_ID s).1 = .ok := by
  simp only [RecordBlock.readSubBlock]
  rcases hr : readReference c s with ⟨status, B⟩
  rw [hr] at h1 h2
  simp only at h1 h2
  subst h1
  cases hF : B.F <;> simp [hF, recordTags, TopLevelBlock.insertChild, recordKind] at h2 ⊢

/-- The loop of a `NamespaceBlock` on a reference sub-block followed by `rest`. -/
theorem namespaceBlock_readBlock_cons (c : Codec) (I I2 : NamespaceInfo) (s : List Item)
    (rest : List Item) (status : Status)
    (hs : NamespaceBlock.readSubBlock c I .BI_REFERENCE_BLOCK_ID s = (status, I2)) :
    NamespaceBlock.readBlock c I (Item.block .BI_REFERENCE_BLOCK_ID s :: rest)
      = if status = .ok then NamespaceBlock.readBlock c I2 rest else (status, I2) := by
  unfold NamespaceBlock.readBlock
  simp only [readItems, hs]
  cases status <;> simp

/-- The loop of a `RecordBlock` on a reference sub-block followed by `rest`. -/
theorem recordBlock_readBlock_cons (c : Codec) (I I2 : RecordInfo) (s : List Item)
    (rest : List Item) (status : Status)
    (hs : RecordBlock.readSubBlock c I .BI_REFERENCE_BLOCK_ID s = (status, I2)) :
    RecordBlock.readBlock c I (Item.block .BI_REFERENCE_BLOCK_ID s :: rest)
      = if status = .ok then RecordBlock.readBlock c I2 rest else (status, I2) := by
  unfold RecordBlock.readBlock
  simp only [readItems, hs]
  cases status <;> simp

/-- A `NamespaceBlock` that reads the reference sub-blocks `subs` with success
has filed every decoded reference at the end of the list of its tag, in order. -/
theorem namespaceBlock_references_fold (c : Codec) (subs : List (List Item)) :
    ∀ (I I1 : NamespaceInfo),
      NamespaceBlock.readBlock c I (subs.map (Item.block .BI_REFERENCE_BLOCK_ID)) = (.ok, I1) →
      I1.Children.Namespaces
          = I.Children.Namespaces ++ tagged .F_child_namespace (decodedRefs c subs) ∧
        I1.Children.Records
          = I.Children.Records ++ tagged .F_child_record (decodedRefs c subs) ∧
        I1.Children.Functions
          = I.Children.Functions ++ tagged .F_child_function (decodedRefs c subs) ∧
        I1.Children.Typedefs = I.Children.Typedefs ∧ I1.toInfo = I.toInfo := by
  induction subs with
  | nil =>
    intro I I1 h
    simp only [List.map_nil, NamespaceBlock.readBlock, readItems, Prod.mk.injEq, true_and] at h
    subst h
    simp [tagged, decodedRefs]
  | cons s rest ih =>
    intro I I1 h
    rcases hs : NamespaceBlock.readSubBlock c I .BI_REFERENCE_BLOCK_ID s with ⟨status, I2⟩
    rw [List.map_cons, namespaceBlock_readBlock_cons c I I2 s _ status hs] at h
    cases status with
    | ok =>
      simp only at h
      obtain ⟨a1, a2, a3, a4, a5⟩ := namespaceBlock_reference_step c I I2 s hs
      obtain ⟨b1, b2, b3, b4, b5⟩ := ih I2 I1 h
      simp only [decodedRefs, List.map_cons] at b1 b2 b3 ⊢
      refine ⟨?_, ?_, ?_, b4.trans a4, b5.trans a5⟩
      · rw [b1, a1, tagged_cons _ _ (List.map _ rest), List.append_assoc]
      · rw [b2, a2, tagged_cons _ _ (List.map _ rest), List.append_assoc]
      · rw [b3, a3, tagged_cons _ _ (List.map _ rest), List.append_assoc]
    | failed e => simp at h
    | undefined => simp at h

/-- A `NamespaceBlock` reads reference sub-blocks with success when each of them
decodes and carries one of the tags of `readChild`. -/
theorem namespaceBlock_references_ok (c : Codec) (subs : List (List Item)) :
    ∀ (I : NamespaceInfo),
      (∀ s ∈ subs, (readReference c s).1 = .ok ∧ (readReference c s).2.F ∈ childTags) →
      (NamespaceBlock.readBlock c I (subs.map (Item.block .BI_REFERENCE_BLOCK_ID))).1 = .ok := by
  induction subs with
  | nil => intro I _; rfl
  | cons s rest ih =>
    intro I h
    have h1 := namespaceBlock_reference_ok c I s (h s (List.mem_cons_self _ _)).1
      (h s (List.mem_cons_self _ _)).2
    rcases hs : NamespaceBlock.readSubBlock c I .BI_REFERENCE_BLOCK_ID s with ⟨status, I2⟩
    rw [hs] at h1
    simp only at h1
    subst h1
    rw [List.map_cons, namespaceBlock_readBlock_cons c I I2 s _ .ok hs, if_pos rfl]
    exact ih I2 (fun t ht => h t (List.mem_cons_of_mem _ ht))

/-- A `RecordBlock` that reads the reference sub-blocks `subs` with success has
filed every decoded reference at the end of the list of its tag, in order. -/
theorem recordBlock_references_fold (c : Codec) (subs : List (List Item)) :
    ∀ (I I1 : RecordInfo),
      RecordBlock.readBlock c I (subs.map (Item.block .BI_REFERENCE_BLOCK_ID)) = (.ok, I1) →
      (I1.Children.Namespaces
          = I.Children.Namespaces ++ tagged .F_child_namespace (decodedRefs c subs) ∧
        I1.Children.Records
          = I.Children.Records ++ tagged .F_child_record (decodedRefs c subs) ∧
        I1.Children.Functions
          = I.Children.Functions ++ tagged .F_child_function (decodedRefs c subs) ∧
        I1.Children.Typedefs
          = I.Children.Typedefs ++ tagged .F_child_typedef (decodedRefs c subs) ∧
        I1.Parents = I.Parents ++ tagged .F_parent (decodedRefs c subs) ∧
        I1.VirtualParents = I.VirtualParents ++ tagged .F_vparent (decodedRefs c subs)) ∧
        I1.toSymbolInfo = I.toSymbolInfo ∧ I1.TagType = I.TagType ∧
        I1.IsTypeDef = I.IsTypeDef ∧ I1.specs = I.specs ∧ I1.Friends = I.Friends ∧
        I1.Members = I.Members ∧ I1.Bases = I.Bases ∧ I1.Template = I.Template := by
  induction subs with
  | nil =>
    intro I I1 h
    simp only [List.map_nil, RecordBlock.readBlock, readItems, Prod.mk.injEq, true_and] at h
    subst h
    simp [tagged, decodedRefs]
  | cons s rest ih =>
    intro I I1 h
    rcases hs : RecordBlock.readSubBlock c I .BI_REFERENCE_BLOCK_ID s with ⟨status, I2⟩
    rw [List.map_cons, recordBlock_readBlock_cons c I I2 s _ status hs] at h
    cases status with
    | ok =>
      simp only at h
      obtain ⟨⟨a1, a2, a3, a4, a5, a6⟩, a7, a8, a9, a10, a11, a12, a13, a14⟩ :=
        recordBlock_reference_step c I I2 s hs
      obtain ⟨⟨b1, b2, b3, b4, b5, b6⟩, b7, b8, b9, b10, b11, b12, b13, b14⟩ := ih I2 I1 h
      simp only [decodedRefs, List.map_cons] at b1 b2 b3 b4 b5 b6 ⊢
      refine ⟨⟨?_, ?_, ?_, ?_, ?_, ?_⟩, b7.trans a7, b8.trans a8, b9.trans a9, b10.trans a10,
        b11.trans a11, b12.trans a12, b13.trans a13, b14.trans a14⟩
      · rw [b1, a1, tagged_cons _ _ (List.map _ rest), List.append_assoc]
      · rw [b2, a2, tagged_cons _ _ (List.map _ rest), List.append_assoc]
      · rw [b3, a3, tagged_cons _ _ (List.map _ rest), List.append_assoc]
      · rw [b4, a4, tagged_cons _ _ (List.map _ rest), List.append_assoc]
      · rw [b5, a5, tagged_cons _ _ (List.map _ rest), List.append_assoc]
      · rw [b6, a6, tagged_cons _ _ (List.map _ rest), List.append_assoc]
    | failed e => simp at h
    | undefined => simp at h

/-- A `RecordBlock` reads reference sub-blocks with success when each of them
decodes and carries one of the tags of a record. -/
theorem recordBlock_references_ok (c : Codec) (subs : List (List Item)) :
    ∀ (I : RecordInfo),
      (∀ s ∈ subs, (readReference c s).1 = .ok ∧ (readReference c s).2.F ∈ recordTags) →
      (RecordBlock.readBlock c I (subs.map (Item.block .BI_REFERENCE_BLOCK_ID))).1 = .ok := by
  induction subs with
  | nil => intro I _; rfl
  | cons s rest ih =>
    intro I h
    have h1 := recordBlock_reference_ok c I s (h s (List.mem_cons_self _ _)).1
      (h s (List.mem_cons_self _ _)).2
    rcases hs : RecordBlock.readSubBlock c I .BI_REFERENCE_BLOCK_ID s with ⟨status, I2⟩
    rw [hs] at h1
    simp only at h1
    subst h1
    rw [List.map_cons, recordBlock_readBlock_cons c I I2 s _ .ok hs, if_pos rfl]
    exact ih I2 (fun t ht => h t (List.mem_cons_of_mem _ ht))

/-- What `ReferencesBlock::parseRecord` returns, whatever the record id: success
with the reference appended when the nested read succeeds, the outcome of the
nested read with the container unchanged when it does not. -/
theorem referencesBlock_parseRecord_eq (readBlock : RecordId → Res ReferenceBlock)
    (C_ : List Reference) (ID : RecordId) :
    ((readBlock ID).1 = .ok →
      ReferencesBlock.parseRecord readBlock C_ ID = (.ok, C_ ++ [(readBlock ID).2.I])) ∧
    ((readBlock ID).1 ≠ .ok →
      ReferencesBlock.parseRecord readBlock C_ ID = ((readBlock ID).1, C_)) := by
  unfold ReferencesBlock.parseRecord
  rcases readBlock ID with ⟨status, B⟩
  cases status <;> simp

/-- C23, the code on ids outside the recognised sets: for every block kind of
AnyBlock.hpp other than `ReferencesBlock`, `parseRecord` called with a record id
the kind has no case for returns the error "unexpected record" carrying that id,
and for every block kind, `ReferencesBlock` included, `readSubBlock` called with
a sub-block id the kind has no case for (or whose case is compiled out for the
kind) returns the error "unexpected sub-block" carrying that id; in both cases
the decoded state of the block is unchanged.  `ReferencesBlock::parseRecord`
has no case on the id and makes no such error: whatever the id, it returns
success and appends the reference read when `br_.readBlock(B, ID)` succeeds,
and returns the outcome of that call, the container unchanged, when it does
not. -/
theorem closed_block_format (c : Codec) (R : List Nat) (Blob : Str) (items : List Item) :
    ((∀ (B : VersionBlock) (ID : RecordId), ID ∉ VersionBlock.records →
        VersionBlock.parseRecord c B ID R Blob = (.failed (.unexpectedRecord ID), B)) ∧
      (∀ (B : VersionBlock) (ID : BlockId),
        VersionBlock.readSubBlock B ID = (.failed (.unexpectedSubBlock ID), B))) ∧
    ((∀ (B : ReferenceBlock) (ID : RecordId), ID ∉ ReferenceBlock.records →
        ReferenceBlock.parseRecord c B ID R Blob = (.failed (.unexpectedRecord ID), B)) ∧
      (∀ (B : ReferenceBlock) (ID : BlockId),
        ReferenceBlock.readSubBlock B ID = (.failed (.unexpectedSubBlock ID), B))) ∧
    ((∀ (readBlock : RecordId → Res ReferenceBlock) (C_ : List Reference) (ID : RecordId),
        ((readBlock ID).1 = .ok →
          ReferencesBlock.parseRecord readBlock C_ ID
            = (.ok, C_ ++ [(readBlock ID).2.I])) ∧
        ((readBlock ID).1 ≠ .ok →
          ReferencesBlock.parseRecord readBlock C_ ID = ((readBlock ID).1, C_))) ∧
      (∀ (C_ : List Reference) (ID : BlockId),
        ReferencesBlock.readSubBlock C_ ID = (.failed (.unexpectedSubBlock ID), C_))) ∧
    ((∀ (J : NodeLog) (ID : RecordId), ID ∉ JavadocNodesBlock.records →
        JavadocNodesBlock.parseRecord c J ID R Blob = (.failed (.unexpectedRecord ID), J)) ∧
      (∀ (J : NodeLog) (ID : BlockId), ID ∉ JavadocNodesBlock.blocks →
        JavadocNodesBlock.readSubBlock c J ID items = (.failed (.unexpectedSubBlock ID), J))) ∧
    ((∀ (J : NodeLog) (ID : RecordId),
        JavadocBlock.parseRecord J ID = (.failed (.unexpectedRecord ID), J)) ∧
      (∀ (J : NodeLog) (ID : BlockId), ID ∉ JavadocBlock.blocks →
        JavadocBlock.readSubBlock c J ID items = (.failed (.unexpectedSubBlock ID), J))) ∧
    ((∀ (I : Info) (ID : RecordId), ID ∉ InfoPartBlock.records →
        InfoPartBlock.parseRecord c I ID R Blob = (.failed (.unexpectedRecord ID), I)) ∧
      (∀ (I : Info) (ID : BlockId), ID ∉ InfoPartBlock.blocks →
        InfoPartBlock.readSubBlock c I ID items = (.failed (.unexpectedSubBlock ID), I))) ∧
    ((∀ (I : SymbolInfo) (ID : RecordId), ID ∉ SymbolPartBlock.records →
        SymbolPartBlock.parseRecord c I ID R Blob = (.failed (.unexpectedRecord ID), I)) ∧
      (∀ (I : SymbolInfo) (ID : BlockId),
        SymbolPartBlock.readSubBlock I ID = (.failed (.unexpectedSubBlock ID), I))) ∧
    ((∀ (B : TypeBlock) (ID : RecordId),
        TypeBlock.parseRecord B ID = (.failed (.unexpectedRecord ID), B)) ∧
      (∀ (B : TypeBlock) (ID : BlockId), ID ∉ TypeBlock.blocks →
        TypeBlock.readSubBlock c B ID items = (.failed (.unexpectedSubBlock ID), B))) ∧
    ((∀ (B : FieldTypeBlock) (ID : RecordId), ID ∉ FieldTypeBlock.records →
        FieldTypeBlock.parseRecord c B ID R Blob = (.failed (.unexpectedRecord ID), B)) ∧
      (∀ (B : FieldTypeBlock) (ID : BlockId), ID ∉ FieldTypeBlock.blocks →
        FieldTypeBlock.readSubBlock c B ID items = (.failed (.unexpectedSubBlock ID), B))) ∧
    ((∀ (I : MemberTypeInfo) (ID : RecordId), ID ∉ MemberTypeBlock.records →
        MemberTypeBlock.parseRecord c I ID R Blob = (.failed (.unexpectedRecord ID), I)) ∧
      (∀ (I : MemberTypeInfo) (ID : BlockId), ID ∉ MemberTypeBlock.blocks →
        MemberTypeBlock.readSubBlock c I ID items = (.failed (.unexpectedSubBlock ID), I))) ∧
    ((∀ (I : BaseRecordInfo) (ID : RecordId), ID ∉ BaseRecordBlock.records →
        BaseRecordBlock.parseRecord c I ID R Blob = (.failed (.unexpectedRecord ID), I)) ∧
      (∀ (I : BaseRecordInfo) (ID : BlockId), ID ∉ BaseRecordBlock.blocks →
        BaseRecordBlock.readSubBlock c I ID items = (.failed (.unexpectedSubBlock ID), I))) ∧
    ((∀ (I : TemplateSpecializationInfo) (ID : RecordId),
        ID ∉ TemplateSpecializationBlock.records →
        TemplateSpecializationBlock.parseRecord c I ID R Blob
          = (.failed (.unexpectedRecord ID), I)) ∧
      (∀ (I : TemplateSpecializationInfo) (ID : BlockId),
        ID ∉ TemplateSpecializationBlock.blocks →
        TemplateSpecializationBlock.readSubBlock c I ID items
          = (.failed (.unexpectedSubBlock ID), I))) ∧
    ((∀ (I : TemplateInfo) (ID : RecordId), ID ∉ TemplateBlock.records →
        TemplateBlock.parseRecord c I ID R Blob = (.failed (.unexpectedRecord ID), I)) ∧
      (∀ (I : TemplateInfo) (ID : BlockId), ID ∉ TemplateBlock.blocks →
        TemplateBlock.readSubBlock c I ID items = (.failed (.unexpectedSubBlock ID), I))) ∧
    ((∀ (I : NamespaceInfo) (ID : RecordId),
        NamespaceBlock.parseRecord I ID = (.failed (.unexpectedRecord ID), I)) ∧
      (∀ (I : NamespaceInfo) (ID : BlockId), ID ∉ NamespaceBlock.blocks →
        NamespaceBlock.readSubBlock c I ID items = (.failed (.unexpectedSubBlock ID), I))) ∧
    ((∀ (I : RecordInfo) (ID : RecordId), ID ∉ RecordBlock.records →
        RecordBlock.parseRecord c I ID R Blob = (.failed (.unexpectedRecord ID), I)) ∧
      (∀ (I : RecordInfo) (ID : BlockId), ID ∉ RecordBlock.blocks →
        RecordBlock.readSubBlock c I ID items = (.failed (.unexpectedSubBlock ID), I))) ∧
    ((∀ (I : FunctionInfo) (ID : RecordId), ID ∉ FunctionBlock.records →
        FunctionBlock.parseRecord c I ID R Blob = (.failed (.unexpectedRecord ID), I)) ∧
      (∀ (I : FunctionInfo) (ID : BlockId), ID ∉ FunctionBlock.blocks →
        FunctionBlock.readSubBlock c I ID items = (.failed (.unexpectedSubBlock ID), I))) ∧
    ((∀ (I : TypedefInfo) (ID : RecordId), ID ∉ TypedefBlock.records →
        TypedefBlock.parseRecord c I ID R Blob = (.failed (.unexpectedRecord ID), I)) ∧
      (∀ (I : TypedefInfo) (ID : BlockId), ID ∉ TypedefBlock.blocks →
        TypedefBlock.readSubBlock c I ID items = (.failed (.unexpectedSubBlock ID), I))) ∧
    ((∀ (I : EnumInfo) (ID : RecordId),
        EnumBlock.parseRecord I ID = (.failed (.unexpectedRecord ID), I)) ∧
      (∀ (I : EnumInfo) (ID : BlockId), ID ∉ symbolBlocks →
        EnumBlock.readSubBlock c I ID items = (.failed (.unexpectedSubBlock ID), I))) ∧
    ((∀ (I : VariableInfo) (ID : RecordId),
        VariableBlock.parseRecord I ID = (.failed (.unexpectedRecord ID), I)) ∧
      (∀ (I : VariableInfo) (ID : BlockId), ID ∉ symbolBlocks →
        VariableBlock.readSubBlock c I ID items = (.failed (.unexpectedSubBlock ID), I))) := by
  refine ⟨⟨?_, fun _ _ => rfl⟩, ⟨?_, fun _ _ => rfl⟩,
    ⟨referencesBlock_parseRecord_eq, fun _ _ => rfl⟩, ⟨?_, ?_⟩,
    ⟨fun _ _ => rfl, ?_⟩, ⟨?_, ?_⟩, ⟨?_, fun _ _ => rfl⟩, ⟨fun _ _ => rfl, ?_⟩, ⟨?_, ?_⟩,
    ⟨?_, ?_⟩, ⟨?_, ?_⟩, ⟨?_, ?_⟩, ⟨?_, ?_⟩, ⟨fun _ _ => rfl, ?_⟩, ⟨?_, ?_⟩, ⟨?_, ?_⟩,
    ⟨?_, ?_⟩, ⟨fun _ _ => rfl, ?_⟩, ⟨fun _ _ => rfl, ?_⟩⟩
  all_goals
    intro st ID hID
    cases ID <;>
      first
      | rfl
      | (exfalso; revert hID; decide)

theorem closed_block_format_witness :
    VersionBlock.parseRecord sampleCodec { V := 0 } .REFERENCE_USR [3] []
        = (.failed (.unexpectedRecord .REFERENCE_USR), { V := 0 }) ∧
      ReferenceBlock.parseRecord sampleCodec { I := emptyReference, F := .F_parent }
          (.other 9999) [3] []
        = (.failed (.unexpectedRecord (.other 9999)),
            { I := emptyReference, F := .F_parent }) ∧
      ReferenceBlock.readSubBlock { I := emptyReference, F := .F_parent } .BI_TYPE_BLOCK_ID
        = (.failed (.unexpectedSubBlock .BI_TYPE_BLOCK_ID),
            { I := emptyReference, F := .F_parent }) ∧
      ReferencesBlock.parseRecord (fun _ => readReference sampleCodec (refItems 21 "f" 3 7)) []
          (.other 9999)
        = (.ok, [] ++ [(readReference sampleCodec (refItems 21 "f" 3 7)).2.I]) ∧
      [] ++ [(readReference sampleCodec (refItems 21 "f" 3 7)).2.I]
        = [{ USR := 21, Name := bytes "f", RefType := .IT_function, Path := [] }] :=
  ⟨(closed_block_format sampleCodec [3] [] []).1.1 { V := 0 } .REFERENCE_USR (by decide),
    (closed_block_format sampleCodec [3] [] []).2.1.1 { I := emptyReference, F := .F_parent }
      (.other 9999) (by decide),
    (closed_block_format sampleCodec [3] [] []).2.1.2 { I := emptyReference, F := .F_parent }
      .BI_TYPE_BLOCK_ID,
    ((closed_block_format sampleCodec [3] [] []).2.2.1.1
      (fun _ => readReference sampleCodec (refItems 21 "f" 3 7)) [] (.other 9999)).1
      (by decide),
    by decide⟩

/-- C24: `VersionBlock::parseRecord` on a VERSION record whose value decodes to
`v` returns success if and only if `v` equals `BitcodeVersion`, and the error
"wrong ID for Version" for every other `v`; for every record id other than
VERSION it returns the error "unexpected record" with that id. -/
theorem versionBlock_parseRecord (c : Codec) (B : VersionBlock) (R : List Nat) (Blob : Str) :
    (∀ v, c.decodeUnsigned R Blob B.V = .ok v →
      ((VersionBlock.parseRecord c B .VERSION R Blob).1 = .ok ↔ v = c.BitcodeVersion) ∧
      (v ≠ c.BitcodeVersion →
        (VersionBlock.parseRecord c B .VERSION R Blob).1 = .failed .wrongVersion)) ∧
    (∀ ID, ID ≠ .VERSION →
      VersionBlock.parseRecord c B ID R Blob = (.failed (.unexpectedRecord ID), B)) := by
  refine ⟨fun v hv => ?_, fun ID hID => ?_⟩
  · simp only [VersionBlock.parseRecord, hv]
    by_cases h : v = c.BitcodeVersion
    · simp [h]
    · simp [h]
  · cases ID <;> first | exact absurd rfl hID | rfl

theorem versionBlock_parseRecord_witness :
    ((VersionBlock.parseRecord sampleCodec { V := 0 } .VERSION [3] []).1 = .ok ↔
        3 = sampleCodec.BitcodeVersion) ∧
      (VersionBlock.parseRecord sampleCodec { V := 0 } .VERSION [3] []).1 = .ok ∧
      (VersionBlock.parseRecord sampleCodec { V := 0 } .VERSION [4] []).1
        = .failed .wrongVersion ∧
      VersionBlock.parseRecord sampleCodec { V := 0 } .REFERENCE_USR [3] []
        = (.failed (.unexpectedRecord .REFERENCE_USR), { V := 0 }) :=
  ⟨((versionBlock_parseRecord sampleCodec { V := 0 } [3] []).1 3 rfl).1,
    by decide,
    ((versionBlock_parseRecord sampleCodec { V := 0 } [4] []).1 4 rfl).2 (by decide),
    (versionBlock_parseRecord sampleCodec { V := 0 } [3] []).2 .REFERENCE_USR (by decide)⟩

/-- C25, the code at the failing input: a `NamespaceBlock` that reads a reference
sub-block whose reference decodes with the tag child-namespace, child-record or
child-function succeeds and appends the reference to `Children.Namespaces`,
`Children.Records` or `Children.Functions`; with the tag child-typedef it
returns the error "unexpected FieldId" and leaves the namespace unchanged,
while `insertChild` of the same template appends such a reference to
`Children.Typedefs` of a namespace. -/
theorem namespaceBlock_reference_routing (c : Codec) (I : NamespaceInfo) (items : List Item)
    (B : ReferenceBlock) (h : readReference c items = (.ok, B)) :
    (B.F = .F_child_namespace →
      NamespaceBlock.readSubBlock c I .BI_REFERENCE_BLOCK_ID items
        = (.ok, { I with Children :=
            { I.Children with Namespaces := I.Children.Namespaces ++ [B.I] } })) ∧
    (B.F = .F_child_record →
      NamespaceBlock.readSubBlock c I .BI_REFERENCE_BLOCK_ID items
        = (.ok, { I with Children :=
            { I.Children with Records := I.Children.Records ++ [B.I] } })) ∧
    (B.F = .F_child_function →
      NamespaceBlock.readSubBlock c I .BI_REFERENCE_BLOCK_ID items
        = (.ok, { I with Children :=
            { I.Children with Functions := I.Children.Functions ++ [B.I] } })) ∧
    (B.F = .F_child_typedef →
      NamespaceBlock.readSubBlock c I .BI_REFERENCE_BLOCK_ID items
        = (.failed (.wrongField .F_child_typedef), I)) ∧
    TopLevelBlock.insertChild namespaceKind I B.I .F_child_typedef
      = (.ok, { I with Children :=
          { I.Children with Typedefs := I.Children.Typedefs ++ [B.I] } }) := by
  rw [namespaceBlock_readSubBlock_reference]
  simp only [TopLevelBlock.readChild, h]
  refine ⟨fun hF => ?_, fun hF => ?_, fun hF => ?_, fun hF => ?_, rfl⟩ <;>
    simp [hF, makeWrongFieldError]

theorem namespaceBlock_reference_routing_witness :
    NamespaceBlock.readSubBlock sampleCodec emptyNamespace .BI_REFERENCE_BLOCK_ID
        (refItems 21 "T" 5 8)
      = (.failed (.wrongField .F_child_typedef), emptyNamespace) :=
  (namespaceBlock_reference_routing sampleCodec emptyNamespace (refItems 21 "T" 5 8)
    { I := { USR := 21, Name := bytes "T", RefType := .IT_typedef, Path := [] },
      F := .F_child_typedef } (by decide)).2.2.2.1 rfl

/-- C26: a `RecordBlock` that reads a reference sub-block whose reference
decodes succeeds exactly when the tag is parent, virtual-parent, child-record,
child-function or child-typedef, and then appends the reference to `Parents`,
`VirtualParents`, `Children.Records`, `Children.Functions` or
`Children.Typedefs`; the tag child-namespace gives the error "unknown type" and
every other tag the error "unexpected FieldId", the record unchanged. -/
theorem recordBlock_reference_routing (c : Codec) (I : RecordInfo) (items : List Item)
    (B : ReferenceBlock) (h : readReference c items = (.ok, B)) :
    (B.F = .F_parent →
      RecordBlock.readSubBlock c I .BI_REFERENCE_BLOCK_ID items
        = (.ok, { I with Parents := I.Parents ++ [B.I] })) ∧
    (B.F = .F_vparent →
      RecordBlock.readSubBlock c I .BI_REFERENCE_BLOCK_ID items
        = (.ok, { I with VirtualParents := I.VirtualParents ++ [B.I] })) ∧
    (B.F = .F_child_record →
      RecordBlock.readSubBlock c I .BI_REFERENCE_BLOCK_ID items
        = (.ok, { I with Children :=
            { I.Children with Records := I.Children.Records ++ [B.I] } })) ∧
    (B.F = .F_child_function →
      RecordBlock.readSubBlock c I .BI_REFERENCE_BLOCK_ID items
        = (.ok, { I with Children :=
            { I.Children with Functions := I.Children.Functions ++ [B.I] } })) ∧
    (B.F = .F_child_typedef →
      RecordBlock.readSubBlock c I .BI_REFERENCE_BLOCK_ID items
        = (.ok, { I with Children :=
            { I.Children with Typedefs := I.Children.Typedefs ++ [B.I] } })) ∧
    (B.F = .F_child_namespace →
      RecordBlock.readSubBlock c I .BI_REFERENCE_BLOCK_ID items
        = (.failed .unknownType, I)) ∧
    (B.F ∉ recordTags → B.F ≠ .F_child_namespace →
      RecordBlock.readSubBlock c I .BI_REFERENCE_BLOCK_ID items
        = (.failed (.wrongField B.F), I)) ∧
    ((RecordBlock.readSubBlock c I .BI_REFERENCE_BLOCK_ID items).1 = .ok ↔ B.F ∈ recordTags) ∧
    (B.F ∉ recordTags →
      (RecordBlock.readSubBlock c I .BI_REFERENCE_BLOCK_ID items).2 = I) := by
  simp only [RecordBlock.readSubBlock, h]
  cases hF : B.F <;>
    simp [hF, recordTags, TopLevelBlock.insertChild, recordKind, makeWrongFieldError]

theorem recordBlock_reference_routing_witness :
    RecordBlock.readSubBlock sampleCodec emptyRecord .BI_REFERENCE_BLOCK_ID (refItems 21 "T" 5 8)
        = (.ok, { emptyRecord with Children := { emptyRecord.Children with
            Typedefs := emptyRecord.Children.Typedefs ++
              [{ USR := 21, Name := bytes "T", RefType := .IT_typedef, Path := [] }] } }) ∧
      RecordBlock.readSubBlock sampleCodec emptyRecord .BI_REFERENCE_BLOCK_ID
          (refItems 33 "N" 1 5)
        = (.failed .unknownType, emptyRecord) :=
  ⟨(recordBlock_reference_routing sampleCodec emptyRecord (refItems 21 "T" 5 8)
      { I := { USR := 21, Name := bytes "T", RefType := .IT_typedef, Path := [] },
        F := .F_child_typedef } (by decide)).2.2.2.2.1 rfl,
    (recordBlock_reference_routing sampleCodec emptyRecord (refItems 33 "N" 1 5)
      { I := { USR := 33, Name := bytes "N", RefType := .IT_namespace, Path := [] },
        F := .F_child_namespace } (by decide)).2.2.2.2.2.1 rfl⟩

/-- C27: a `FunctionBlock` that reads a reference sub-block whose reference
decodes succeeds if and only if the tag is parent, and then sets `Parent` to the
reference; every other tag gives the error "unexpected FieldId" with that tag
and leaves the `FunctionInfo` unchanged. -/
theorem functionBlock_reference_routing (c : Codec) (I : FunctionInfo) (items : List Item)
    (B : ReferenceBlock) (h : readReference c items = (.ok, B)) :
    (B.F = .F_parent →
      FunctionBlock.readSubBlock c I .BI_REFERENCE_BLOCK_ID items
        = (.ok, { I with Parent := B.I })) ∧
    (B.F ≠ .F_parent →
      FunctionBlock.readSubBlock c I .BI_REFERENCE_BLOCK_ID items
        = (.failed (.wrongField B.F), I)) ∧
    ((FunctionBlock.readSubBlock c I .BI_REFERENCE_BLOCK_ID items).1 = .ok ↔ B.F = .F_parent) := by
  simp only [FunctionBlock.readSubBlock, h]
  cases hF : B.F <;> simp [hF, makeWrongFieldError]

theorem functionBlock_reference_routing_witness :
    FunctionBlock.readSubBlock sampleCodec emptyFunction .BI_REFERENCE_BLOCK_ID
          (refItems 35 "P" 2 2)
        = (.ok, { emptyFunction with
            Parent := { USR := 35, Name := bytes "P", RefType := .IT_record, Path := [] } }) ∧
      FunctionBlock.readSubBlock sampleCodec emptyFunction .BI_REFERENCE_BLOCK_ID
          (refItems 33 "N" 1 5)
        = (.failed (.wrongField .F_child_namespace), emptyFunction) :=
  ⟨(functionBlock_reference_routing sampleCodec emptyFunction (refItems 35 "P" 2 2)
      { I := { USR := 35, Name := bytes "P", RefType := .IT_record, Path := [] },
        F := .F_parent } (by decide)).1 rfl,
    (functionBlock_reference_routing sampleCodec emptyFunction (refItems 33 "N" 1 5)
      { I := { USR := 33, Name := bytes "N", RefType := .IT_namespace, Path := [] },
        F := .F_child_namespace } (by decide)).2.1 (by decide)⟩

/-- C28: the top-level blocks for Record, Function, Typedef, Enum and Variable
accept a symbol-part sub-block: they read it into the `SymbolInfo` base of the
Info, where a SYMBOL_PART_LOCDEF record sets the definition location and a
SYMBOL_PART_LOC record the declaration locations, the `Info` base staying as it
was; a `NamespaceBlock` given a symbol-part sub-block returns the error
"unexpected sub-block" with that id and leaves the `NamespaceInfo` unchanged. -/
theorem symbol_part_accepted (c : Codec) (items : List Item) :
    (∀ I : RecordInfo, RecordBlock.readSubBlock c I .BI_SYMBOL_PART_ID items
      = ((readSymbolPart c I.toSymbolInfo items).1,
          { I with toSymbolInfo := (readSymbolPart c I.toSymbolInfo items).2 })) ∧
    (∀ I : FunctionInfo, FunctionBlock.readSubBlock c I .BI_SYMBOL_PART_ID items
      = ((readSymbolPart c I.toSymbolInfo items).1,
          { I with toSymbolInfo := (readSymbolPart c I.toSymbolInfo items).2 })) ∧
    (∀ I : TypedefInfo, TypedefBlock.readSubBlock c I .BI_SYMBOL_PART_ID items
      = ((readSymbolPart c I.toSymbolInfo items).1,
          { I with toSymbolInfo := (readSymbolPart c I.toSymbolInfo items).2 })) ∧
    (∀ I : EnumInfo, EnumBlock.readSubBlock c I .BI_SYMBOL_PART_ID items
      = ((readSymbolPart c I.toSymbolInfo items).1,
          { I with toSymbolInfo := (readSymbolPart c I.toSymbolInfo items).2 })) ∧
    (∀ I : VariableInfo, VariableBlock.readSubBlock c I .BI_SYMBOL_PART_ID items
      = ((readSymbolPart c I.toSymbolInfo items).1,
          { I with toSymbolInfo := (readSymbolPart c I.toSymbolInfo items).2 })) ∧
    (∀ I : NamespaceInfo, NamespaceBlock.readSubBlock c I .BI_SYMBOL_PART_ID items
      = (.failed (.unexpectedSubBlock .BI_SYMBOL_PART_ID), I)) ∧
    (∀ (S : SymbolInfo) (R : List Nat) (Blob : Str) (v : Option Location),
      c.decodeOptLocation R Blob S.DefLoc = .ok v →
      readSymbolPart c S [.record .SYMBOL_PART_LOCDEF R Blob] = (.ok, { S with DefLoc := v })) ∧
    (∀ (S : SymbolInfo) (R : List Nat) (Blob : Str) (v : List Location),
      c.decodeLocations R Blob S.Loc = .ok v →
      readSymbolPart c S [.record .SYMBOL_PART_LOC R Blob] = (.ok, { S with Loc := v })) ∧
    (∀ S : SymbolInfo, (readSymbolPart c S items).2.toInfo = S.toInfo) := by
  refine ⟨fun I => rfl, fun I => rfl, fun I => rfl, fun I => rfl, fun I => rfl, fun I => rfl,
    fun S R Blob v hv => ?_, fun S R Blob v hv => ?_, fun S => readSymbolPart_toInfo c S items⟩
  · simp [readSymbolPart, readItems, SymbolPartBlock.parseRecord, hv, assign]
  · simp [readSymbolPart, readItems, SymbolPartBlock.parseRecord, hv, assign]

theorem symbol_part_accepted_witness :
    RecordBlock.readSubBlock sampleCodec emptyRecord .BI_SYMBOL_PART_ID sampleSymbolPart
      = (.ok, { emptyRecord with
          DefLoc := some { LineNumber := 7, Filename := bytes "a.hpp" },
          Loc := [{ LineNumber := 3, Filename := bytes "b.hpp" }] }) ∧
    NamespaceBlock.readSubBlock sampleCodec emptyNamespace .BI_SYMBOL_PART_ID sampleSymbolPart
      = (.failed (.unexpectedSubBlock .BI_SYMBOL_PART_ID), emptyNamespace) :=
  ⟨((symbol_part_accepted sampleCodec sampleSymbolPart).1 emptyRecord).trans (by decide),
    (symbol_part_accepted sampleCodec sampleSymbolPart).2.2.2.2.2.1 emptyNamespace⟩

/-- C29: child references are routed in stream order and touch only their own
list: when a `NamespaceBlock` or a `RecordBlock` reads a sequence of reference
sub-blocks with success, each of `Children.Namespaces`, `Children.Records` and
`Children.Functions` (for a record also `Children.Typedefs`, `Parents` and
`VirtualParents`) ends up equal to its initial content followed by the decoded
references that carry its tag, in the order read, and every other part of the
Info is as before; the read succeeds whenever every sub-block decodes and
carries a tag the block routes. -/
theorem child_references_in_stream_order (c : Codec) (subs : List (List Item)) :
    (∀ (I I1 : NamespaceInfo),
      NamespaceBlock.readBlock c I (subs.map (Item.block .BI_REFERENCE_BLOCK_ID)) = (.ok, I1) →
      I1.Children.Namespaces
          = I.Children.Namespaces ++ tagged .F_child_namespace (decodedRefs c subs) ∧
        I1.Children.Records
          = I.Children.Records ++ tagged .F_child_record (decodedRefs c subs) ∧
        I1.Children.Functions
          = I.Children.Functions ++ tagged .F_child_function (decodedRefs c subs) ∧
        I1.Children.Typedefs = I.Children.Typedefs ∧ I1.toInfo = I.toInfo) ∧
    (∀ (I I1 : RecordInfo),
      RecordBlock.readBlock c I (subs.map (Item.block .BI_REFERENCE_BLOCK_ID)) = (.ok, I1) →
      (I1.Children.Namespaces
          = I.Children.Namespaces ++ tagged .F_child_namespace (decodedRefs c subs) ∧
        I1.Children.Records
          = I.Children.Records ++ tagged .F_child_record (decodedRefs c subs) ∧
        I1.Children.Functions
          = I.Children.Functions ++ tagged .F_child_function (decodedRefs c subs) ∧
        I1.Children.Typedefs
          = I.Children.Typedefs ++ tagged .F_child_typedef (decodedRefs c subs) ∧
        I1.Parents = I.Parents ++ tagged .F_parent (decodedRefs c subs) ∧
        I1.VirtualParents = I.VirtualParents ++ tagged .F_vparent (decodedRefs c subs)) ∧
        I1.toSymbolInfo = I.toSymbolInfo ∧ I1.TagType = I.TagType ∧
        I1.IsTypeDef = I.IsTypeDef ∧ I1.specs = I.specs ∧ I1.Friends = I.Friends ∧
        I1.Members = I.Members ∧ I1.Bases = I.Bases ∧ I1.Template = I.Template) ∧
    (∀ (I : NamespaceInfo),
      (∀ s ∈ subs, (readReference c s).1 = .ok ∧ (readReference c s).2.F ∈ childTags) →
      (NamespaceBlock.readBlock c I (subs.map (Item.block .BI_REFERENCE_BLOCK_ID))).1 = .ok) ∧
    (∀ (I : RecordInfo),
      (∀ s ∈ subs, (readReference c s).1 = .ok ∧ (readReference c s).2.F ∈ recordTags) →
      (RecordBlock.readBlock c I (subs.map (Item.block .BI_REFERENCE_BLOCK_ID))).1 = .ok) :=
  ⟨namespaceBlock_references_fold c subs, recordBlock_references_fold c subs,
    namespaceBlock_references_ok c subs, recordBlock_references_ok c subs⟩

theorem child_references_in_stream_order_witness :
    ((NamespaceBlock.readBlock sampleCodec emptyNamespace
          (sampleChildBlocks.map (Item.block .BI_REFERENCE_BLOCK_ID))).2.Children.Functions
        = emptyNamespace.Children.Functions ++
          tagged .F_child_function (decodedRefs sampleCodec sampleChildBlocks) ∧
      tagged .F_child_function (decodedRefs sampleCodec sampleChildBlocks)
        = [{ USR := 31, Name := bytes "f", RefType := .IT_function, Path := [] },
            { USR := 34, Name := bytes "g", RefType := .IT_function, Path := [] }]) ∧
    ((RecordBlock.readBlock sampleCodec emptyRecord
          (sampleRecordBlocks.map (Item.block .BI_REFERENCE_BLOCK_ID))).2.Parents
        = emptyRecord.Parents ++ tagged .F_parent (decodedRefs sampleCodec sampleRecordBlocks) ∧
      tagged .F_parent (decodedRefs sampleCodec sampleRecordBlocks)
        = [{ USR := 35, Name := bytes "P", RefType := .IT_record, Path := [] }]) :=
  ⟨⟨((child_references_in_stream_order sampleCodec sampleChildBlocks).1 emptyNamespace
        (NamespaceBlock.readBlock sampleCodec emptyNamespace
          (sampleChildBlocks.map (Item.block .BI_REFERENCE_BLOCK_ID))).2 (by decide)).2.2.1,
      by decide⟩,
    ⟨((child_references_in_stream_order sampleCodec sampleRecordBlocks).2.1 emptyRecord
        (RecordBlock.readBlock sampleCodec emptyRecord
          (sampleRecordBlocks.map (Item.block .BI_REFERENCE_BLOCK_ID))).2 (by decide)).1.2.2.2.2.1,
      by decide⟩⟩

end AST

/-! ## Claims about sibling uniqueness in the index -/

/-- The ids of the children after `updateOrAppend`: the same ids when a child
has the id, the ids with the new one at the end when none has it. -/
theorem ids_updateOrAppend (id : SymbolID) (f : Index → Index) (g : Index)
    (hf : ∀ c, (f c).ref.USR = c.ref.USR) (hg : g.ref.USR = id) :
    ∀ cs : List Index, (updateOrAppend id f g cs).map (fun c => c.ref.USR) =
      if id ∈ cs.map (fun c => c.ref.USR) then cs.map (fun c => c.ref.USR)
      else cs.map (fun c => c.ref.USR) ++ [id]
  | [] => by simp [updateOrAppend, hg]
  | d :: ds => by
    simp only [updateOrAppend]
    by_cases hd : d.ref.USR = id
    · simp [hd, hf]
    · have ih := ids_updateOrAppend id f g hf hg ds
      simp only [hd, if_false, List.map_cons, ih, List.mem_cons]
      have hd2 : ¬ id = d.ref.USR := fun h => hd h.symm
      by_cases hm : id ∈ ds.map (fun c => c.ref.USR)
      · simp [hm]
      · simp [hm, hd2]

/-- `updateOrAppend` keeps the ids of the children distinct. -/
theorem nodup_updateOrAppend (id : SymbolID) (f : Index → Index) (g : Index)
    (hf : ∀ c, (f c).ref.USR = c.ref.USR) (hg : g.ref.USR = id) (cs : List Index)
    (h : (cs.map (fun c => c.ref.USR)).Nodup) :
    ((updateOrAppend id f g cs).map (fun c => c.ref.USR)).Nodup := by
  rw [ids_updateOrAppend id f g hf hg]
  by_cases hm : id ∈ cs.map (fun c => c.ref.USR)
  · simpa [hm] using h
  · simp only [hm, if_false]
    rw [List.nodup_append]
    exact ⟨h, List.nodup_singleton _, by
      intro a ha hb
      rw [List.mem_singleton] at hb
      exact hm (hb ▸ ha)⟩

/-- `updateOrAppend` keeps the children free of repeated sibling ids when the work
on the child found and the node added do. -/
theorem allSiblingsUnique_updateOrAppend (id : SymbolID) (f : Index → Index) (g : Index)
    (hf : ∀ c, c.siblingsUnique = true → (f c).siblingsUnique = true)
    (hg : g.siblingsUnique = true) :
    ∀ cs : List Index, allSiblingsUnique cs = true →
      allSiblingsUnique (updateOrAppend id f g cs) = true
  | [], _ => by simp [updateOrAppend, allSiblingsUnique, hg]
  | d :: ds, h => by
    simp only [allSiblingsUnique, Bool.and_eq_true] at h
    simp only [updateOrAppend]
    by_cases hd : d.ref.USR = id
    · simp only [hd, if_true, allSiblingsUnique, Bool.and_eq_true]
      exact ⟨hf d h.1, h.2⟩
    · simp only [hd, if_false, allSiblingsUnique, Bool.and_eq_true]
      exact ⟨h.1, allSiblingsUnique_updateOrAppend id f g hf hg ds h.2⟩

/-- `Index.siblingsUnique` on a node. -/
theorem siblingsUnique_mk (r : Reference) (cs : List Index) :
    (Index.mk r cs).siblingsUnique = true ↔
      (cs.map (fun c => c.ref.USR)).Nodup ∧ allSiblingsUnique cs = true := by
  simp [Index.siblingsUnique]

/-- The back-fill changes no id. -/
theorem backfill_siblingsUnique (extractName : AnyInfo → Str) (I : AnyInfo) (c : Index)
    (h : c.siblingsUnique = true) : (backfill extractName I c).siblingsUnique = true := by
  cases c with
  | mk r cs =>
    rw [siblingsUnique_mk] at h
    simp only [backfill]
    rw [siblingsUnique_mk]
    exact h

/-- The end of `insertIntoIndex` keeps sibling ids distinct. -/
theorem indexLeaf_siblingsUnique (extractName : AnyInfo → Str) (I : AnyInfo) (n : Index)
    (h : n.siblingsUnique = true) : (indexLeaf extractName I n).siblingsUnique = true := by
  cases n with
  | mk r cs =>
    rw [siblingsUnique_mk] at h
    simp only [indexLeaf]
    rw [siblingsUnique_mk]
    exact ⟨nodup_updateOrAppend I.base.USR (backfill extractName I)
        (.mk { USR := I.base.USR, Name := extractName I, RefType := I.IT, Path := I.base.Path }
          []) (backfill_ref_usr extractName I) rfl cs h.1,
      allSiblingsUnique_updateOrAppend _ _ _ (backfill_siblingsUnique extractName I)
        (by simp [Index.siblingsUnique, allSiblingsUnique]) cs h.2⟩

/-- The loop of `insertIntoIndex` keeps sibling ids distinct. -/
theorem indexWalk_siblingsUnique (leafStep : Index → Index)
    (hr : ∀ n, (leafStep n).ref = n.ref)
    (hl : ∀ n, n.siblingsUnique = true → (leafStep n).siblingsUnique = true) :
    ∀ (path : List Reference) (n : Index), n.siblingsUnique = true →
      (indexWalk leafStep path n).siblingsUnique = true
  | [], n, h => by simpa [indexWalk] using hl n h
  | R :: rest, .mk r cs, h => by
    rw [siblingsUnique_mk] at h
    simp only [indexWalk]
    rw [siblingsUnique_mk]
    refine ⟨nodup_updateOrAppend R.USR (indexWalk leafStep rest)
        (indexWalk leafStep rest (.mk R [])) (fun c => ?_) ?_ cs h.1,
      allSiblingsUnique_updateOrAppend _ _ _
        (fun c hc => indexWalk_siblingsUnique leafStep hr hl rest c hc)
        (indexWalk_siblingsUnique leafStep hr hl rest (.mk R []) (by
          simp [Index.siblingsUnique, allSiblingsUnique])) cs h.2⟩
    · rw [indexWalk_ref leafStep hr]
    · rw [indexWalk_ref leafStep hr]
      rfl


/-- C31: `insertIntoIndex` preserves sibling uniqueness: if no node of the index
has two children with the same id, then after `insertIntoIndex` of any Info no
node has two children with the same id; the call returns whenever the Corpus is
not canonical; and from the empty Corpus, whose index has the property, every
sequence of inserts returns a Corpus whose index has it. -/
theorem insertIntoIndex_keeps_siblings_unique (extractName : AnyInfo → Str) :
    (∀ (C C2 : Corpus) (I : AnyInfo), C.Idx.siblingsUnique = true →
      insertIntoIndex extractName C I = some C2 → C2.Idx.siblingsUnique = true) ∧
    (∀ (C : Corpus) (I : AnyInfo), C.isCanonical_ = false →
      ∃ C2, insertIntoIndex extractName C I = some C2) ∧
    (∀ (C : Corpus) (Is : List AnyInfo), C.Idx.siblingsUnique = true → C.isCanonical_ = false →
      ∃ C2, insertAll extractName C Is = some C2 ∧ C2.Idx.siblingsUnique = true) ∧
    emptyCorpus.Idx.siblingsUnique = true ∧ emptyCorpus.isCanonical_ = false := by
  have step : ∀ (C C2 : Corpus) (I : AnyInfo), C.Idx.siblingsUnique = true →
      insertIntoIndex extractName C I = some C2 → C2.Idx.siblingsUnique = true := by
    intro C C2 I hu h
    by_cases hc : C.isCanonical_ = true
    · simp [insertIntoIndex, hc] at h
    · rw [insertIntoIndex_eq extractName C I (by simpa using hc), Option.some.injEq] at h
      rw [← h]
      exact indexWalk_siblingsUnique _ (indexLeaf_ref extractName I)
        (indexLeaf_siblingsUnique extractName I) _ _ hu
  refine ⟨step, fun C I hC => ⟨_, insertIntoIndex_eq extractName C I hC⟩, ?_, rfl, rfl⟩
  intro C Is
  induction Is generalizing C with
  | nil => exact fun hu _ => ⟨C, rfl, hu⟩
  | cons I rest ih =>
    intro hu hC
    have h2 := insert_eq extractName C I hC
    obtain ⟨C3, h3, h4⟩ := ih
      { InfoMap := infoMapInsert C.InfoMap I.base.USR I,
        Idx := indexWalk (indexLeaf extractName I) I.base.Namespace.reverse C.Idx,
        allSymbols := C.allSymbols ++ [I.base.USR],
        isCanonical_ := C.isCanonical_ }
      (indexWalk_siblingsUnique _ (indexLeaf_ref extractName I)
        (indexLeaf_siblingsUnique extractName I) _ _ hu) hC
    exact ⟨C3, by simp only [insertAll, h2]; exact h3, h4⟩

theorem insertIntoIndex_keeps_siblings_unique_witness :
    ∃ C2, insertAll ownName emptyCorpus [sampleChild, sampleParent, sampleF] = some C2 ∧
      C2.Idx.siblingsUnique = true :=
  (insertIntoIndex_keeps_siblings_unique ownName).2.2.1 emptyCorpus
    [sampleChild, sampleParent, sampleF] rfl rfl

namespace AST

/-- The status `undefined` comes from `back()` of an empty vector only. -/
theorem decodeBackContents_undefined (c : Codec) (R : List Nat) (Blob : Str)
    (Params : List TemplateParamInfo) :
    (decodeBackContents c R Blob Params).1 = .undefined ↔ Params = [] := by
  unfold decodeBackContents
  cases h : Params.getLast? with
  | none => simpa using List.getLast?_eq_none_iff.1 h
  | some p =>
    have hne : Params ≠ [] := by
      intro h0
      simp [h0] at h
    simp only [hne, iff_false]
    cases c.decodeString R Blob p.Contents <;> simp [assign]

/-- C32, the code at the failing input: a TEMPLATE_PARAM_CONTENTS record handled
by a `TemplateBlock` or a `TemplateSpecializationBlock` reaches `Params.back()`
whatever `Params` holds, and the access is undefined exactly when `Params` is
empty; so a template block whose first entry is such a record, and a
specialization block inside a template block whose first entry is such a
record, end in undefined behaviour, while the same record inside a parameter
sub-block writes the contents of the parameter just added. -/
theorem template_param_contents_back (c : Codec) (R : List Nat) (Blob : Str) :
    (∀ I : TemplateInfo,
      (TemplateBlock.parseRecord c I .TEMPLATE_PARAM_CONTENTS R Blob).1 = .undefined ↔
        I.Params = []) ∧
    (∀ I : TemplateSpecializationInfo,
      (TemplateSpecializationBlock.parseRecord c I .TEMPLATE_PARAM_CONTENTS R Blob).1
          = .undefined ↔ I.Params = []) ∧
    readTemplate c [.record .TEMPLATE_PARAM_CONTENTS R Blob]
      = (.undefined, { Params := [], Specialization := none }) ∧
    readTemplate c [.block .BI_TEMPLATE_SPECIALIZATION_BLOCK_ID
        [.record .TEMPLATE_PARAM_CONTENTS R Blob]]
      = (.undefined, { Params := [], Specialization := none }) ∧
    (∀ v, c.decodeString R Blob [] = .ok v →
      readTemplate c [.block .BI_TEMPLATE_PARAM_BLOCK_ID
          [.record .TEMPLATE_PARAM_CONTENTS R Blob]]
        = (.ok, { Params := [{ Contents := v }], Specialization := none })) := by
  refine ⟨fun I => ?_, fun I => ?_, ?_, ?_, fun v hv => ?_⟩
  · simp only [TemplateBlock.parseRecord]
    exact decodeBackContents_undefined c R Blob I.Params
  · simp only [TemplateSpecializationBlock.parseRecord]
    exact decodeBackContents_undefined c R Blob I.Params
  · simp [readTemplate, TemplateBlock.readBlock, TemplateBlock.handle,
      TemplateBlock.parseRecord, decodeBackContents]
  · simp [readTemplate, TemplateBlock.readBlock, TemplateBlock.handle,
      TemplateSpecializationBlock.readBlock, TemplateSpecializationBlock.handle,
      TemplateSpecializationBlock.parseRecord, decodeBackContents]
  · simp [readTemplate, TemplateBlock.readBlock, TemplateBlock.handle,
      TemplateBlock.parseRecord, decodeBackContents, hv, assign]

theorem template_param_contents_back_witness :
    readTemplate sampleCodec [.record .TEMPLATE_PARAM_CONTENTS [] (bytes "class T")]
        = (.undefined, { Params := [], Specialization := none }) ∧
      readTemplate sampleCodec [.block .BI_TEMPLATE_PARAM_BLOCK_ID
          [.record .TEMPLATE_PARAM_CONTENTS [] (bytes "class T")]]
        = (.ok, { Params := [{ Contents := bytes "class T" }], Specialization := none }) :=
  ⟨(template_param_contents_back sampleCodec [] (bytes "class T")).2.2.1,
    (template_param_contents_back sampleCodec [] (bytes "class T")).2.2.2.2
      (bytes "class T") rfl⟩

end AST

/-! ## Claims about the termination of the canonicalize walk -/

/-- An object found under an id is an entry of the map. -/
theorem mem_of_infoMapFind : ∀ (m : InfoMap) (id : SymbolID) (v : AnyInfo),
    infoMapFind m id = some v → (id, v) ∈ m
  | [], _, _, h => by simp [infoMapFind] at h
  | (k, w) :: rest, id, v, h => by
    simp only [infoMapFind] at h
    by_cases hk : k = id
    · simp only [hk, if_true, Option.some.injEq] at h
      simp [hk, h]
    · simp only [hk, if_false] at h
      exact List.mem_cons_of_mem _ (mem_of_infoMapFind rest id v h)

/-- The check `referencesResolveCheck` is sound. -/
theorem referencesResolve_of_check (m : InfoMap) (h : referencesResolveCheck m = true) :
    ReferencesResolve m := by
  intro i I hI
  have hmem := mem_of_infoMapFind m i _ (findNamespace_eq_some hI)
  have := (List.all_eq_true.1 h) _ hmem
  simp only [Bool.and_eq_true, List.all_eq_true] at this
  exact ⟨this.1.1, this.1.2, this.2⟩

/-- A rank that falls along every child-namespace reference excludes cycles. -/
theorem acyclic_of_rank (rank : SymbolID → Nat) (m : InfoMap)
    (h : ∀ i j, ChildNamespace m i j → rank j < rank i) : AcyclicNamespaces m := by
  have key : ∀ i j, Relation.TransGen (ChildNamespace m) i j → rank j < rank i := by
    intro i j hij
    induction hij with
    | single h1 => exact h _ _ h1
    | tail _ h2 ih => exact lt_trans (h _ _ h2) ih
  intro i hi
  exact lt_irrefl _ (key i i hi)

/-- The check `rankCheck` is sound. -/
theorem acyclic_of_rankCheck (rank : SymbolID → Nat) (m : InfoMap)
    (h : rankCheck rank m = true) : AcyclicNamespaces m := by
  apply acyclic_of_rank rank
  rintro i j ⟨I, r, hI, hr, rfl⟩
  have hmem := mem_of_infoMapFind m i _ (findNamespace_eq_some hI)
  have := (List.all_eq_true.1 h) _ hmem
  simp only [List.all_eq_true, decide_eq_true_eq] at this
  exact this r hr

/-- More fuel does not change a result of the loop over the child namespaces. -/
theorem forNamespaces_mono (f g : InfoMap → SymbolID → Option (Bool × InfoMap))
    (hfg : ∀ m id x, f m id = some x → g m id = some x) :
    ∀ (l : List Reference) (m : InfoMap) (x : Bool × InfoMap),
      forNamespaces f m l = some x → forNamespaces g m l = some x
  | [], m, x, h => by simpa [forNamespaces] using h
  | r :: rest, m, x, h => by
    simp only [forNamespaces] at h ⊢
    cases hf : f m r.USR with
    | none => simp [hf] at h
    | some y =>
      rw [hfg m r.USR y hf]
      rw [hf] at h
      rcases y with ⟨b, m1⟩
      cases b with
      | false => simpa using h
      | true =>
        simp only at h ⊢
        exact forNamespaces_mono f g hfg rest m1 x h

/-- More fuel does not change a result of `canonicalizeNamespace`. -/
theorem canonicalizeNamespace_succ (fqn : Info → Str) :
    ∀ (fuel : Nat) (m : InfoMap) (id : SymbolID) (x : Bool × InfoMap),
      canonicalizeNamespace fqn fuel m id = some x →
      canonicalizeNamespace fqn (fuel + 1) m id = some x
  | 0, m, id, x, h => by simp [canonicalizeNamespace] at h
  | fuel + 1, m, id, x, h => by
    rw [canonicalizeNamespace] at h ⊢
    cases hI : findNamespace m id with
    | none => simp [hI] at h
    | some I =>
      cases hns : sortReferences fqn m I.Children.Namespaces with
      | none => simp [hI, hns] at h
      | some ns =>
        cases hrs : sortReferences fqn m I.Children.Records with
        | none => simp [hI, hns, hrs] at h
        | some rs =>
          cases hfs : sortReferences fqn m I.Children.Functions with
          | none => simp [hI, hns, hrs, hfs] at h
          | some fs =>
            simp only [hI, hns, hrs, hfs] at h ⊢
            cases hfor : forNamespaces (canonicalizeNamespace fqn fuel)
                (infoMapSet m id (.ofNamespace (setChildLists I ns rs fs))) ns with
            | none => simp [hfor] at h
            | some y =>
              rw [forNamespaces_mono _ _ (canonicalizeNamespace_succ fqn fuel) ns _ y hfor]
              rw [hfor] at h
              exact h

/-- A result of `canonicalizeNamespace` stays the result with any larger fuel. -/
theorem canonicalizeNamespace_mono (fqn : Info → Str) (m : InfoMap) (id : SymbolID)
    (x : Bool × InfoMap) (f g : Nat) (hfg : f ≤ g)
    (h : canonicalizeNamespace fqn f m id = some x) :
    canonicalizeNamespace fqn g m id = some x := by
  induction hfg with
  | refl => exact h
  | step _ ih => exact canonicalizeNamespace_succ fqn _ m id x ih

/-- An id under which an object is found is a key of the map. -/
theorem mem_keys_of_infoMapFind (m : InfoMap) (id : SymbolID) (v : AnyInfo)
    (h : infoMapFind m id = some v) : id ∈ m.map Prod.fst :=
  List.mem_map.2 ⟨(id, v), mem_of_infoMapFind m id v h, rfl⟩

/-- An acyclic child-namespace relation whose references resolve is well
founded: the map holds finitely many namespaces. -/
theorem childNamespace_wf (m : InfoMap) (hres : ReferencesResolve m)
    (hac : AcyclicNamespaces m) :
    WellFounded (fun j i => ChildNamespace m i j) := by
  haveI : IsStrictOrder SymbolID (Relation.TransGen (fun j i => ChildNamespace m i j)) :=
    { irrefl := fun a h => hac a (Relation.transGen_swap.1 h)
      trans := fun _ _ _ => Relation.TransGen.trans }
  have hfin : ({k | k ∈ m.map Prod.fst} : Set SymbolID).Finite := List.finite_toSet _
  have hwf := Set.wellFoundedOn_iff.1
    (hfin.wellFoundedOn (r := Relation.TransGen (fun j i => ChildNamespace m i j)))
  refine Subrelation.wf ?_ hwf
  rintro j i ⟨I, r, hI, hr, rfl⟩
  refine ⟨Relation.TransGen.single ⟨I, r, hI, hr, rfl⟩, ?_, ?_⟩
  · have h1 := (hres i I hI).1 r hr
    cases h2 : findNamespace m r.USR with
    | none => simp [h2] at h1
    | some J => exact mem_keys_of_infoMapFind m _ _ (findNamespace_eq_some h2)
  · exact mem_keys_of_infoMapFind m _ _ (findNamespace_eq_some hI)


/-- Related maps hold the same ids. -/
theorem mapRel_isSome {m1 m2 : InfoMap} (h : MapRel m1 m2) (j : SymbolID)
    (hj : (infoMapFind m1 j).isSome = true) : (infoMapFind m2 j).isSome = true := by
  rcases h j with ⟨h1, _⟩ | ⟨a, b, _, h2, _⟩
  · simp [h1] at hj
  · simp [h2]

/-- A record of a map is a record of every related map. -/
theorem mapRel_getRecord {m1 m2 : InfoMap} (h : MapRel m1 m2) (j : SymbolID)
    (hj : (getRecord m1 j).isSome = true) : (getRecord m2 j).isSome = true := by
  unfold getRecord at hj ⊢
  rcases h j with ⟨h1, _⟩ | ⟨a, b, h1, h2, hab⟩
  · simp [h1] at hj
  · rw [h1] at hj
    rw [h2]
    rcases hab with rfl | ⟨I, J, rfl, rfl, _⟩
    · exact hj
    · simp at hj

/-- A function of a map is a function of every related map. -/
theorem mapRel_getFunction {m1 m2 : InfoMap} (h : MapRel m1 m2) (j : SymbolID)
    (hj : (getFunction m1 j).isSome = true) : (getFunction m2 j).isSome = true := by
  unfold getFunction at hj ⊢
  rcases h j with ⟨h1, _⟩ | ⟨a, b, h1, h2, hab⟩
  · simp [h1] at hj
  · rw [h1] at hj
    rw [h2]
    rcases hab with rfl | ⟨I, J, rfl, rfl, _⟩
    · exact hj
    · simp at hj

/-- A namespace that is found is in the map. -/
theorem findNamespace_isSome_find {m : InfoMap} {j : SymbolID}
    (h : (findNamespace m j).isSome = true) : (infoMapFind m j).isSome = true := by
  cases h2 : findNamespace m j with
  | none => simp [h2] at h
  | some J => simp [findNamespace_eq_some h2]

/-- A record that is found is in the map. -/
theorem getRecord_isSome_find {m : InfoMap} {j : SymbolID}
    (h : (getRecord m j).isSome = true) : (infoMapFind m j).isSome = true := by
  unfold getRecord at h
  cases h2 : infoMapFind m j with
  | none => simp [h2] at h
  | some a => rfl

/-- A function that is found is in the map. -/
theorem getFunction_isSome_find {m : InfoMap} {j : SymbolID}
    (h : (getFunction m j).isSome = true) : (infoMapFind m j).isSome = true := by
  unfold getFunction at h
  cases h2 : infoMapFind m j with
  | none => simp [h2] at h
  | some a => rfl

/-- The loop over the records returns success when every record resolves. -/
theorem forRecords_of_resolve (m : InfoMap) : ∀ (l : List Reference),
    (∀ r ∈ l, (getRecord m r.USR).isSome = true) → forRecords m l = some true
  | [], _ => rfl
  | r :: rest, h => by
    simp only [forRecords, canonicalizeRecord, if_true]
    cases hg : getRecord m r.USR with
    | none =>
      have := h r (List.mem_cons_self _ _)
      simp [hg] at this
    | some I =>
      exact forRecords_of_resolve m rest (fun t ht => h t (List.mem_cons_of_mem _ ht))

/-- The loop over the functions returns success when every function resolves. -/
theorem forFunctions_of_resolve (m : InfoMap) : ∀ (l : List Reference),
    (∀ r ∈ l, (getFunction m r.USR).isSome = true) → forFunctions m l = some true
  | [], _ => rfl
  | r :: rest, h => by
    simp only [forFunctions, canonicalizeFunction, if_true]
    cases hg : getFunction m r.USR with
    | none =>
      have := h r (List.mem_cons_self _ _)
      simp [hg] at this
    | some I =>
      exact forFunctions_of_resolve m rest (fun t ht => h t (List.mem_cons_of_mem _ ht))

/-- The sort of a list returns when every reference of it is in the map. -/
theorem sortReferences_of_resolve (fqn : Info → Str) (m : InfoMap) (l : List Reference)
    (h : ∀ r ∈ l, (infoMapFind m r.USR).isSome = true) :
    sortReferences fqn m l = some (stdSort (refCompare fqn m) l) := by
  unfold sortReferences
  rw [if_pos (Or.inr (List.all_eq_true.2 h))]

/-- The loop over the child namespaces returns success when each call in it does,
on every map that the walk can have made of `m`. -/
theorem forNamespaces_terminates (fqn : Info → Str) (m : InfoMap) :
    ∀ (l : List Reference),
      (∀ r ∈ l, ∀ m1, MapRel m m1 →
        ∃ f m2, canonicalizeNamespace fqn f m1 r.USR = some (true, m2)) →
      ∀ m1, MapRel m m1 →
        ∃ f m2, forNamespaces (canonicalizeNamespace fqn f) m1 l = some (true, m2) ∧
          MapRel m m2
  | [], _, m1, h1 => ⟨0, m1, rfl, h1⟩
  | r :: rest, h, m1, h1 => by
    obtain ⟨f1, m2, h2⟩ := h r (List.mem_cons_self _ _) m1 h1
    have h3 : MapRel m m2 :=
      mapRel_trans h1 (canonicalizeNamespace_spec fqn f1 m1 r.USR true m2 h2).2.1.1
    obtain ⟨f2, m3, h4, h5⟩ := forNamespaces_terminates fqn m rest
      (fun t ht => h t (List.mem_cons_of_mem _ ht)) m2 h3
    refine ⟨max f1 f2, m3, ?_, h5⟩
    simp only [forNamespaces]
    rw [canonicalizeNamespace_mono fqn m1 r.USR _ f1 (max f1 f2) (le_max_left _ _) h2]
    exact forNamespaces_mono _ _
      (fun m id x hx => canonicalizeNamespace_mono fqn m id x f2 (max f1 f2)
        (le_max_right _ _) hx) rest m2 _ h4

/-- The walk from a namespace of the map returns success, on every map that the
walk can have made of `m` before. -/
theorem canonicalizeNamespace_terminates (fqn : Info → Str) (m : InfoMap)
    (hres : ReferencesResolve m) (hac : AcyclicNamespaces m) (id : SymbolID) :
    (findNamespace m id).isSome = true → ∀ m1, MapRel m m1 →
      ∃ f m2, canonicalizeNamespace fqn f m1 id = some (true, m2) := by
  induction id using (childNamespace_wf m hres hac).induction with
  | _ id ih =>
    intro hid m1 h1
    cases hI0 : findNamespace m id with
    | none => simp [hI0] at hid
    | some I0 =>
      obtain ⟨I, hI, _, pn, pr, pf, _, _⟩ := mapRel_findNamespace_fwd h1 hI0
      obtain ⟨rn, rr, rf⟩ := hres id I0 hI0
      have hns := sortReferences_of_resolve fqn m1 I.Children.Namespaces (fun r hr =>
        mapRel_isSome h1 _ (findNamespace_isSome_find (rn r (pn.subset hr))))
      have hrs := sortReferences_of_resolve fqn m1 I.Children.Records (fun r hr =>
        mapRel_isSome h1 _ (getRecord_isSome_find (rr r (pr.subset hr))))
      have hfs := sortReferences_of_resolve fqn m1 I.Children.Functions (fun r hr =>
        mapRel_isSome h1 _ (getFunction_isSome_find (rf r (pf.subset hr))))
      have hset := (sortStep_set fqn m1 id I _ _ _ hI hns hrs hfs).1.1
      obtain ⟨f, m2, h2, h3⟩ := forNamespaces_terminates fqn m
        (stdSort (refCompare fqn m1) I.Children.Namespaces)
        (fun r hr m3 h4 => ih r.USR
          ⟨I0, r, hI0, pn.subset ((stdSort_perm _ _).subset hr), rfl⟩
          (rn r (pn.subset ((stdSort_perm _ _).subset hr))) m3 h4)
        _ (mapRel_trans h1 hset)
      refine ⟨f + 1, m2, ?_⟩
      rw [canonicalizeNamespace]
      simp only [hI, hns, hrs, hfs, h2]
      rw [forRecords_of_resolve m2 _ (fun r hr =>
        mapRel_getRecord h3 _ (rr r (pr.subset ((stdSort_perm _ _).subset hr))))]
      simp only
      rw [forFunctions_of_resolve m2 _ (fun r hr =>
        mapRel_getFunction h3 _ (rf r (pf.subset ((stdSort_perm _ _).subset hr))))]
      simp [canonicalizeEnum, canonicalizeTypedef]

/-- C33: the recursive canonicalize walk terminates and every lookup in it
succeeds: for every Corpus that contains the global namespace, in which every
reference in the `Namespaces`, `Records` and `Functions` lists of a namespace
resolves in the map to an Info of the matching kind, and whose child-namespace
relation is acyclic, there is a recursion depth from which on `canonicalize`
returns, and it returns success with one and the same Corpus. -/
theorem canonicalize_terminates (fqn : Info → Str) (C : Corpus)
    (hg : (findNamespace C.InfoMap EmptySID).isSome = true)
    (hres : ReferencesResolve C.InfoMap) (hac : AcyclicNamespaces C.InfoMap) :
    ∃ fuel0 C2, ∀ fuel, fuel0 ≤ fuel → canonicalize fqn fuel C = some (true, C2) := by
  by_cases hc : C.isCanonical_ = true
  · exact ⟨0, C, fun fuel _ => by simp [canonicalize, hc]⟩
  · obtain ⟨f, m2, h2⟩ := canonicalizeNamespace_terminates fqn C.InfoMap hres hac EmptySID hg
      C.InfoMap (mapRel_refl _)
    refine ⟨f, { C with InfoMap := m2, isCanonical_ := true }, fun fuel hf => ?_⟩
    cases hG : findNamespace C.InfoMap EmptySID with
    | none => simp [hG] at hg
    | some G =>
      simp [canonicalize, hc, hG,
        canonicalizeNamespace_mono fqn C.InfoMap EmptySID _ f fuel hf h2]

theorem canonicalize_terminates_witness :
    ∃ fuel0 C2, ∀ fuel, fuel0 ≤ fuel →
      canonicalize dottedName fuel (sampleCorpus []) = some (true, C2) :=
  canonicalize_terminates dottedName (sampleCorpus []) (by decide)
    (referencesResolve_of_check _ (by decide))
    (acyclic_of_rankCheck (fun i => if i = 0 then 1 else 0) _ (by decide))

/-! ## Claims about the line diff -/

namespace test_suite

theorem linesOf_cons_ne (c : Nat) (cs : Str) (hc : c ≠ 10) :
    linesOf (c :: cs) = match linesOf cs with
      | [] => [[c]]
      | l :: ls => (c :: l) :: ls := by
  rw [linesOf]
  simp [hc]

theorem linesOf_eq_nil : ∀ s : Str, linesOf s = [] ↔ s = []
  | [] => by simp [linesOf]
  | c :: cs => by
    by_cases hc : c = 10
    · simp [linesOf, hc]
    · rw [linesOf_cons_ne c cs hc]
      cases linesOf cs <;> simp

/-- The first line of a non-empty text ends before its first `'\n'`, and the
other lines are the lines of the text after that `'\n'`. -/
theorem linesOf_cons : ∀ (c : Nat) (cs : Str),
    linesOf (c :: cs) = (c :: cs).takeWhile (fun b => !(b == 10)) ::
      linesOf ((c :: cs).dropWhile (fun b => !(b == 10))).tail
  | c, [] => by
    by_cases hc : c = 10
    · simp [linesOf, hc]
    · have hb : (c == 10) = false := by simpa using hc
      simp [linesOf, hc, List.takeWhile, List.dropWhile, hb]
  | c, d :: ds => by
    by_cases hc : c = 10
    · simp [linesOf, hc]
    · have hb : (c == 10) = false := by simpa using hc
      rw [linesOf_cons_ne c _ hc, linesOf_cons d ds]
      simp only [List.takeWhile_cons (a := c), List.dropWhile_cons (x := c), hb, Bool.not_false,
        if_true]

theorem firstIndex_some (p : Nat → Bool) : ∀ (s : Str) (i k : Nat),
    firstIndex p s i = some k →
      k = i + (s.takeWhile (fun b => !p b)).length ∧
        (s.takeWhile (fun b => !p b)).length < s.length
  | [], _, _, h => by simp [firstIndex] at h
  | c :: cs, i, k, h => by
    simp only [firstIndex] at h
    by_cases hc : p c = true
    · simp only [hc, if_true, Option.some.injEq] at h
      simp [List.takeWhile_cons, hc, h]
    · simp only [hc] at h
      have := firstIndex_some p cs (i + 1) k h
      simp only [Bool.not_eq_true] at hc
      simp only [List.takeWhile_cons, hc, Bool.not_false, if_true, List.length_cons]
      omega

theorem firstIndex_none (p : Nat → Bool) : ∀ (s : Str) (i : Nat),
    firstIndex p s i = none → s.takeWhile (fun b => !p b) = s
  | [], _, _ => rfl
  | c :: cs, i, h => by
    simp only [firstIndex] at h
    by_cases hc : p c = true
    · simp [hc] at h
    · simp only [hc] at h
      simp only [Bool.not_eq_true] at hc
      simp [List.takeWhile_cons, hc, firstIndex_none p cs (i + 1) h]

theorem take_length_takeWhile (q : Nat → Bool) : ∀ s : Str,
    s.take (s.takeWhile q).length = s.takeWhile q
  | [] => rfl
  | c :: cs => by
    by_cases hc : q c = true
    · simp [List.takeWhile_cons, hc, take_length_takeWhile q cs]
    · simp [List.takeWhile_cons, hc]

theorem drop_length_takeWhile (q : Nat → Bool) : ∀ s : Str,
    s.drop (s.takeWhile q).length = s.dropWhile q
  | [] => rfl
  | c :: cs => by
    by_cases hc : q c = true
    · simp [List.takeWhile_cons, List.dropWhile_cons, hc, drop_length_takeWhile q cs]
    · simp [List.takeWhile_cons, List.dropWhile_cons, hc]

/-- The loop of `splitLines` ends within `text.length() - pos` iterations and
pushes the lines of the text from `pos` on. -/
theorem splitLinesLoop_eq (text : Str) : ∀ (fuel pos : Nat) (lines : List Str),
    text.length - pos ≤ fuel →
      splitLinesLoop text fuel pos lines = some (lines ++ linesOf (text.drop pos))
  | 0, pos, lines, h => by
    have hp : ¬ pos < text.length := by omega
    have hd : text.drop pos = [] := List.drop_eq_nil_of_le (by omega)
    simp [splitLinesLoop, hp, hd, linesOf]
  | fuel + 1, pos, lines, h => by
    rw [splitLinesLoop]
    by_cases hp : pos < text.length
    · simp only [hp, if_true]
      have hs : text.drop pos ≠ [] := by
        intro h0
        have := congrArg List.length h0
        simp at this
        omega
      obtain ⟨c, cs, hcs⟩ := List.exists_cons_of_ne_nil hs
      have hlen : (text.drop pos).length = text.length - pos := List.length_drop _ _
      cases hf : find text 10 pos with
      | some p =>
        obtain ⟨hk, hlt⟩ := firstIndex_some _ _ _ _ hf
        simp only
        rw [splitLinesLoop_eq text fuel (p + 1) _ (by omega)]
        have h1 : substr text pos (p - pos)
            = (text.drop pos).takeWhile (fun b => !(b == 10)) := by
          unfold substr
          have : p - pos = ((text.drop pos).takeWhile (fun b => !(b == 10))).length := by omega
          rw [this]
          exact take_length_takeWhile _ _
        have h2 : text.drop (p + 1)
            = ((text.drop pos).dropWhile (fun b => !(b == 10))).tail := by
          rw [← drop_length_takeWhile (fun b => !(b == 10)) (text.drop pos), ← List.drop_one,
            List.drop_drop, List.drop_drop]
          congr 1
          omega
        rw [h1, h2, hcs, linesOf_cons c cs]
        simp
      | none =>
        have htw := firstIndex_none _ _ _ hf
        simp only
        rw [splitLinesLoop_eq text fuel (text.length + 1) _ (by omega)]
        have h1 : substr text pos (text.length - pos)
            = (text.drop pos).takeWhile (fun b => !(b == 10)) := by
          unfold substr
          rw [← hlen, List.take_length]
          exact htw.symm
        have h2 : text.drop (text.length + 1)
            = ((text.drop pos).dropWhile (fun b => !(b == 10))).tail := by
          rw [List.drop_eq_nil_of_le (by omega)]
          have := List.takeWhile_append_dropWhile (fun b => !(b == 10)) (text.drop pos)
          have htw2 : List.takeWhile (fun b => !(b == 10)) (text.drop pos) = text.drop pos := htw
          rw [htw2] at this
          have hnil : List.dropWhile (fun b => !(b == 10)) (text.drop pos) = [] := by
            simpa using this
          rw [hnil]
          rfl
        rw [h1, h2, hcs, linesOf_cons c cs]
        simp
    · have hd : text.drop pos = [] := List.drop_eq_nil_of_le (by omega)
      simp [hp, hd, linesOf]

/-- `splitLines` returns, and returns the lines of the text. -/
theorem splitLines_eq (text : Str) : splitLines text = some (linesOf text) := by
  unfold splitLines
  rw [splitLinesLoop_eq text text.length 0 [] (by omega)]
  simp

theorem lcsLen_zero_right (key : Str → Str) (l1 l2 : List Str) (i : Nat) :
    lcsLen key l1 l2 i 0 = 0 := by
  cases i <;> simp [lcsLen]

theorem getD_set_row (T : Table) (a a2 : Nat) (row : List Nat) (ha : a < T.length) :
    (T.set a row).getD a2 [] = if a2 = a then row else T.getD a2 [] := by
  simp only [List.getD_eq_getElem?_getD, List.getElem?_set]
  by_cases h : a = a2
  · subst h
    simp [ha]
  · have h2 : ¬ a2 = a := fun e => h e.symm
    simp [h, h2]

theorem getD_set_cell (row : List Nat) (b b2 v : Nat) (hb : b < row.length) :
    (row.set b v).getD b2 0 = if b2 = b then v else row.getD b2 0 := by
  simp only [List.getD_eq_getElem?_getD, List.getElem?_set]
  by_cases h : b = b2
  · subst h
    simp [hb]
  · have h2 : ¬ b2 = b := fun e => h e.symm
    simp [h, h2]

/-- A write into the table changes the cell written and no other cell. -/
theorem cell_setCell (T : Table) (a b v a2 b2 : Nat) (ha : a < T.length)
    (hb : b < (T.getD a []).length) :
    cell (setCell T a b v) a2 b2 = if a2 = a ∧ b2 = b then v else cell T a2 b2 := by
  unfold cell setCell
  rw [getD_set_row T a a2 _ ha]
  by_cases h : a2 = a
  · subst h
    simp only [if_true, true_and]
    exact getD_set_cell _ b b2 v hb
  · simp [h]

theorem length_setCell (T : Table) (a b v : Nat) : (setCell T a b v).length = T.length := by
  simp [setCell]

theorem row_length_setCell (T : Table) (a b v a2 : Nat) (ha : a < T.length) :
    ((setCell T a b v).getD a2 []).length = (T.getD a2 []).length := by
  unfold setCell
  rw [getD_set_row T a a2 _ ha]
  by_cases h : a2 = a
  · subst h
    simp
  · simp [h]

theorem tableInv_step (lines1 lines2 : List Str) (T : Table) (i j : Nat)
    (hi : i < lines1.length) (hj : j < lines2.length) (h : TableInv lines1 lines2 T i j) :
    TableInv lines1 lines2 (lcsStep lines1 lines2 T i j) i (j + 1) := by
  obtain ⟨h1, h2, h3, h4⟩ := h
  have ha : i + 1 < T.length := by omega
  have hb : j + 1 < (T.getD (i + 1) []).length := by
    rw [h2 (i + 1) (by omega)]
    omega
  have key : ∀ v, v = lcsLen trim_spaces lines1 lines2 (i + 1) (j + 1) →
      TableInv lines1 lines2 (setCell T (i + 1) (j + 1) v) i (j + 1) := by
    intro v hv
    refine ⟨by rw [length_setCell, h1], fun a ha2 => by
      rw [row_length_setCell T _ _ _ a ha, h2 a ha2], fun a => by
      rw [cell_setCell T _ _ _ a 0 ha hb]
      simp [h3 a], fun a b ha2 hb2 hab => ?_⟩
    rw [cell_setCell T _ _ _ a b ha hb]
    by_cases hc : a = i + 1 ∧ b = j + 1
    · rw [if_pos hc, hc.1, hc.2]
      exact hv
    · rw [if_neg hc]
      exact h4 a b ha2 hb2 (by omega)
  unfold lcsStep
  by_cases heq : trim_spaces (lines1.getD i []) = trim_spaces (lines2.getD j [])
  · rw [if_pos heq]
    apply key
    rw [lcsLen, if_pos heq, h4 i j (by omega) (by omega) (by omega)]
  · rw [if_neg heq]
    apply key
    rw [lcsLen, if_neg heq, h4 (i + 1) j (by omega) (by omega) (by omega),
      h4 i (j + 1) (by omega) (by omega) (by omega)]

theorem tableInv_row (lines1 lines2 : List Str) (i : Nat) (hi : i < lines1.length) :
    ∀ (j : Nat) (T : Table), j ≤ lines2.length → TableInv lines1 lines2 T i 0 →
      TableInv lines1 lines2
        ((List.range j).foldl (fun T j => lcsStep lines1 lines2 T i j) T) i j
  | 0, T, _, h => by simpa using h
  | j + 1, T, hj, h => by
    rw [List.range_succ, List.foldl_append]
    exact tableInv_step lines1 lines2 _ i j hi (by omega)
      (tableInv_row lines1 lines2 i hi j T (by omega) h)

theorem tableInv_next (lines1 lines2 : List Str) (T : Table) (i : Nat)
    (h : TableInv lines1 lines2 T i lines2.length) : TableInv lines1 lines2 T (i + 1) 0 := by
  obtain ⟨h1, h2, h3, h4⟩ := h
  refine ⟨h1, h2, h3, fun a b ha hb hab => ?_⟩
  by_cases hc : a ≤ i + 1
  · exact h4 a b ha hb (by omega)
  · have hb0 : b = 0 := by omega
    rw [hb0, h3 a, lcsLen_zero_right]

theorem tableInv_rows (lines1 lines2 : List Str) (T0 : Table)
    (h0 : TableInv lines1 lines2 T0 0 0) :
    ∀ (i : Nat), i ≤ lines1.length →
      TableInv lines1 lines2
        ((List.range i).foldl
          (fun T i => (List.range lines2.length).foldl
            (fun T j => lcsStep lines1 lines2 T i j) T) T0) i 0
  | 0, _ => by simpa using h0
  | i + 1, hi => by
    rw [List.range_succ, List.foldl_append]
    exact tableInv_next lines1 lines2 _ i
      (tableInv_row lines1 lines2 i (by omega) lines2.length _ (le_refl _)
        (tableInv_rows lines1 lines2 T0 h0 i (by omega)))

theorem cell_replicate (n m a b : Nat) :
    cell (List.replicate n (List.replicate m 0)) a b = 0 := by
  unfold cell
  simp only [List.getD_eq_getElem?_getD, List.getElem?_replicate]
  by_cases ha : a < n
  · simp only [ha, if_true, Option.getD_some, List.getElem?_replicate]
    by_cases hb : b < m <;> simp [hb]
  · simp [ha]

/-- Every cell of the table built by the two loops holds the recurrence. -/
theorem lcsTable_cell (lines1 lines2 : List Str) (i j : Nat) (hi : i ≤ lines1.length)
    (hj : j ≤ lines2.length) :
    cell (lcsTable lines1 lines2) i j = lcsLen trim_spaces lines1 lines2 i j := by
  have h0 : TableInv lines1 lines2
      (List.replicate (lines1.length + 1) (List.replicate (lines2.length + 1) 0)) 0 0 := by
    refine ⟨by simp, fun a ha => ?_, fun a => cell_replicate _ _ _ _, fun a b ha hb hab => ?_⟩
    · simp only [List.getD_eq_getElem?_getD, List.getElem?_replicate]
      simp [Nat.lt_succ_of_le ha]
    · rw [cell_replicate]
      rcases hab with h | ⟨h, hb0⟩
      · have : a = 0 := by omega
        subst this
        simp [lcsLen]
      · have : b = 0 := by omega
        subst this
        rw [lcsLen_zero_right]
  exact (tableInv_rows lines1 lines2 _ h0 lines1.length (le_refl _)).2.2.2 i j hi hj
    (Or.inl hi)

theorem sublist_concat_cases {s xs : List Str} {a : Str} (h : s.Sublist (xs ++ [a])) :
    s.Sublist xs ∨ ∃ s2, s = s2 ++ [a] ∧ s2.Sublist xs := by
  obtain ⟨l1, l2, rfl, h1, h2⟩ := List.sublist_append_iff.1 h
  rcases List.sublist_singleton.1 h2 with rfl | rfl
  · left
    simpa using h1
  · right
    exact ⟨l1, rfl, h1⟩

theorem dropLast_sublist_of_concat {s xs : List Str} {a : Str}
    (h : s.Sublist (xs ++ [a])) : s.dropLast.Sublist xs := by
  rcases sublist_concat_cases h with h1 | ⟨s2, rfl, h1⟩
  · exact (List.dropLast_sublist s).trans h1
  · simpa using h1

theorem isLcsLength_nil_left (key : Str → Str) (ys : List Str) :
    IsLcsLength key 0 [] ys := by
  refine ⟨⟨[], [], ⟨List.Sublist.refl _, List.nil_sublist _, rfl⟩, rfl⟩, ?_⟩
  rintro s1 s2 ⟨h1, _, _⟩
  simp [List.sublist_nil.1 h1]

theorem isLcsLength_nil_right (key : Str → Str) (xs : List Str) :
    IsLcsLength key 0 xs [] := by
  refine ⟨⟨[], [], ⟨List.nil_sublist _, List.Sublist.refl _, rfl⟩, rfl⟩, ?_⟩
  rintro s1 s2 ⟨_, h2, h3⟩
  rw [List.sublist_nil.1 h2] at h3
  have := congrArg List.length h3
  simpa using this

theorem isLcsLength_concat_eq (key : Str → Str) (n : Nat) (xs ys : List Str) (a b : Str)
    (hab : key a = key b) (h : IsLcsLength key n xs ys) :
    IsLcsLength key (n + 1) (xs ++ [a]) (ys ++ [b]) := by
  obtain ⟨⟨s1, s2, ⟨h1, h2, h3⟩, h4⟩, hmax⟩ := h
  refine ⟨⟨s1 ++ [a], s2 ++ [b], ⟨List.Sublist.append h1 (List.Sublist.refl _),
    List.Sublist.append h2 (List.Sublist.refl _), by simp [h3, hab]⟩, by simp [h4]⟩, ?_⟩
  rintro t1 t2 ⟨g1, g2, g3⟩
  have hd := hmax t1.dropLast t2.dropLast
    ⟨dropLast_sublist_of_concat g1, dropLast_sublist_of_concat g2, by
      have := congrArg List.dropLast g3
      simpa [List.map_dropLast] using this⟩
  simp only [List.length_dropLast] at hd
  omega

theorem isLcsLength_concat_ne (key : Str → Str) (n1 n2 : Nat) (xs ys : List Str) (a b : Str)
    (hab : key a ≠ key b) (h1 : IsLcsLength key n1 (xs ++ [a]) ys)
    (h2 : IsLcsLength key n2 xs (ys ++ [b])) :
    IsLcsLength key (max n1 n2) (xs ++ [a]) (ys ++ [b]) := by
  obtain ⟨⟨s1, s2, ⟨a1, a2, a3⟩, a4⟩, amax⟩ := h1
  obtain ⟨⟨u1, u2, ⟨b1, b2, b3⟩, b4⟩, bmax⟩ := h2
  constructor
  · rcases le_total n1 n2 with hle | hle
    · rw [max_eq_right hle]
      exact ⟨u1, u2, ⟨b1.trans (List.sublist_append_left _ _), b2, b3⟩, b4⟩
    · rw [max_eq_left hle]
      exact ⟨s1, s2, ⟨a1, a2.trans (List.sublist_append_left _ _), a3⟩, a4⟩
  · rintro t1 t2 ⟨g1, g2, g3⟩
    rcases sublist_concat_cases g2 with k2 | ⟨t2b, rfl, _⟩
    · exact (amax t1 t2 ⟨g1, k2, g3⟩).trans (le_max_left _ _)
    · rcases sublist_concat_cases g1 with k1 | ⟨t1b, rfl, _⟩
      · exact (bmax t1 _ ⟨k1, g2, g3⟩).trans (le_max_right _ _)
      · exfalso
        simp only [List.map_append, List.map_cons, List.map_nil] at g3
        have := List.append_inj' g3 rfl
        exact hab (by simpa using this.2)

theorem take_succ_getD2 (l : List Str) (k : Nat) (hk : k < l.length) :
    l.take (k + 1) = l.take k ++ [l.getD k []] := by
  rw [List.take_succ, List.getD_eq_getElem?_getD, List.getElem?_eq_getElem hk]
  rfl

/-- The recurrence gives the length of the longest common subsequence of the
prefixes. -/
theorem lcsLen_isLcsLength (key : Str → Str) (l1 l2 : List Str) :
    ∀ (i j : Nat), i ≤ l1.length → j ≤ l2.length →
      IsLcsLength key (lcsLen key l1 l2 i j) (l1.take i) (l2.take j) := by
  intro i
  induction i with
  | zero =>
    intro j _ _
    simp only [lcsLen, List.take_zero]
    exact isLcsLength_nil_left key _
  | succ i ihi =>
    intro j
    induction j with
    | zero =>
      intro _ _
      simp only [lcsLen, List.take_zero]
      exact isLcsLength_nil_right key _
    | succ j ihj =>
      intro hi hj
      rw [lcsLen]
      by_cases heq : key (l1.getD i []) = key (l2.getD j [])
      · rw [if_pos heq, take_succ_getD2 l1 i (by omega), take_succ_getD2 l2 j (by omega)]
        exact isLcsLength_concat_eq key _ _ _ _ _ heq (ihi j (by omega) (by omega))
      · rw [if_neg heq]
        have e1 := ihj hi (by omega)
        have e2 := ihi (j + 1) (by omega) hj
        rw [take_succ_getD2 l1 i (by omega)] at e1 ⊢
        rw [take_succ_getD2 l2 j (by omega)] at e2 ⊢
        exact isLcsLength_concat_ne key _ _ _ _ _ _ heq e1 e2

theorem not_not_isSpace : (fun b => !(fun c => !isSpace c) b) = isSpace := by
  funext b
  simp

theorem dropWhile_eq_nil_of_takeWhile (q : Nat → Bool) (s : Str) (h : s.takeWhile q = s) :
    s.dropWhile q = [] := by
  have := List.takeWhile_append_dropWhile q s
  rw [h] at this
  simpa using this

/-- `trim_spaces` trims as the specification says. -/
theorem trim_spaces_eq (s : Str) : trim_spaces s = trimSpec s := by
  unfold trim_spaces trimSpec find_first_not_of
  cases h1 : firstIndex (fun c => !isSpace c) s 0 with
  | none =>
    have := firstIndex_none _ _ _ h1
    rw [not_not_isSpace] at this
    simp [dropWhile_eq_nil_of_takeWhile isSpace s this]
  | some pos =>
    obtain ⟨hp, _⟩ := firstIndex_some _ _ _ _ h1
    rw [not_not_isSpace] at hp
    have he : s.drop pos = s.dropWhile isSpace := by
      rw [hp, Nat.zero_add]
      exact drop_length_takeWhile isSpace s
    simp only [he]
    unfold find_last_not_of
    cases h2 : firstIndex (fun c => !isSpace c) (s.dropWhile isSpace).reverse 0 with
    | none =>
      have := firstIndex_none _ _ _ h2
      rw [not_not_isSpace] at this
      simp [dropWhile_eq_nil_of_takeWhile isSpace _ this]
    | some k =>
      obtain ⟨hk, hlt⟩ := firstIndex_some _ _ _ _ h2
      rw [not_not_isSpace] at hk hlt
      simp only [Option.map_some']
      rw [← drop_length_takeWhile isSpace (s.dropWhile isSpace).reverse, List.drop_reverse,
        List.reverse_reverse]
      congr 1
      simp only [List.length_reverse] at hlt
      omega

/-- The lines of a text hold no `'\n'`, and put together, each followed by
`'\n'`, they give the text, with a `'\n'` added at the end of a text that is
not empty and does not end in one. -/
theorem linesOf_spec : ∀ text : Str,
    (∀ l ∈ linesOf text, 10 ∉ l) ∧
      ((linesOf text).map (fun l => l ++ [10])).flatten =
        if text = [] ∨ text.getLast? = some 10 then text else text ++ [10]
  | [] => by simp [linesOf]
  | c :: cs => by
    obtain ⟨ih1, ih2⟩ := linesOf_spec cs
    by_cases hc : c = 10
    · subst hc
      rw [linesOf, if_pos rfl]
      refine ⟨fun l hl => ?_, ?_⟩
      · rcases List.mem_cons.1 hl with rfl | hl
        · simp
        · exact ih1 l hl
      · simp only [List.map_cons, List.flatten_cons, List.nil_append, ih2]
        cases cs with
        | nil => simp
        | cons d ds =>
          simp only [List.getLast?_cons_cons, reduceCtorEq, false_or]
          split <;> simp
    · rw [linesOf_cons_ne c cs hc]
      cases hl : linesOf cs with
      | nil =>
        have hcs : cs = [] := (linesOf_eq_nil cs).1 hl
        subst hcs
        simp [hc, Ne.symm hc]
      | cons l ls =>
        have hcs : cs ≠ [] := fun h0 => by simp [h0, linesOf] at hl
        rw [hl] at ih1 ih2
        refine ⟨fun l2 hl2 => ?_, ?_⟩
        · rcases List.mem_cons.1 hl2 with rfl | hl2
          · intro h10
            rcases List.mem_cons.1 h10 with h | h
            · exact hc h.symm
            · exact ih1 l (List.mem_cons_self _ _) h
          · exact ih1 l2 (List.mem_cons_of_mem _ hl2)
        · obtain ⟨d, ds, rfl⟩ := List.exists_cons_of_ne_nil hcs
          simp only [List.map_cons, List.flatten_cons, List.cons_append] at ih2 ⊢
          rw [ih2]
          simp [List.getLast?_cons_cons]
          split <;> simp

/-- The first loop of the traceback ends within `i + j` iterations, at `i = 0`
or `j = 0`; every line passed is counted once; and nothing is counted as added
or removed exactly when the lines before `i` are the lines before `j`. -/
theorem tracebackLoop_spec (lines1 lines2 : List Str) (T : Table) :
    ∀ (fuel : Nat) (t : Trace), t.i + t.j ≤ fuel → t.i ≤ lines1.length →
      t.j ≤ lines2.length →
      ∃ t2, tracebackLoop lines1 lines2 T fuel t = some t2 ∧ (t2.i = 0 ∨ t2.j = 0) ∧
        t2.unmodified + t2.removed + t2.i = t.unmodified + t.removed + t.i ∧
        t2.unmodified + t2.added + t2.j = t.unmodified + t.added + t.j ∧
        t.added ≤ t2.added ∧ t.removed ≤ t2.removed ∧
        ((t2.added = t.added ∧ t2.removed = t.removed ∧ t2.i = 0 ∧ t2.j = 0) ↔
          lines1.take t.i = lines2.take t.j)
  | 0, t, h, _, _ => by
    have hi : t.i = 0 := by omega
    have hj : t.j = 0 := by omega
    refine ⟨t, by simp [tracebackLoop, hi], Or.inl hi, rfl, rfl, le_refl _, le_refl _, ?_⟩
    simp [hi, hj]
  | fuel + 1, t, h, h1, h2 => by
    rw [tracebackLoop]
    by_cases hc : 0 < t.i ∧ 0 < t.j
    · obtain ⟨hi, hj⟩ := hc
      have e1 : lines1.take t.i = lines1.take (t.i - 1) ++ [lines1.getD (t.i - 1) []] := by
        have := take_succ_getD2 lines1 (t.i - 1) (by omega)
        rwa [Nat.sub_add_cancel hi] at this
      have e2 : lines2.take t.j = lines2.take (t.j - 1) ++ [lines2.getD (t.j - 1) []] := by
        have := take_succ_getD2 lines2 (t.j - 1) (by omega)
        rwa [Nat.sub_add_cancel hj] at this
      simp only [hi, hj, and_self, if_true]
      by_cases heq : lines1.getD (t.i - 1) [] = lines2.getD (t.j - 1) []
      · simp only [heq, if_true]
        obtain ⟨t2, r1, r2, r3, r4, r5, r6, r7⟩ := tracebackLoop_spec lines1 lines2 T fuel
          { t with
            diffLines := t.diffLines ++
              [{ line := lines2.getD (t.j - 1) [], added := false, removed := false,
                 in_context := false }],
            i := t.i - 1, j := t.j - 1, unmodified := t.unmodified + 1 }
          (by simp only; omega) (by simp only; omega) (by simp only; omega)
        simp only at r3 r4 r5 r6 r7
        refine ⟨t2, r1, r2, by omega, by omega, r5, r6, ?_⟩
        rw [r7, e1, e2, heq]
        constructor
        · intro h3
          rw [h3]
        · intro h3
          exact List.append_cancel_right h3
      · simp only [heq, if_false]
        have hne : lines1.take t.i ≠ lines2.take t.j := by
          rw [e1, e2]
          intro h3
          have := List.append_inj' h3 rfl
          exact heq (by simpa using this.2)
        by_cases hg : cell T (t.i - 1) t.j ≤ cell T t.i (t.j - 1)
        · simp only [hg, if_true]
          obtain ⟨t2, r1, r2, r3, r4, r5, r6, _⟩ := tracebackLoop_spec lines1 lines2 T fuel
            { t with
              diffLines := t.diffLines ++
                [{ line := lines2.getD (t.j - 1) [], added := true, removed := false,
                   in_context := false }],
              j := t.j - 1, added := t.added + 1 }
            (by simp only; omega) (by simp only; omega) (by simp only; omega)
          simp only at r3 r4 r5 r6
          refine ⟨t2, r1, r2, by omega, by omega, by omega, r6, ?_⟩
          constructor
          · intro h3
            omega
          · intro h3
            exact absurd h3 hne
        · simp only [hg, if_false]
          obtain ⟨t2, r1, r2, r3, r4, r5, r6, _⟩ := tracebackLoop_spec lines1 lines2 T fuel
            { t with
              diffLines := t.diffLines ++
                [{ line := lines1.getD (t.i - 1) [], added := false, removed := true,
                   in_context := false }],
              i := t.i - 1, removed := t.removed + 1 }
            (by simp only; omega) (by simp only; omega) (by simp only; omega)
          simp only at r3 r4 r5 r6
          refine ⟨t2, r1, r2, by omega, by omega, r5, by omega, ?_⟩
          constructor
          · intro h3
            omega
          · intro h3
            exact absurd h3 hne
    · simp only [hc, if_false]
      refine ⟨t, rfl, by omega, rfl, rfl, le_refl _, le_refl _, ?_⟩
      constructor
      · rintro ⟨_, _, hi, hj⟩
        simp [hi, hj]
      · intro h3
        have hl := congrArg List.length h3
        simp only [List.length_take] at hl
        have : t.i = t.j := by omega
        exact ⟨rfl, rfl, by omega, by omega⟩

theorem removeRest_spec (lines1 : List Str) : ∀ (i : Nat) (t : Trace), t.i = i →
    (removeRest lines1 i t).i = 0 ∧ (removeRest lines1 i t).j = t.j ∧
      (removeRest lines1 i t).added = t.added ∧
      (removeRest lines1 i t).removed = t.removed + i ∧
      (removeRest lines1 i t).unmodified = t.unmodified ∧
      (Counted t → Counted (removeRest lines1 i t))
  | 0, t, h => ⟨h, rfl, rfl, rfl, rfl, fun hc => hc⟩
  | i + 1, t, _ => by
    obtain ⟨a, b, c, d, e, f⟩ := removeRest_spec lines1 i
      { t with
        diffLines := t.diffLines ++
          [{ line := lines1.getD i [], added := false, removed := true, in_context := false }],
        i := i, removed := t.removed + 1 } rfl
    simp only [removeRest]
    simp only at b c d e
    refine ⟨a, b, c, by omega, e, fun hc => f ?_⟩
    unfold Counted at hc ⊢
    simp only [List.countP_append, hc]
    simp [List.countP_cons]
    omega

theorem addRest_spec (lines2 : List Str) : ∀ (j : Nat) (t : Trace), t.j = j →
    (addRest lines2 j t).j = 0 ∧ (addRest lines2 j t).i = t.i ∧
      (addRest lines2 j t).added = t.added + j ∧
      (addRest lines2 j t).removed = t.removed ∧
      (addRest lines2 j t).unmodified = t.unmodified ∧
      (Counted t → Counted (addRest lines2 j t))
  | 0, t, h => ⟨h, rfl, rfl, rfl, rfl, fun hc => hc⟩
  | j + 1, t, _ => by
    obtain ⟨a, b, c, d, e, f⟩ := addRest_spec lines2 j
      { t with
        diffLines := t.diffLines ++
          [{ line := lines2.getD j [], added := true, removed := false, in_context := false }],
        j := j, added := t.added + 1 } rfl
    simp only [addRest]
    simp only at b c d e
    refine ⟨a, b, by omega, d, e, fun hc => f ?_⟩
    unfold Counted at hc ⊢
    simp only [List.countP_append, hc]
    simp [List.countP_cons]
    omega

/-- The first loop of the traceback keeps the marked diff lines as many as the
counters say. -/
theorem tracebackLoop_counted (lines1 lines2 : List Str) (T : Table) :
    ∀ (fuel : Nat) (t t2 : Trace), tracebackLoop lines1 lines2 T fuel t = some t2 →
      Counted t → Counted t2
  | 0, t, t2, h, hc => by
    simp only [tracebackLoop] at h
    split at h
    · simp at h
    · simp only [Option.some.injEq] at h
      exact h ▸ hc
  | fuel + 1, t, t2, h, hc => by
    rw [tracebackLoop] at h
    split at h
    · split at h
      · refine tracebackLoop_counted lines1 lines2 T fuel _ t2 h ?_
        unfold Counted at hc ⊢
        simp only [List.countP_append, hc]
        simp [List.countP_cons]
      · split at h
        · refine tracebackLoop_counted lines1 lines2 T fuel _ t2 h ?_
          unfold Counted at hc ⊢
          simp only [List.countP_append, hc]
          simp [List.countP_cons]
          omega
        · refine tracebackLoop_counted lines1 lines2 T fuel _ t2 h ?_
          unfold Counted at hc ⊢
          simp only [List.countP_append, hc]
          simp [List.countP_cons]
          omega
    · simp only [Option.some.injEq] at h
      exact h ▸ hc

/-- The traceback returns; every line of the two inputs is counted once; no line
is counted as added or removed exactly when the two inputs have the same
lines; and the marked diff lines are as many as the counters say. -/
theorem traceback_spec (lines1 lines2 : List Str) (T : Table) :
    ∃ t, traceback lines1 lines2 T = some t ∧
      t.unmodified + t.removed = lines1.length ∧
      t.unmodified + t.added = lines2.length ∧
      ((t.added = 0 ∧ t.removed = 0) ↔ lines1 = lines2) ∧ Counted t := by
  obtain ⟨t2, r1, r2, r3, r4, r5, r6, r7⟩ := tracebackLoop_spec lines1 lines2 T
    (lines1.length + lines2.length)
    { i := lines1.length, j := lines2.length, added := 0, removed := 0, unmodified := 0,
      diffLines := [] } (le_refl _) (le_refl _) (le_refl _)
  have hc := tracebackLoop_counted lines1 lines2 T _ _ t2 r1 (by simp [Counted])
  simp only [List.take_length] at r3 r4 r5 r6 r7
  obtain ⟨a1, a2, a3, a4, a5, a6⟩ := removeRest_spec lines1 t2.i t2 rfl
  obtain ⟨b1, b2, b3, b4, b5, b6⟩ := addRest_spec lines2 (removeRest lines1 t2.i t2).j
    (removeRest lines1 t2.i t2) rfl
  refine ⟨_, by simp only [traceback, r1], ?_, ?_, ?_, b6 (a6 hc)⟩
  · rw [b5, b4, a5, a4]
    omega
  · rw [b5, b3, a5, a3, a2]
    omega
  · rw [b3, b4, a3, a4, a2, ← r7]
    constructor
    · intro h
      omega
    · intro h
      omega

/-- No index is a modified one exactly when no diff line is marked as added or
removed. -/
theorem modifiedIndexes_eq_nil (dl : List DiffLineResult) :
    modifiedIndexes dl = [] ↔ dl.countP (fun d => d.added || d.removed) = 0 := by
  unfold modifiedIndexes
  rw [List.filter_eq_nil_iff, List.countP_eq_zero]
  constructor
  · intro h d hd
    obtain ⟨i, hi, rfl⟩ := List.getElem_of_mem hd
    have := h i (List.mem_range.2 hi)
    simpa [List.getElem?_eq_getElem hi] using this
  · intro h i hi
    rw [List.mem_range] at hi
    simpa [List.getElem?_eq_getElem hi] using h _ (List.getElem_mem hi)

/-- The loops that mark the context end unless a line is modified and
`context_size` is `SIZE_MAX`. -/
theorem markContext_isSome (context_size : Nat) (dl : List DiffLineResult) :
    (markContext context_size dl).isSome = true ↔
      (context_size < SIZE_MAX ∨ dl.countP (fun d => d.added || d.removed) = 0) := by
  unfold markContext
  rw [← modifiedIndexes_eq_nil]
  by_cases h1 : modifiedIndexes dl = []
  · simp [h1]
  · by_cases h2 : SIZE_MAX ≤ context_size
    · simp [h1, h2]
    · simp [h1, h2]
      omega

/-- `diffStrings` in terms of its stages: the lines are split, the traceback
returns, and the result is there when the marking of the context ends, with the
counters of the traceback. -/
theorem diffStrings_stages (F : DiffFormat) (str1 str2 : Str) (context_size : Nat) :
    ∃ t, traceback (linesOf str1) (linesOf str2) (lcsTable (linesOf str1) (linesOf str2))
        = some t ∧
      t.unmodified + t.removed = (linesOf str1).length ∧
      t.unmodified + t.added = (linesOf str2).length ∧
      ((t.added = 0 ∧ t.removed = 0) ↔ linesOf str1 = linesOf str2) ∧
      ((∃ r, diffStrings F str1 str2 context_size = some r) ↔
        (context_size < SIZE_MAX ∨ linesOf str1 = linesOf str2)) ∧
      ∀ r, diffStrings F str1 str2 context_size = some r →
        r.added = t.added ∧ r.removed = t.removed ∧ r.unmodified = t.unmodified := by
  obtain ⟨t, h1, h2, h3, h4, h5⟩ := traceback_spec (linesOf str1) (linesOf str2)
    (lcsTable (linesOf str1) (linesOf str2))
  have hd : diffStrings F str1 str2 context_size =
      match markContext context_size t.diffLines.reverse with
      | none => none
      | some diffLines =>
        some { diff := render F diffLines 0 [], added := t.added, removed := t.removed,
               unmodified := t.unmodified } := by
    unfold diffStrings
    simp only [splitLines_eq, h1]
  have hm := markContext_isSome context_size t.diffLines.reverse
  rw [List.countP_reverse, h5] at hm
  refine ⟨t, h1, h2, h3, h4, ?_, ?_⟩
  · rw [hd, ← h4]
    cases hmc : markContext context_size t.diffLines.reverse with
    | none =>
      rw [hmc] at hm
      simp only [Option.isSome_none, Bool.false_eq_true, false_iff] at hm
      constructor
      · rintro ⟨r, hr⟩
        simp at hr
      · intro h
        exact absurd (h.imp id (fun h => by omega)) hm
    | some dl =>
      rw [hmc] at hm
      simp only [Option.isSome_some, true_iff] at hm
      constructor
      · intro _
        exact hm.imp id (fun h => by omega)
      · intro _
        exact ⟨_, rfl⟩
  · intro r hr
    rw [hd] at hr
    cases hmc : markContext context_size t.diffLines.reverse with
    | none => simp [hmc] at hr
    | some dl =>
      simp only [hmc, Option.some.injEq] at hr
      subst hr
      exact ⟨rfl, rfl, rfl⟩

/-- When lines that are equal after trimming are equal, the first loop of the
traceback counts as unmodified as many lines as the recurrence says. -/
theorem tracebackLoop_unmodified (lines1 lines2 : List Str) (T : Table)
    (hT : ∀ a b, a ≤ lines1.length → b ≤ lines2.length →
      cell T a b = lcsLen trim_spaces lines1 lines2 a b)
    (hH : ∀ a b, a < lines1.length → b < lines2.length →
      trim_spaces (lines1.getD a []) = trim_spaces (lines2.getD b []) →
      lines1.getD a [] = lines2.getD b []) :
    ∀ (fuel : Nat) (t t2 : Trace), t.i ≤ lines1.length → t.j ≤ lines2.length →
      tracebackLoop lines1 lines2 T fuel t = some t2 →
      t2.unmodified = t.unmodified + lcsLen trim_spaces lines1 lines2 t.i t.j
  | 0, t, t2, _, _, h => by
    simp only [tracebackLoop] at h
    split at h
    · simp at h
    · simp only [Option.some.injEq] at h
      subst h
      rename_i hc
      by_cases hi : t.i = 0
      · simp [hi, lcsLen]
      · have hj : t.j = 0 := by omega
        simp [hj, lcsLen_zero_right]
  | fuel + 1, t, t2, h1, h2, h => by
    rw [tracebackLoop] at h
    by_cases hc : 0 < t.i ∧ 0 < t.j
    · obtain ⟨hi, hj⟩ := hc
      obtain ⟨i, hi2⟩ : ∃ i, t.i = i + 1 := ⟨t.i - 1, by omega⟩
      obtain ⟨j, hj2⟩ : ∃ j, t.j = j + 1 := ⟨t.j - 1, by omega⟩
      simp only [hi, hj, and_self, if_true] at h
      rw [hi2, hj2, lcsLen]
      simp only [hi2, hj2, Nat.add_sub_cancel] at h
      by_cases heq : lines1.getD i [] = lines2.getD j []
      · simp only [heq, if_true] at h
        have := tracebackLoop_unmodified lines1 lines2 T hT hH fuel _ t2
          (by simp only; omega) (by simp only; omega) h
        simp only at this
        rw [this, if_pos (by rw [heq])]
        omega
      · simp only [heq, if_false] at h
        have hne : ¬ trim_spaces (lines1.getD i []) = trim_spaces (lines2.getD j []) :=
          fun h3 => heq (hH i j (by omega) (by omega) h3)
        rw [if_neg hne]
        rw [hT i (j + 1) (by omega) (by omega), hT (i + 1) j (by omega) (by omega)] at h
        by_cases hg : lcsLen trim_spaces lines1 lines2 i (j + 1)
            ≤ lcsLen trim_spaces lines1 lines2 (i + 1) j
        · simp only [hg, if_true] at h
          have := tracebackLoop_unmodified lines1 lines2 T hT hH fuel _ t2
            (by simp only; omega) (by simp only; omega) h
          simp only at this
          rw [this, max_eq_left hg]
        · simp only [hg, if_false] at h
          have := tracebackLoop_unmodified lines1 lines2 T hT hH fuel _ t2
            (by simp only; omega) (by simp only; omega) h
          simp only at this
          rw [this, max_eq_right (by omega)]
    · simp only [hc, if_false, Option.some.injEq] at h
      subst h
      by_cases hi : t.i = 0
      · simp [hi, lcsLen]
      · have hj : t.j = 0 := by omega
        simp [hj, lcsLen_zero_right]

/-- A common subsequence up to trimming of lists whose lines are equal when they
are equal after trimming is one of equal lines. -/
theorem isLcsLength_id_of_trim (n : Nat) (xs ys : List Str)
    (hH : ∀ a ∈ xs, ∀ b ∈ ys, trim_spaces a = trim_spaces b → a = b)
    (h : IsLcsLength trim_spaces n xs ys) : IsLcsLength id n xs ys := by
  have conv : ∀ s1 s2 : List Str, s1.Sublist xs → s2.Sublist ys →
      s1.map trim_spaces = s2.map trim_spaces → s1 = s2 := by
    intro s1
    induction s1 with
    | nil =>
      intro s2 _ _ h3
      have := congrArg List.length h3
      simp only [List.map_nil, List.length_nil, List.length_map] at this
      exact (List.length_eq_zero.1 this.symm).symm
    | cons a s1 ih =>
      intro s2 h1 h2 h3
      cases s2 with
      | nil => simp at h3
      | cons b s2 =>
        simp only [List.map_cons, List.cons.injEq] at h3
        have ha : a ∈ xs := h1.subset (List.mem_cons_self _ _)
        have hb : b ∈ ys := h2.subset (List.mem_cons_self _ _)
        rw [hH a ha b hb h3.1, ih s2 ((List.sublist_cons_self _ _).trans h1)
          ((List.sublist_cons_self _ _).trans h2) h3.2]
  obtain ⟨⟨s1, s2, ⟨h1, h2, h3⟩, h4⟩, hmax⟩ := h
  refine ⟨⟨s1, s2, ⟨h1, h2, by rw [conv s1 s2 h1 h2 h3]⟩, h4⟩, ?_⟩
  rintro t1 t2 ⟨g1, g2, g3⟩
  simp only [List.map_id] at g3
  exact hmax t1 t2 ⟨g1, g2, by rw [g3]⟩

theorem getD_mem (l : List Str) (a : Nat) (ha : a < l.length) : l.getD a [] ∈ l := by
  rw [List.getD_eq_getElem?_getD, List.getElem?_eq_getElem ha]
  exact List.getElem_mem ha

/-- When lines that are equal after trimming are equal, the traceback on the
table of the two loops counts as unmodified the length of the longest common
subsequence. -/
theorem traceback_unmodified (lines1 lines2 : List Str) (t : Trace)
    (hH : ∀ a ∈ lines1, ∀ b ∈ lines2, trim_spaces a = trim_spaces b → a = b)
    (h : traceback lines1 lines2 (lcsTable lines1 lines2) = some t) :
    IsLcsLength id t.unmodified lines1 lines2 := by
  unfold traceback at h
  cases hl : tracebackLoop lines1 lines2 (lcsTable lines1 lines2)
      (lines1.length + lines2.length)
      { i := lines1.length, j := lines2.length, added := 0, removed := 0, unmodified := 0,
        diffLines := [] } with
  | none => simp [hl] at h
  | some t2 =>
    simp only [hl, Option.some.injEq] at h
    have hu := tracebackLoop_unmodified lines1 lines2 (lcsTable lines1 lines2)
      (fun a b ha hb => lcsTable_cell lines1 lines2 a b ha hb)
      (fun a b ha hb => hH _ (getD_mem lines1 a ha) _ (getD_mem lines2 b hb))
      _ _ t2 (le_refl _) (le_refl _) hl
    simp only [Nat.zero_add] at hu
    obtain ⟨_, _, _, _, a5, _⟩ := removeRest_spec lines1 t2.i t2 rfl
    obtain ⟨_, _, _, _, b5, _⟩ := addRest_spec lines2 (removeRest lines1 t2.i t2).j
      (removeRest lines1 t2.i t2) rfl
    have ht : t.unmodified = lcsLen trim_spaces lines1 lines2 lines1.length lines2.length := by
      rw [← h, b5, a5, hu]
    rw [ht]
    have := lcsLen_isLcsLength trim_spaces lines1 lines2 lines1.length lines2.length
      (le_refl _) (le_refl _)
    rw [List.take_length, List.take_length] at this
    exact isLcsLength_id_of_trim _ _ _ hH this

/-- C34: `diffStrings` reports no change exactly for equal line lists: whenever
it returns, the result has `added = 0` and `removed = 0` if and only if the two
strings have the same lines, and then `unmodified` is the number of lines; the
lines are what `splitLines` returns, the text split at every `'\n'` with a final
`'\n'` not starting a further line; and `diffStrings` returns for every context
size below `SIZE_MAX`, and at `SIZE_MAX` when the lines are the same. -/
theorem diffStrings_no_change_iff_same_lines (F : DiffFormat) (str1 str2 : Str)
    (context_size : Nat) :
    (splitLines str1 = some (linesOf str1) ∧ splitLines str2 = some (linesOf str2)) ∧
    ((∃ r, diffStrings F str1 str2 context_size = some r) ↔
      (context_size < SIZE_MAX ∨ linesOf str1 = linesOf str2)) ∧
    (∀ r, diffStrings F str1 str2 context_size = some r →
      ((r.added = 0 ∧ r.removed = 0) ↔ linesOf str1 = linesOf str2) ∧
      (linesOf str1 = linesOf str2 → r.unmodified = (linesOf str1).length)) ∧
    (∀ text : Str, (∀ l ∈ linesOf text, 10 ∉ l) ∧
      ((linesOf text).map (fun l => l ++ [10])).flatten =
        if text = [] ∨ text.getLast? = some 10 then text else text ++ [10]) := by
  obtain ⟨t, _, h2, _, h4, h5, h6⟩ := diffStrings_stages F str1 str2 context_size
  refine ⟨⟨splitLines_eq str1, splitLines_eq str2⟩, h5, fun r hr => ?_, linesOf_spec⟩
  obtain ⟨ha, hb, hc⟩ := h6 r hr
  rw [ha, hb, hc]
  refine ⟨h4, fun he => ?_⟩
  have := h4.2 he
  omega

theorem diffStrings_no_change_iff_same_lines_witness :
    (∃ r, diffStrings plainFormat (bytes "a\nb\n") (bytes "a\nb") 3 = some r ∧
      ((r.added = 0 ∧ r.removed = 0) ↔
        linesOf (bytes "a\nb\n") = linesOf (bytes "a\nb"))) ∧
    linesOf (bytes "a\nb\n") = linesOf (bytes "a\nb") ∧
    (diffStrings plainFormat (bytes "a\nb\n") (bytes "a\nb") 3).map
        (fun r => (r.added, r.removed, r.unmodified)) = some (0, 0, 2) ∧
    (diffStrings plainFormat (bytes "a\nb") (bytes "a\nc") 3).map
        (fun r => (r.added, r.removed, r.unmodified)) = some (1, 1, 1) :=
  ⟨((diffStrings_no_change_iff_same_lines plainFormat (bytes "a\nb\n") (bytes "a\nb")
      3).2.1.2 (Or.inl (by decide))).elim
    (fun r hr => ⟨r, hr, ((diffStrings_no_change_iff_same_lines plainFormat (bytes "a\nb\n")
      (bytes "a\nb") 3).2.2.1 r hr).1⟩),
    by decide, by decide, by decide⟩

/-- C37: the statistics of `diffStrings` account for every line exactly once:
whenever it returns, `unmodified + removed` is the number of lines of `str1` and
`unmodified + added` the number of lines of `str2`; and `diffStrings` returns
for every context size below `SIZE_MAX`, and at `SIZE_MAX` when the lines are
the same. -/
theorem diffStrings_counts_every_line (F : DiffFormat) (str1 str2 : Str) (context_size : Nat) :
    (splitLines str1 = some (linesOf str1) ∧ splitLines str2 = some (linesOf str2)) ∧
    ((∃ r, diffStrings F str1 str2 context_size = some r) ↔
      (context_size < SIZE_MAX ∨ linesOf str1 = linesOf str2)) ∧
    (∀ r, diffStrings F str1 str2 context_size = some r →
      r.unmodified + r.removed = (linesOf str1).length ∧
      r.unmodified + r.added = (linesOf str2).length) := by
  obtain ⟨t, _, h2, h3, _, h5, h6⟩ := diffStrings_stages F str1 str2 context_size
  refine ⟨⟨splitLines_eq str1, splitLines_eq str2⟩, h5, fun r hr => ?_⟩
  obtain ⟨ha, hb, hc⟩ := h6 r hr
  rw [ha, hb, hc]
  exact ⟨h2, h3⟩

theorem diffStrings_counts_every_line_witness :
    (∃ r, diffStrings plainFormat (bytes "a\nb\nc") (bytes "b\nd") 3 = some r ∧
      r.unmodified + r.removed = (linesOf (bytes "a\nb\nc")).length ∧
      r.unmodified + r.added = (linesOf (bytes "b\nd")).length) ∧
    (diffStrings plainFormat (bytes "a\nb\nc") (bytes "b\nd") 3).map
        (fun r => (r.added, r.removed, r.unmodified)) = some (1, 2, 1) :=
  ⟨((diffStrings_counts_every_line plainFormat (bytes "a\nb\nc") (bytes "b\nd") 3).2.1.2
      (Or.inl (by decide))).elim
    (fun r hr => ⟨r, hr, (diffStrings_counts_every_line plainFormat (bytes "a\nb\nc")
      (bytes "b\nd") 3).2.2 r hr⟩),
    by decide⟩

/-- C36: each cell of the table built by `diffStrings` holds an LCS length: for
all `i` and `j` up to the numbers of lines, `lcsTable[i][j]` is the length of the
longest common subsequence of the first `i` lines of `str1` and the first `j`
lines of `str2`, two lines counting as equal when `trim_spaces` gives the same
string for both; `trim_spaces` drops the leading and trailing spaces, tabs,
carriage returns and newlines. -/
theorem lcsTable_cells_hold_lcs_lengths (str1 str2 : Str) :
    (splitLines str1 = some (linesOf str1) ∧ splitLines str2 = some (linesOf str2)) ∧
    (∀ i j, i ≤ (linesOf str1).length → j ≤ (linesOf str2).length →
      IsLcsLength trim_spaces (cell (lcsTable (linesOf str1) (linesOf str2)) i j)
        ((linesOf str1).take i) ((linesOf str2).take j)) ∧
    (∀ s : Str, trim_spaces s = trimSpec s) := by
  refine ⟨⟨splitLines_eq str1, splitLines_eq str2⟩, fun i j hi hj => ?_, trim_spaces_eq⟩
  rw [lcsTable_cell _ _ i j hi hj]
  exact lcsLen_isLcsLength trim_spaces _ _ i j hi hj

theorem lcsTable_cells_hold_lcs_lengths_witness :
    IsLcsLength trim_spaces
        (cell (lcsTable (linesOf (bytes "b\na\nc")) (linesOf (bytes " a\nb\nc "))) 3 3)
        ((linesOf (bytes "b\na\nc")).take 3) ((linesOf (bytes " a\nb\nc ")).take 3) ∧
      cell (lcsTable (linesOf (bytes "b\na\nc")) (linesOf (bytes " a\nb\nc "))) 3 3 = 2 :=
  ⟨(lcsTable_cells_hold_lcs_lengths (bytes "b\na\nc") (bytes " a\nb\nc ")).2.1 3 3
      (by decide) (by decide),
    by decide⟩

/-- C35, the code at the failing input: for the strings `"b\na"` and `" a\nb"`
`diffStrings` returns `unmodified = 0`, while the longest common subsequence of
the two line lists has the length 1 (the line `b`), for lines compared as they
are and for lines compared after trimming; the table is built on trimmed lines
and the traceback compares the lines as they are.  When lines that are equal
after trimming are equal, `unmodified` is the length of the longest common
subsequence. -/
theorem diffStrings_unmodified_lcs :
    (∀ (F : DiffFormat) (str1 str2 : Str) (context_size : Nat) (r : DiffStringsResult),
      (∀ a ∈ linesOf str1, ∀ b ∈ linesOf str2, trim_spaces a = trim_spaces b → a = b) →
      diffStrings F str1 str2 context_size = some r →
      IsLcsLength id r.unmodified (linesOf str1) (linesOf str2)) ∧
    ((diffStrings plainFormat (bytes "b\na") (bytes " a\nb") 3).map
        (fun r => (r.added, r.removed, r.unmodified)) = some (2, 2, 0) ∧
      IsLcsLength id 1 (linesOf (bytes "b\na")) (linesOf (bytes " a\nb")) ∧
      IsLcsLength trim_spaces 1 (linesOf (bytes "b\na")) (linesOf (bytes " a\nb"))) := by
  refine ⟨fun F str1 str2 context_size r hH hr => ?_, by decide, ?_, ?_⟩
  · obtain ⟨t, h1, _, _, _, _, h6⟩ := diffStrings_stages F str1 str2 context_size
    rw [(h6 r hr).2.2]
    exact traceback_unmodified _ _ t hH h1
  · have := lcsLen_isLcsLength id (linesOf (bytes "b\na")) (linesOf (bytes " a\nb")) 2 2
      (by decide) (by decide)
    have e : lcsLen id (linesOf (bytes "b\na")) (linesOf (bytes " a\nb")) 2 2 = 1 := by
      have l1 : linesOf (bytes "b\na") = [[98], [97]] := by decide
      have l2 : linesOf (bytes " a\nb") = [[32, 97], [98]] := by decide
      rw [l1, l2]
      simp [lcsLen]
    rw [e] at this
    exact this
  · have := lcsLen_isLcsLength trim_spaces (linesOf (bytes "b\na"))
      (linesOf (bytes " a\nb")) 2 2 (by decide) (by decide)
    have e : lcsLen trim_spaces (linesOf (bytes "b\na")) (linesOf (bytes " a\nb")) 2 2
        = 1 := by
      rw [← lcsTable_cell _ _ 2 2 (by decide) (by decide)]
      decide
    rw [e] at this
    exact this

theorem diffStrings_unmodified_lcs_witness :
    (diffStrings plainFormat (bytes "b\na") (bytes " a\nb") 3).map
        (fun r => (r.added, r.removed, r.unmodified)) = some (2, 2, 0) ∧
      IsLcsLength id 1 (linesOf (bytes "b\na")) (linesOf (bytes " a\nb")) :=
  ⟨diffStrings_unmodified_lcs.2.1, diffStrings_unmodified_lcs.2.2.1⟩

end test_suite

end Mrdox
